import Mathlib

/-!
# PMTree2DGridForCNN: procedural tree generator and patch classifier

A shallow embedding of `PMTree2D.cpp` (namespace `pmtree`) and of
`GLWidget3D::computePatchType` (`GLWidget3D.cpp`).

Conventions of the embedding.

* `float` values are rationals: every statement is about exact arithmetic.
* `int` values are `Int`; pixel channels (`uchar`) and counters are `Nat`.
* The heap of `boost::shared_ptr<TreeNode>` objects is a list of nodes; a
  pointer is the position of the node in that list (its allocation number).
* `utils::uniform` (declared in `Utils.h`) and `sinf` are parameters.
* Loops and recursions that the C++ runs until a queue drains or a subtree is
  exhausted take a fuel argument and return `none` when it runs out.
-/

namespace pmtree

/-! ## Constants (`PMTree2D.cpp`, lines 10-13) -/

def M_PI : ℚ := 3.1415926535
def NUM_SEGMENTS : Int := 30
def NUM_LEVELS : Int := 3
def MIN_SEGMENT_WIDTH : ℚ := 0.005

/-- The random source `utils::uniform`: `rnd k a b` is the value returned by
the call number `k` (counted from 0 over one run) when it is the call
`utils::uniform(a, b)`. -/
abbrev Uniform := Nat → ℚ → ℚ → ℚ

/-! ## `shapeRatio` (lines 23-61) -/

def shapeRatio (sinf : ℚ → ℚ) (shape : Int) (ratio : ℚ) : ℚ :=
  if shape = 0 then
    0.2 + 0.8 * ratio
  else if shape = 1 then
    0.2 + 0.8 * sinf (M_PI * ratio)
  else if shape = 2 then
    0.2 + 0.8 * sinf (0.5 * M_PI * ratio)
  else if shape = 3 then
    1.0
  else if shape = 4 then
    0.5 + 0.5 * ratio
  else if shape = 5 then
    if ratio ≤ 0.7 then
      ratio / 0.7
    else
      (1.0 - ratio) / 0.3
  else if shape = 6 then
    1.0 - 0.8 * ratio
  else if shape = 7 then
    if ratio ≤ 0.7 then
      0.5 + 0.5 * ratio / 0.7
    else
      0.5 + 0.5 * (1.0 - ratio) / 0.3
  else
    0.0

/-! ## `TreeNode` (lines 63-108) -/

structure TreeNode where
  parent : Option Nat
  level : Int
  index : Int
  segmentLength : ℚ
  baseFactor : ℚ
  curve : ℚ
  curveBack : ℚ
  attenuationFactor : ℚ
  curveV : ℚ
  rotateV : ℚ
  children : List Nat
  deriving DecidableEq, Repr

/-- The constructor `TreeNode::TreeNode`. Its last three statements assign
`0` to the parameter `attenuationFactor` (which shadows the member, so the
member keeps the value passed in) and to the members `curveV`, `rotateV`. -/
def TreeNode.new (parent : Option Nat) (level index : Int)
    (segmentLength attenuationFactor baseFactor curve curveBack : ℚ) : TreeNode :=
  { parent := parent
    level := level
    index := index
    segmentLength := segmentLength
    baseFactor := baseFactor
    curve := curve
    curveBack := curveBack
    attenuationFactor := attenuationFactor
    curveV := 0
    rotateV := 0
    children := [] }

/-- The method `TreeNode::generateRandom`, run on node `n` when `k` calls of
`utils::uniform` have been made; returns the node and the new call count. -/
def TreeNode.generateRandom (rnd : Uniform) (k : Nat) (n : TreeNode) : TreeNode × Nat :=
  let s1 : TreeNode × Nat :=
    if n.level = 0 ∧ n.index = 0 then
      ({ n with baseFactor := rnd k 0 0.5 }, k + 1)
    else (n, k)
  let n1 := s1.1
  let k1 := s1.2
  let s2 : TreeNode × Nat :=
    if n1.index = 0 then
      let n2 := { n1 with curve := rnd k1 (-90) 90, curveBack := rnd (k1 + 1) (-90) 90 }
      if n2.level > 0 then
        ({ n2 with curveV := rnd (k1 + 2) (-90) 90 }, k1 + 3)
      else (n2, k1 + 2)
    else
      if (n1.index : ℚ) < (NUM_SEGMENTS : ℚ) / 2.0 then
        ({ n1 with curveV := rnd k1 (-5) 5 + n1.curve / (NUM_SEGMENTS : ℚ) / 2.0 }, k1 + 1)
      else
        ({ n1 with curveV := rnd k1 (-5) 5 + n1.curveBack / (NUM_SEGMENTS : ℚ) / 2.0 }, k1 + 1)
  ({ s2.1 with rotateV := 59.0 }, s2.2)

/-- The method `TreeNode::to_string`: the three printed values. -/
def TreeNode.to_string (n : TreeNode) : ℚ × ℚ × ℚ :=
  (n.baseFactor, n.attenuationFactor, (n.curve + 90) / 180.0)

/-! ## `PMTree2D::generateRandom` (lines 121-161) -/

/-- The state of the work-queue loop: the heap, the queue of node pointers
and the number of `utils::uniform` calls made so far. -/
structure GenState where
  nodes : List TreeNode
  queue : List Nat
  calls : Nat
  deriving DecidableEq, Repr

/-- The first three statements of `PMTree2D::generateRandom`: the root is
allocated at position 0, randomised and queued. -/
def generateRandomInit (rnd : Uniform) : GenState :=
  let r := (TreeNode.new none 0 0 (10.0 / (NUM_SEGMENTS : ℚ)) 1.0 0.0 0 0).generateRandom rnd 0
  { nodes := [r.1], queue := [0], calls := r.2 }

/-- The attenuation factor of a new branch (lines 144-150); call `k` is the
`uniform(0.5, 0.8)` or `uniform(0.3, 0.6)` draw. -/
def branchAttenuation (sinf : ℚ → ℚ) (rnd : Uniform) (k : Nat) (node : TreeNode) : ℚ :=
  if node.level = 0 then
    rnd k 0.5 0.8 * shapeRatio sinf 7
      (((NUM_SEGMENTS - node.index - 1 : Int) : ℚ) / ((NUM_SEGMENTS : ℚ) * (1.0 - node.baseFactor)))
  else
    rnd k 0.3 0.6 * ((NUM_SEGMENTS : ℚ) - (node.index : ℚ) * 0.9) / (NUM_SEGMENTS : ℚ)

/-- Allocation of `child` at the end of the heap followed by
`node->children.push_back(child)` and `queue.push_back(child)`; `node` is the
current content of the heap cell `id`. -/
def attach (id : Nat) (node child : TreeNode) (s : GenState) : GenState :=
  { nodes := s.nodes.set id { node with children := node.children ++ [s.nodes.length] } ++ [child]
    queue := s.queue ++ [s.nodes.length]
    calls := s.calls }

/-- The body of the `while` loop for the dequeued node `id` (lines 133-159);
`node` is the content of the heap cell `id` and `s` the state after
`pop_front`. -/
def generateRandomBody (sinf : ℚ → ℚ) (rnd : Uniform) (id : Nat) (node : TreeNode)
    (s : GenState) : GenState :=
  if node.index < NUM_SEGMENTS - 1 then
    -- extend the segment
    let c := (TreeNode.new (some id) node.level (node.index + 1) node.segmentLength 1.0
      node.baseFactor node.curve node.curveBack).generateRandom rnd s.calls
    let s1 : GenState := { attach id node c.1 s with calls := c.2 }
    let node1 := { node with children := node.children ++ [s.nodes.length] }
    if node.level < NUM_LEVELS then
      if node.level > 0 ∨ ((node.index + 1 : Int) : ℚ) > (NUM_SEGMENTS : ℚ) * node.baseFactor then
        if rnd s1.calls 0 1 > 0.4 then
          -- branching
          let attenuationFactor := branchAttenuation sinf rnd (s1.calls + 1) node
          let b := (TreeNode.new (some id) (node.level + 1) 0 node.segmentLength
            attenuationFactor 0.0 0.0 0.0).generateRandom rnd (s1.calls + 2)
          { attach id node1 b.1 s1 with calls := b.2 }
        else { s1 with calls := s1.calls + 1 }
      else s1
    else s1
  else s

/-- The `while (!queue.empty())` loop; `none` when the fuel runs out before
the queue drains or when a queued pointer is not on the heap. -/
def generateRandomLoop (sinf : ℚ → ℚ) (rnd : Uniform) : Nat → GenState → Option GenState
  | fuel, s =>
    match s.queue with
    | [] => some s
    | id :: rest =>
      match fuel with
      | 0 => none
      | fuel + 1 =>
        match s.nodes[id]? with
        | none => none
        | some node =>
          generateRandomLoop sinf rnd fuel
            (generateRandomBody sinf rnd id node { s with queue := rest })

/-- The tree object: the heap and the pointer `root`. -/
structure PMTree2D where
  nodes : List TreeNode
  root : Nat
  deriving DecidableEq, Repr

/-- The method `PMTree2D::generateRandom`: the tree left when the queue has
drained. -/
def PMTree2D.generateRandom (sinf : ℚ → ℚ) (rnd : Uniform) (fuel : Nat) : Option PMTree2D :=
  (generateRandomLoop sinf rnd fuel (generateRandomInit rnd)).map
    (fun s => { nodes := s.nodes, root := 0 })

/-! ## Geometry emission (lines 163-239) -/

/-- One call of the external shape emitter. `cylinder` records the arguments
of `glutils::drawCylinderY` (two radii, height, colour) and `circle` those of
`glutils::drawCircle`; in place of the `glm::mat4` transform, which no branch
of the code inspects, the record keeps the node that is being drawn. -/
inductive Primitive where
  | cylinder (node : Nat) (radius1 radius2 height : ℚ) (color : ℚ × ℚ × ℚ × ℚ)
  | circle (node : Nat) (radius1 radius2 : ℚ) (color : ℚ × ℚ × ℚ × ℚ)
  deriving DecidableEq, Repr

/-- The method `PMTree2D::generateLeafGeometry`: one `drawCircle` call. -/
def generateLeafGeometry (id : Nat) : List Primitive :=
  let leaf_length : ℚ := 0.1
  [Primitive.circle id (leaf_length * 0.25) (leaf_length * 0.5) (0, 0, 1, 1.0)]

/-- The method `PMTree2D::generateSegmentGeometry`: the primitives appended
to `vertices`, in order. The returned flag `underground` is the constant
`false` in the source and is left out. -/
def generateSegmentGeometry (nodes : List TreeNode) :
    Nat → ℚ → ℚ → Bool → Nat → Option (List Primitive)
  | 0, _, _, _, _ => none
  | fuel + 1, segment_length, segment_width, fixed_width, id =>
    match nodes[id]? with
    | none => none
    | some node =>
      let w1 : ℚ :=
        if !fixed_width then
          (segment_width - MIN_SEGMENT_WIDTH) * ((NUM_SEGMENTS - node.index : Int) : ℚ)
            / (NUM_SEGMENTS : ℚ) + MIN_SEGMENT_WIDTH
        else segment_width
      let w2 : ℚ :=
        if !fixed_width then
          (segment_width - MIN_SEGMENT_WIDTH) * ((NUM_SEGMENTS - node.index - 1 : Int) : ℚ)
            / (NUM_SEGMENTS : ℚ) + MIN_SEGMENT_WIDTH
        else segment_width
      let color : ℚ × ℚ × ℚ × ℚ := if node.level > 0 then (0, 1, 0, 1) else (1, 0, 0, 1.0)
      let own := [Primitive.cylinder id (w1 * 0.5) (w2 * 0.5) segment_length color]
      -- if (node->children.size() >= 1): extend the segment
      let r1 : Option (List Primitive) :=
        match node.children[0]? with
        | none => some []
        | some c0 =>
          generateSegmentGeometry nodes fuel segment_length segment_width fixed_width c0
      -- if (node->children.size() >= 2)
      let r2 : Option (List Primitive) :=
        match node.children[1]? with
        | none => some []
        | some c1 =>
          match nodes[c1]? with
          | none => none
          | some child1 =>
            if node.level < NUM_LEVELS - 1 then
              -- branching
              if fixed_width then
                generateSegmentGeometry nodes fuel (segment_length * child1.attenuationFactor)
                  segment_width fixed_width c1
              else
                generateSegmentGeometry nodes fuel (segment_length * child1.attenuationFactor)
                  (max MIN_SEGMENT_WIDTH (w1 * child1.attenuationFactor)) fixed_width c1
            else
              some (generateLeafGeometry c1)
      match r1, r2 with
      | some a, some b => some (own ++ a ++ b)
      | _, _ => none

/-- The method `PMTree2D::generateGeometry`: the content of `vertices` when it
is handed to `renderManager->addObject`. -/
def PMTree2D.generateGeometry (t : PMTree2D) (fuel : Nat) (fixed_width : Bool) :
    Option (List Primitive) :=
  let length : ℚ := 10.0 / (NUM_SEGMENTS : ℚ)
  let width : ℚ := if fixed_width then 0.03 else 0.3
  generateSegmentGeometry t.nodes fuel length width fixed_width t.root

/-! ## Training samples (lines 241-327) -/

/-- An entry of `localImages`: the 128x128 patch cropped at the visit of
`node` with argument `segment_length`. The pixels (projection, rotation, crop,
resize and threshold by OpenCV) are not modelled. -/
structure LocalImage where
  node : Nat
  segment_length : ℚ
  deriving DecidableEq, Repr

/-- The block "パラメータを格納" of `generateTrainingData` (lines 296-314): the
vector `params` built for `node`. -/
def trainingParams (nodes : List TreeNode) (node : TreeNode) : Option (List ℚ) :=
  let p1 : Option (List ℚ) :=
    match node.children[0]? with
    | some c0 => (nodes[c0]?).map (fun child0 => [1, (child0.curveV + 90.0) / 180.0])
    | none => some [0, 0.5]
  let p2 : Option (List ℚ) :=
    match node.children[1]? with
    | some c1 => (nodes[c1]?).map (fun child1 => [1, (child1.curveV + 90.0) / 180.0])
    | none => some [0, 0.5]
  match p1, p2 with
  | some a, some b => some (a ++ b)
  | _, _ => none

/-- The recursive method `PMTree2D::generateTrainingData` (lines 251-327):
the entries appended to `localImages` and to `parameters`, in order. -/
def generateTrainingData (nodes : List TreeNode) :
    Nat → ℚ → Nat → Option (List LocalImage × List (List ℚ))
  | 0, _, _ => none
  | fuel + 1, segment_length, id =>
    match nodes[id]? with
    | none => none
    | some node =>
      let crop_size : ℚ := 64
      if crop_size ≤ 0 then some ([], [])
      else
        match trainingParams nodes node with
        | none => none
        | some params =>
          let own : List LocalImage × List (List ℚ) :=
            ([{ node := id, segment_length := segment_length }], [params])
          -- 子ノードの枝へ、再起処理
          match node.children[0]? with
          | none => some own
          | some c0 =>
            match generateTrainingData nodes fuel segment_length c0 with
            | none => none
            | some a =>
              match (if node.level ≤ 1 then node.children[1]? else none) with
              | none => some (own.1 ++ a.1, own.2 ++ a.2)
              | some c1 =>
                match nodes[c1]? with
                | none => none
                | some child1 =>
                  match generateTrainingData nodes fuel
                      (segment_length * child1.attenuationFactor) c1 with
                  | none => none
                  | some b => some (own.1 ++ a.1 ++ b.1, own.2 ++ a.2 ++ b.2)

/-- The public method `PMTree2D::generateTrainingData` (lines 241-249). -/
def PMTree2D.generateTrainingData (t : PMTree2D) (fuel : Nat) :
    Option (List LocalImage × List (List ℚ)) :=
  pmtree.generateTrainingData t.nodes fuel (10.0 / (NUM_SEGMENTS : ℚ)) t.root

/-! ## Serialization (lines 329-355) -/

/-- The `while (!queue.empty())` loop of `PMTree2D::to_string`; `ss` holds the
node tuples written so far (the commas between them are not modelled). -/
def to_stringLoop (nodes : List TreeNode) :
    Nat → List Nat → List (ℚ × ℚ × ℚ) → Option (List (ℚ × ℚ × ℚ))
  | fuel, queue, ss =>
    match queue with
    | [] => some ss
    | id :: rest =>
      match fuel with
      | 0 => none
      | fuel + 1 =>
        match nodes[id]? with
        | none => none
        | some node => to_stringLoop nodes fuel (rest ++ node.children) (ss ++ [node.to_string])

/-- The method `PMTree2D::to_string()`: the node tuples in output order. -/
def PMTree2D.to_string (t : PMTree2D) (fuel : Nat) : Option (List (ℚ × ℚ × ℚ)) :=
  to_stringLoop t.nodes fuel [t.root] []

/-- The loop of `PMTree2D::to_string(int index)` (lines 365-384): as in
`to_string()`, with the counter `count` and the `break` after the tuple of
the node has been written. -/
def to_stringLoopN (nodes : List TreeNode) (index : Int) :
    Nat → List Nat → List (ℚ × ℚ × ℚ) → Int → Option (List (ℚ × ℚ × ℚ))
  | fuel, queue, ss, count =>
    match queue with
    | [] => some ss
    | id :: rest =>
      match fuel with
      | 0 => none
      | fuel + 1 =>
        match nodes[id]? with
        | none => none
        | some node =>
          if count + 1 ≥ index then some (ss ++ [node.to_string])
          else to_stringLoopN nodes index fuel (rest ++ node.children) (ss ++ [node.to_string])
            (count + 1)

/-- The method `PMTree2D::to_string(int index)`. -/
def PMTree2D.to_stringN (t : PMTree2D) (fuel : Nat) (index : Int) : Option (List (ℚ × ℚ × ℚ)) :=
  to_stringLoopN t.nodes index fuel [t.root] [] 0

end pmtree

/-! ## `GLWidget3D::computePatchType` (`GLWidget3D.cpp`, lines 98-130) -/

namespace GLWidget3D

/-- The value of an arithmetic result `x` stored in a C++ `int`: the 32-bit
two's-complement integer congruent to `x`. -/
def toInt32 (x : Int) : Int := (x + 2147483648) % 4294967296 - 2147483648

/-- A `cv::Mat` of `cv::Vec3b` pixels: `px r c` is `patch.at<cv::Vec3b>(r, c)`
as (blue, green, red). -/
structure Mat where
  rows : Nat
  cols : Nat
  px : Nat → Nat → Nat × Nat × Nat

/-- The `int` counters `trunk`, `branch`, `leaf`. -/
structure Counts where
  trunk : Int
  branch : Int
  leaf : Int
  deriving DecidableEq, Repr

/-- The body of the inner loop (lines 105-120) for one pixel. -/
def countPixel (k : Counts) (p : Nat × Nat × Nat) : Counts :=
  let blue := p.1
  let green := p.2.1
  let red := p.2.2
  if blue > 240 ∧ green > 240 ∧ red > 240 then k
  else if red > green ∧ red > blue then { k with trunk := toInt32 (k.trunk + 1) }
  else if green > red ∧ green > blue then { k with branch := toInt32 (k.branch + 1) }
  else if blue > green ∧ blue > red then { k with leaf := toInt32 (k.leaf + 1) }
  else k

/-- The two nested `for` loops (lines 103-122). -/
def countPatch (patch : Mat) : Counts :=
  (List.range patch.rows).foldl
    (fun k r => (List.range patch.cols).foldl (fun k c => countPixel k (patch.px r c)) k)
    { trunk := 0, branch := 0, leaf := 0 }

/-- The function `GLWidget3D::computePatchType`. The product
`patch.rows * patch.cols` and the sum `trunk + branch + leaf` are `int`
arithmetic; the conversion `int threshold = patch.rows * patch.cols * 0.01`
truncates the hundredth of the product toward zero. -/
def computePatchType (patch : Mat) : Int :=
  let k := countPatch patch
  let threshold : Int := Int.tdiv (toInt32 ((patch.rows : Int) * (patch.cols : Int))) 100
  if toInt32 (toInt32 (k.trunk + k.branch) + k.leaf) < threshold then 0
  else if k.trunk > k.branch ∧ k.trunk > k.leaf then 1
  else if k.branch > k.leaf then 2
  else 3

/-! ## The record loop of `GLWidget3D::generatePredictedData` (lines 143-155) -/

/-- What the group-parsing loop of `generatePredictedData` (lines 146-153)
does with one line: it builds `params`, or it evaluates `data[index]` for an
`index` that is not a position of `data`. -/
inductive Parsed where
  | params (groups : List (List ℚ))
  | pastEnd (index : Nat)
  deriving DecidableEq, Repr

/-- The inner loop `for (int k = 0; k < 63; ++k)` from `k` on, with `n`
iterations left; `toFloat` is `QString::toFloat`. -/
def readGroup {α : Type} (toFloat : α → ℚ) (data : List α) (i : Nat) :
    Nat → Nat → List ℚ → Except Nat (List ℚ)
  | 0, _, ps => Except.ok ps
  | n + 1, k, ps =>
    match data[i * 63 + k]? with
    | none => Except.error (i * 63 + k)
    | some x => readGroup toFloat data i n (k + 1) (ps ++ [toFloat x])

/-- The outer loop `for (int i = 0; i * 63 < data.size(); ++i)` from `i` on;
`none` when the fuel runs out. -/
def parseGroups {α : Type} (toFloat : α → ℚ) (data : List α) :
    Nat → Nat → List (List ℚ) → Option Parsed
  | fuel, i, params =>
    if i * 63 < data.length then
      match fuel with
      | 0 => none
      | fuel + 1 =>
        match readGroup toFloat data i 63 0 [] with
        | Except.error index => some (Parsed.pastEnd index)
        | Except.ok ps => parseGroups toFloat data fuel (i + 1) (params ++ [ps])
    else some (Parsed.params params)

end GLWidget3D

/-! ## Definitions used by the statements and proofs -/

namespace pmtree

/-- All child pointers of the heap, in heap order. -/
def childIds (nodes : List TreeNode) : List Nat := (nodes.map TreeNode.children).flatten

/-- The children of the node in cell `id` are well placed. -/
structure KidsOK (nodes : List TreeNode) (id : Nat) (nd : TreeNode) : Prop where
  le2 : nd.children.length ≤ 2
  gt : ∀ c ∈ nd.children, id < c
  kid0 : ∀ c, nd.children[0]? = some c →
    ∃ cn, nodes[c]? = some cn ∧ cn.level = nd.level ∧ cn.index = nd.index + 1
  kid1 : ∀ c, nd.children[1]? = some c →
    ∃ cn, nodes[c]? = some cn ∧ cn.level = nd.level + 1 ∧ cn.index = 0

/-- The shape of a heap built by the work-queue loop. -/
structure HeapOK (nodes : List TreeNode) : Prop where
  layout : childIds nodes = List.range' 1 (nodes.length - 1)
  root : ∃ r, nodes[0]? = some r ∧ r.level = 0 ∧ r.index = 0
  bounds : ∀ (id : Nat) (nd : TreeNode), nodes[id]? = some nd →
    0 ≤ nd.level ∧ nd.level ≤ NUM_LEVELS ∧ 0 ≤ nd.index ∧ nd.index ≤ NUM_SEGMENTS - 1
  kids : ∀ (id : Nat) (nd : TreeNode), nodes[id]? = some nd → KidsOK nodes id nd

/-- The loop invariant: cells `u`, `u+1`, ... are the queue and have no
children yet. -/
structure GenInv (s : GenState) (u : Nat) : Prop where
  le : u ≤ s.nodes.length
  queue : s.queue = List.range' u (s.nodes.length - u)
  leaf : ∀ (id : Nat) (nd : TreeNode), s.nodes[id]? = some nd → u ≤ id → nd.children = []
  heap : HeapOK s.nodes

/-- One more than the number of child pointers held by the first `i` cells:
the first pointer not yet handed out when cell `i` is reached. -/
def frontierEnd (nodes : List TreeNode) (i : Nat) : Nat := 1 + (childIds (nodes.take i)).length

/-- The sum of `f` over the children of a cell. -/
def sumOver (f : Nat → Nat) (l : List Nat) : Nat := (l.map f).sum

/-- The number of primitives emitted by `generateSegmentGeometry`, computed by
the same recursion without the widths and lengths. -/
def visitCount (nodes : List TreeNode) : Nat → Nat → Option Nat
  | 0, _ => none
  | fuel + 1, id =>
    match nodes[id]? with
    | none => none
    | some node =>
      let r1 : Option Nat :=
        match node.children[0]? with
        | none => some 0
        | some c0 => visitCount nodes fuel c0
      let r2 : Option Nat :=
        match node.children[1]? with
        | none => some 0
        | some c1 =>
          match nodes[c1]? with
          | none => none
          | some _ => if node.level < NUM_LEVELS - 1 then visitCount nodes fuel c1 else some 1
      match r1, r2 with
      | some a, some b => some (1 + a + b)
      | _, _ => none

/-- A node is drawn by geometry emission when it lies below the last level or
starts a branch of the last level (where it is drawn as a leaf). -/
def drawn (nd : TreeNode) : Bool := decide (nd.level < NUM_LEVELS ∨ nd.index = 0)

/-- The number of primitives that the subtree of cell `j` contributes. -/
def segWeight (nodes : List TreeNode) (j : Nat) : Nat :=
  match nodes[j]? with
  | none => 0
  | some nd =>
    if nd.level < NUM_LEVELS then (visitCount nodes nodes.length j).getD 0
    else if nd.index = 0 then 1 else 0

/-- Indicator of `drawn` for cell `j`. -/
def drawnAt (nodes : List TreeNode) (j : Nat) : Nat :=
  match nodes[j]? with
  | none => 0
  | some nd => if drawn nd then 1 else 0

/-- The curvature ranges of claim C9. -/
def CurveOK (nd : TreeNode) : Prop :=
  (-90 ≤ nd.curve ∧ nd.curve ≤ 90) ∧ (-90 ≤ nd.curveBack ∧ nd.curveBack ≤ 90) ∧
    (-95 ≤ nd.curveV ∧ nd.curveV ≤ 95)

/-- The label vector that the specification describes for a node. -/
def LabelOK (nodes : List TreeNode) (nd : TreeNode) (lbl : List ℚ) : Prop :=
  lbl.length = 4 ∧
  lbl[0]? = some (if 1 ≤ nd.children.length then 1 else 0) ∧
  lbl[2]? = some (if 2 ≤ nd.children.length then 1 else 0) ∧
  (∀ k c, k < 2 → nd.children[k]? = some c →
    ∃ cn, nodes[c]? = some cn ∧ lbl[2 * k + 1]? = some ((cn.curveV + 90) / 180)) ∧
  (∀ k, k < 2 → nd.children[k]? = none →
    lbl[2 * k]? = some 0 ∧ lbl[2 * k + 1]? = some (0.5 : ℚ))

/-- The entry of `localImages` and the entry of `parameters` at the same
position come from the visit of one node. -/
def SampleOf (nodes : List TreeNode) (img : LocalImage) (lbl : List ℚ) : Prop :=
  ∃ nd, nodes[img.node]? = some nd ∧ trainingParams nodes nd = some lbl

/-- The largest number of nodes of a branch that starts at index 0 and has
`l` levels of branching left below it. -/
def branchWeight : Nat → Nat
  | 0 => 30
  | l + 1 => 1 + 29 * (1 + branchWeight l)

/-- A bound on the number of dequeues caused by a queued node with `l` levels
of branching and `r` continuation segments left. -/
def nodeWeight (l r : Nat) : Nat :=
  1 + r * (1 + (match l with
    | 0 => 0
    | l + 1 => branchWeight l))

/-- The weight of a node: levels left up to `NUM_LEVELS` and segments left up
to `NUM_SEGMENTS - 1`. -/
def TreeNode.weight (nd : TreeNode) : Nat :=
  nodeWeight (NUM_LEVELS - nd.level).toNat (NUM_SEGMENTS - 1 - nd.index).toNat

/-- The weight of the queue: cells `u`, `u+1`, ... of the heap. -/
def queueWeight (nodes : List TreeNode) (u : Nat) : Nat :=
  ((nodes.drop u).map TreeNode.weight).sum

/-- What the loop body leaves in a cell that it has processed. -/
def Processed (nd : TreeNode) : Prop :=
  (nd.children = [] ↔ ¬ nd.index < NUM_SEGMENTS - 1) ∧
  (nd.children.length = 2 → nd.index < NUM_SEGMENTS - 1 ∧ nd.level < NUM_LEVELS ∧
    (nd.level > 0 ∨ ((nd.index + 1 : Int) : ℚ) > (NUM_SEGMENTS : ℚ) * nd.baseFactor))

/-- The cells met from cell `id` by following `children[0]` until a node has
no child: the segments of one branch from `id` on. -/
def branchSegments (nodes : List TreeNode) : Nat → Nat → List Nat
  | 0, _ => []
  | fuel + 1, id =>
    match nodes[id]? with
    | none => []
    | some nd =>
      id :: (match nd.children[0]? with
        | none => []
        | some c => branchSegments nodes fuel c)

/-- The ranges of claim C12 for one node: the node is the root or a
continuation child when its level is 0 or its index is at least 1, a branch
from level 0 when it has index 0 and level 1, and a branch from a higher
level when it has index 0 and level at least 2. -/
def AttOK (nd : TreeNode) : Prop :=
  0 ≤ nd.level ∧ 0 ≤ nd.index ∧
  (nd.level = 0 → 0 ≤ nd.baseFactor ∧ nd.baseFactor ≤ 0.5) ∧
  (nd.level = 0 ∨ 1 ≤ nd.index → nd.attenuationFactor = 1) ∧
  (nd.index = 0 → nd.level = 1 →
    0.25 ≤ nd.attenuationFactor ∧ nd.attenuationFactor ≤ 0.8) ∧
  (nd.index = 0 → 2 ≤ nd.level →
    0.048 ≤ nd.attenuationFactor ∧ nd.attenuationFactor ≤ 0.6)

/-- The argument of `shapeRatio(7, .)` on line 146. -/
def trunkRatio (nd : TreeNode) : ℚ :=
  ((NUM_SEGMENTS - nd.index - 1 : Int) : ℚ) / ((NUM_SEGMENTS : ℚ) * (1.0 - nd.baseFactor))

/-- The node and the length of a cylinder segment; nothing for a leaf disc. -/
def Primitive.segment? : Primitive → Option (Nat × ℚ)
  | Primitive.cylinder node _ _ height _ => some (node, height)
  | Primitive.circle _ _ _ _ => none

/-- The node and the `segment_length` argument of the visit that produced a
training patch. -/
def LocalImage.visit (img : LocalImage) : Nat × ℚ := (img.node, img.segment_length)

/-- The visits of a run of `generateTrainingData`. -/
def sampleVisits (r : List LocalImage × List (List ℚ)) : List (Nat × ℚ) :=
  r.1.map LocalImage.visit

/-- The cylinder segments among emitted primitives. -/
def segmentsOf (prims : List Primitive) : List (Nat × ℚ) := prims.filterMap Primitive.segment?

/-- The start width `w1` of line 190. -/
def startWidth (segment_width : ℚ) (index : Int) : ℚ :=
  (segment_width - MIN_SEGMENT_WIDTH) * ((NUM_SEGMENTS - index : Int) : ℚ)
    / (NUM_SEGMENTS : ℚ) + MIN_SEGMENT_WIDTH

/-- The end width `w2` of line 195. -/
def endWidth (segment_width : ℚ) (index : Int) : ℚ :=
  (segment_width - MIN_SEGMENT_WIDTH) * ((NUM_SEGMENTS - index - 1 : Int) : ℚ)
    / (NUM_SEGMENTS : ℚ) + MIN_SEGMENT_WIDTH

/-- The cylinder of a node with a child[0] is followed by the cylinder of that
child, whose first radius is the second radius of the node. -/
def Adjacent (nodes : List TreeNode) (out : List Primitive) : Prop :=
  ∀ (i id : Nat) (r1 r2 h : ℚ) (col : ℚ × ℚ × ℚ × ℚ),
    out[i]? = some (Primitive.cylinder id r1 r2 h col) →
    ∀ (nd : TreeNode) (c0 : Nat), nodes[id]? = some nd → nd.children[0]? = some c0 →
      ∃ (r2' h' : ℚ) (col' : ℚ × ℚ × ℚ × ℚ),
        out[i + 1]? = some (Primitive.cylinder c0 r2 r2' h' col')

/-- What geometry emission draws for which node: a cylinder for a node of
level below NUM_LEVELS, a disc for the first node of a branch of level
NUM_LEVELS. -/
def DrawnOK (nodes : List TreeNode) : Primitive → Prop
  | Primitive.cylinder id _ _ _ _ => ∃ nd, nodes[id]? = some nd ∧ nd.level < NUM_LEVELS
  | Primitive.circle id _ _ _ =>
    ∃ nd, nodes[id]? = some nd ∧ nd.level = NUM_LEVELS ∧ nd.index = 0

/-- The calls of the recursive `generateTrainingData` (lines 251-327):
`Visits nodes id sl id' sl'` when the call on node `id` with argument
`segment_length = sl` is, or makes through its recursive calls, the call on
node `id'` with argument `sl'`. -/
inductive Visits (nodes : List TreeNode) : Nat → ℚ → Nat → ℚ → Prop where
  | self (id : Nat) (sl : ℚ) : Visits nodes id sl id sl
  | child0 (id : Nat) (sl : ℚ) (node : TreeNode) (c0 id' : Nat) (sl' : ℚ) :
    nodes[id]? = some node → node.children[0]? = some c0 →
    Visits nodes c0 sl id' sl' → Visits nodes id sl id' sl'
  | child1 (id : Nat) (sl : ℚ) (node : TreeNode) (c0 c1 : Nat) (child1 : TreeNode) (id' : Nat)
      (sl' : ℚ) :
    nodes[id]? = some node → node.children[0]? = some c0 → node.level ≤ 1 →
    node.children[1]? = some c1 → nodes[c1]? = some child1 →
    Visits nodes c1 (sl * child1.attenuationFactor) id' sl' → Visits nodes id sl id' sl'

end pmtree

namespace GLWidget3D

/-- The pixels of a patch in scan order. -/
def pixels (patch : Mat) : List (Nat × Nat × Nat) :=
  ((List.range patch.rows).map
    (fun r => (List.range patch.cols).map (fun c => patch.px r c))).flatten

/-- All three channels above 240. -/
def isBackground (p : Nat × Nat × Nat) : Bool :=
  decide (p.1 > 240 ∧ p.2.1 > 240 ∧ p.2.2 > 240)

/-- Red above green and blue, and not all three channels above 240. -/
def redDominant (p : Nat × Nat × Nat) : Bool :=
  decide (p.2.2 > p.2.1 ∧ p.2.2 > p.1) && !isBackground p

/-- Green above red and blue, and not all three channels above 240. -/
def greenDominant (p : Nat × Nat × Nat) : Bool :=
  decide (p.2.1 > p.2.2 ∧ p.2.1 > p.1) && !isBackground p

/-- Blue above green and red, and not all three channels above 240. -/
def blueDominant (p : Nat × Nat × Nat) : Bool :=
  decide (p.1 > p.2.1 ∧ p.1 > p.2.2) && !isBackground p

/-- A pixel that is counted as trunk, branch or leaf. -/
def isForeground (p : Nat × Nat × Nat) : Bool :=
  redDominant p || greenDominant p || blueDominant p

/-- The number of foreground pixels of a patch. -/
def foregroundCount (patch : Mat) : Nat := (pixels patch).countP isForeground

/-- The largest value of an `int`. -/
def INT_MAX : Nat := 2147483647

/-- The group number `i` of a record: its fields `63 i`, ..., `63 i + 62`. -/
def groupOf {α : Type} (toFloat : α → ℚ) (data : List α) (i : Nat) : List ℚ :=
  ((data.drop (i * 63)).take 63).map toFloat

end GLWidget3D

/-! ## Concrete inputs -/

namespace pmtree

/-- A stand-in for `sinf`, which no evaluated branch calls. -/
def sinf0 : ℚ → ℚ := fun _ => 0

/-- The random source whose every draw is the lower bound; `uniform(0, 1)`
gives 0, so no node branches. -/
def noBranch : Uniform := fun _ a _ => a

/-- The random source that gives 1 for `uniform(0, 1)` at the calls listed in
`ks`, and the lower bound otherwise. -/
def branchAt (ks : List Nat) : Uniform :=
  fun k a b => if a = 0 ∧ b = 1 then (if k ∈ ks then 1 else 0) else a

/-- The tree of the draws `noBranch`: a trunk of 30 nodes. -/
def trunkOnly : PMTree2D := (PMTree2D.generateRandom sinf0 noBranch 30).getD ⟨[], 0⟩

/-- The root of `trunkOnly`. -/
def trunkRoot : TreeNode := trunkOnly.nodes.headD (TreeNode.new none 0 0 0 0 0 0 0)

/-- The tree of the draws `branchAt [4]`: the root branches. -/
def oneBranch : PMTree2D := (PMTree2D.generateRandom sinf0 (branchAt [4]) 60).getD ⟨[], 0⟩

/-- The root of `oneBranch`. -/
def branchRoot : TreeNode := oneBranch.nodes.headD (TreeNode.new none 0 0 0 0 0 0 0)

/-- The tree of the draws `branchAt [4, 12, 22]`: the root, the first node of
level 1 and the first node of level 2 branch. -/
def leafBranch : PMTree2D :=
  (PMTree2D.generateRandom sinf0 (branchAt [4, 12, 22]) 120).getD ⟨[], 0⟩

/-- A node of index 1 with `curve` 30. -/
def secondSegment : TreeNode := TreeNode.new none 0 1 1 1 0 30 0

/-- A heap of two nodes: cell 1 is the only child of cell 0. -/
def twoNodes : List TreeNode :=
  [{ TreeNode.new none 0 0 1 1 0 0 0 with children := [1] },
   { TreeNode.new (some 0) 0 1 1 1 0 0 0 with curveV := 45 }]

/-- The training samples of `twoNodes`. -/
def twoSamples : List LocalImage × List (List ℚ) :=
  (generateTrainingData twoNodes 2 1 0).getD ([], [])

/-- The tuples that `to_string()` writes for `trunkOnly`. -/
def trunkTuples : List (ℚ × ℚ × ℚ) := (trunkOnly.to_string 30).getD []

end pmtree

namespace GLWidget3D

/-- A 1x1 white patch. -/
def whitePixel : Mat := ⟨1, 1, fun _ _ => (255, 255, 255)⟩

/-- A 10x10 patch of pixels with blue 240, green 240, red 241. -/
def paleRed : Mat := ⟨10, 10, fun _ _ => (240, 240, 241)⟩

/-- A 100x100 white patch. -/
def white100 : Mat := ⟨100, 100, fun _ _ => (255, 255, 255)⟩

/-- A 10x15 white patch with one red pixel. -/
def oneRedPixel : Mat :=
  ⟨10, 15, fun r c => if r = 0 ∧ c = 0 then (0, 0, 255) else (255, 255, 255)⟩

/-- A 10x20 white patch with one red pixel. -/
def oneRedWide : Mat :=
  ⟨10, 20, fun r c => if r = 0 ∧ c = 0 then (0, 0, 255) else (255, 255, 255)⟩

/-- A 2x2 patch: three red pixels and one green. -/
def mostlyRed : Mat :=
  ⟨2, 2, fun r c => if r = 1 ∧ c = 1 then (0, 255, 0) else (0, 0, 255)⟩

/-- A 46341x46341 white patch: 2147488281 pixels, more than `INT_MAX`. -/
def hugeWhite : Mat := ⟨46341, 46341, fun _ _ => (255, 255, 255)⟩

/-- A 46341x46341 red patch: 2147488281 pixels, more than `INT_MAX`. -/
def hugeRed : Mat := ⟨46341, 46341, fun _ _ => (0, 0, 255)⟩

/-- A line with a single field, as `split` gives for an empty line. -/
def shortRecord : List ℚ := [0]

/-- A line of 126 fields 0, 1, ..., 125. -/
def longRecord : List ℚ := (List.range 126).map (fun n => (n : ℚ))

end GLWidget3D

/-! ## Lemmas -/

namespace pmtree

theorem TreeNode.generateRandom_level (rnd : Uniform) (k : Nat) (n : TreeNode) :
    (n.generateRandom rnd k).1.level = n.level := by
  unfold TreeNode.generateRandom
  simp only []
  split_ifs <;> rfl

theorem TreeNode.generateRandom_index (rnd : Uniform) (k : Nat) (n : TreeNode) :
    (n.generateRandom rnd k).1.index = n.index := by
  unfold TreeNode.generateRandom
  simp only []
  split_ifs <;> rfl

theorem TreeNode.generateRandom_children (rnd : Uniform) (k : Nat) (n : TreeNode) :
    (n.generateRandom rnd k).1.children = n.children := by
  unfold TreeNode.generateRandom
  simp only []
  split_ifs <;> rfl

theorem attach_length (id : Nat) (node child : TreeNode) (s : GenState) :
    (attach id node child s).nodes.length = s.nodes.length + 1 := by
  simp [attach]

theorem attach_getElem? (id : Nat) (node child : TreeNode) (s : GenState)
    (hlt : id < s.nodes.length) (j : Nat) :
    (attach id node child s).nodes[j]? =
      if j = s.nodes.length then some child
      else if j = id then some { node with children := node.children ++ [s.nodes.length] }
      else s.nodes[j]? := by
  unfold attach
  simp only
  by_cases h1 : j = s.nodes.length
  · subst h1
    rw [if_pos rfl, List.getElem?_append_right (by simp)]
    simp
  · rw [if_neg h1]
    by_cases h2 : j < s.nodes.length
    · rw [List.getElem?_append_left (by simpa using h2)]
      by_cases h3 : j = id
      · subst h3
        simp [h2]
      · rw [if_neg h3, List.getElem?_set_ne (Ne.symm h3)]
    · have h4 : s.nodes.length < j := by omega
      have h3 : j ≠ id := by omega
      have e2 : s.nodes[j]? = none := List.getElem?_eq_none (by omega)
      rw [if_neg h3, e2]
      exact List.getElem?_eq_none (by simp; omega)

theorem flatten_eq_nil_of_forall {α : Type} (L : List (List α)) (h : ∀ l ∈ L, l = []) :
    L.flatten = [] := by
  induction L with
  | nil => rfl
  | cons a L ih =>
    rw [List.flatten_cons, h a (List.mem_cons_self _ _), ih (fun l hl => h l (List.mem_cons_of_mem _ hl))]
    rfl

theorem childIds_split (nodes : List TreeNode) (id : Nat) (node : TreeNode)
    (hn : nodes[id]? = some node) (x : TreeNode) :
    childIds nodes = childIds (nodes.take id) ++ node.children ++ childIds (nodes.drop (id + 1)) ∧
    childIds (nodes.set id x) =
      childIds (nodes.take id) ++ x.children ++ childIds (nodes.drop (id + 1)) := by
  obtain ⟨hlt, hget⟩ := List.getElem?_eq_some_iff.mp hn
  have e1 : nodes = nodes.take id ++ node :: nodes.drop (id + 1) := by
    rw [← hget]
    simp
  have e2 : nodes.set id x = nodes.take id ++ x :: nodes.drop (id + 1) :=
    List.set_eq_take_append_cons_drop.trans (by simp [hlt])
  constructor
  · conv_lhs => rw [e1]
    simp [childIds]
  · rw [e2]
    simp [childIds]

theorem childIds_drop_of_leaf (nodes : List TreeNode) (u : Nat)
    (h : ∀ (id : Nat) (nd : TreeNode), nodes[id]? = some nd → u ≤ id → nd.children = []) :
    childIds (nodes.drop u) = [] := by
  apply flatten_eq_nil_of_forall
  intro l hl
  obtain ⟨nd, hnd, rfl⟩ := List.mem_map.mp hl
  obtain ⟨m, hm⟩ := List.mem_iff_getElem?.mp hnd
  rw [List.getElem?_drop] at hm
  exact h _ nd hm (by omega)

theorem attach_inv (s : GenState) (id : Nat) (node child : TreeNode)
    (h : GenInv s (id + 1)) (hn : s.nodes[id]? = some node)
    (hc : child.children = [])
    (hb : 0 ≤ child.level ∧ child.level ≤ NUM_LEVELS ∧ 0 ≤ child.index ∧
      child.index ≤ NUM_SEGMENTS - 1)
    (hrel : (node.children = [] ∧ child.level = node.level ∧ child.index = node.index + 1) ∨
      (node.children.length = 1 ∧ child.level = node.level + 1 ∧ child.index = 0)) :
    GenInv (attach id node child s) (id + 1) := by
  have hlt : id < s.nodes.length := (List.getElem?_eq_some_iff.mp hn).1
  have hget := attach_getElem? id node child s hlt
  have hlen := attach_length id node child s
  have lift : ∀ (c : Nat) (cn : TreeNode), s.nodes[c]? = some cn →
      ∃ cn', (attach id node child s).nodes[c]? = some cn' ∧ cn'.level = cn.level ∧
        cn'.index = cn.index := by
    intro c cn hcn
    have hcl : c < s.nodes.length := (List.getElem?_eq_some_iff.mp hcn).1
    rw [hget, if_neg (by omega)]
    by_cases hci : c = id
    · subst hci
      rw [if_pos rfl]
      rw [hn] at hcn
      cases hcn
      exact ⟨_, rfl, rfl, rfl⟩
    · rw [if_neg hci]
      exact ⟨cn, hcn, rfl, rfl⟩
  refine ⟨by omega, ?_, ?_, ?_, ?_, ?_, ?_⟩
  · show s.queue ++ [s.nodes.length] = _
    rw [h.queue, hlen]
    have e : s.nodes.length + 1 - (id + 1) = (s.nodes.length - (id + 1)) + 1 := by omega
    rw [e, List.range'_concat]
    congr 2
    omega
  · intro j nd hj hle
    rw [hget] at hj
    split_ifs at hj with h1 h2
    · cases hj
      exact hc
    · omega
    · exact h.leaf j nd hj hle
  · have hsp := childIds_split s.nodes id node hn
      { node with children := node.children ++ [s.nodes.length] }
    have hdrop := childIds_drop_of_leaf s.nodes (id + 1) h.leaf
    have hold := h.heap.layout
    rw [hsp.1, hdrop, List.append_nil] at hold
    have hnew : childIds (attach id node child s).nodes =
        childIds (s.nodes.take id) ++ node.children ++ [s.nodes.length] := by
      show childIds (s.nodes.set id _ ++ [child]) = _
      have : childIds (s.nodes.set id { node with children := node.children ++ [s.nodes.length] }
          ++ [child]) = childIds (s.nodes.set id
            { node with children := node.children ++ [s.nodes.length] }) ++ child.children := by
        simp [childIds]
      rw [this, hsp.2, hdrop, hc]
      simp
    rw [hnew, hold, hlen]
    have e : s.nodes.length + 1 - 1 = (s.nodes.length - 1) + 1 := by omega
    rw [e, List.range'_concat]
    congr 2
    omega
  · obtain ⟨r, hr, hr1, hr2⟩ := h.heap.root
    obtain ⟨r', hr', e1, e2⟩ := lift 0 r hr
    exact ⟨r', hr', by rw [e1, hr1], by rw [e2, hr2]⟩
  · intro j nd hj
    rw [hget] at hj
    split_ifs at hj with h1 h2
    · cases hj
      exact hb
    · cases hj
      exact h.heap.bounds id node hn
    · exact h.heap.bounds j nd hj
  · intro j nd hj
    rw [hget] at hj
    split_ifs at hj with h1 h2
    · cases hj
      refine ⟨by simp [hc], by simp [hc], by simp [hc], by simp [hc]⟩
    · cases hj
      subst h2
      have hk := h.heap.kids j node hn
      refine ⟨?_, ?_, ?_, ?_⟩
      · simp only [List.length_append, List.length_singleton]
        rcases hrel with ⟨e, -, -⟩ | ⟨e, -, -⟩
        · simp [e]
        · omega
      · intro c hcm
        simp only [List.mem_append, List.mem_singleton] at hcm
        rcases hcm with hcm | hcm
        · exact hk.gt c hcm
        · omega
      · intro c hc0
        simp only at hc0 ⊢
        rcases hrel with ⟨e, e1, e2⟩ | ⟨e, -, -⟩
        · rw [e] at hc0
          simp at hc0
          subst hc0
          refine ⟨child, ?_, e1, e2⟩
          rw [hget, if_pos rfl]
        · rw [List.getElem?_append_left (by omega)] at hc0
          obtain ⟨cn, hcn, e1, e2⟩ := hk.kid0 c hc0
          obtain ⟨cn', hcn', e1', e2'⟩ := lift c cn hcn
          exact ⟨cn', hcn', by rw [e1', e1], by rw [e2', e2]⟩
      · intro c hc1
        simp only at hc1 ⊢
        rcases hrel with ⟨e, -, -⟩ | ⟨e, e1, e2⟩
        · rw [e] at hc1
          simp at hc1
        · rw [List.getElem?_append_right (by omega), e] at hc1
          simp at hc1
          subst hc1
          refine ⟨child, ?_, e1, e2⟩
          rw [hget, if_pos rfl]
    · have hk := h.heap.kids j nd hj
      refine ⟨hk.le2, hk.gt, ?_, ?_⟩
      · intro c hc0
        obtain ⟨cn, hcn, e1, e2⟩ := hk.kid0 c hc0
        obtain ⟨cn', hcn', e1', e2'⟩ := lift c cn hcn
        exact ⟨cn', hcn', by rw [e1', e1], by rw [e2', e2]⟩
      · intro c hc1
        obtain ⟨cn, hcn, e1, e2⟩ := hk.kid1 c hc1
        obtain ⟨cn', hcn', e1', e2'⟩ := lift c cn hcn
        exact ⟨cn', hcn', by rw [e1', e1], by rw [e2', e2]⟩

theorem GenInv.with_calls {s : GenState} {u : Nat} (h : GenInv s u) (k : Nat) :
    GenInv { s with calls := k } u :=
  ⟨h.le, h.queue, h.leaf, h.heap⟩

theorem generateRandomBody_inv (sinf : ℚ → ℚ) (rnd : Uniform) (s : GenState) (id : Nat)
    (node : TreeNode) (h : GenInv s (id + 1)) (hn : s.nodes[id]? = some node)
    (hleaf : node.children = []) :
    GenInv (generateRandomBody sinf rnd id node s) (id + 1) := by
  have hlt : id < s.nodes.length := (List.getElem?_eq_some_iff.mp hn).1
  have hb := h.heap.bounds id node hn
  unfold generateRandomBody
  by_cases h1 : node.index < NUM_SEGMENTS - 1
  · rw [if_pos h1]
    simp only []
    -- the continuation child
    have hs1 : GenInv (attach id node ((TreeNode.new (some id) node.level (node.index + 1)
        node.segmentLength 1.0 node.baseFactor node.curve node.curveBack).generateRandom rnd
        s.calls).1 s) (id + 1) := by
      apply attach_inv s id node _ h hn
      · rw [TreeNode.generateRandom_children]; rfl
      · rw [TreeNode.generateRandom_level, TreeNode.generateRandom_index]
        simp only [TreeNode.new]
        refine ⟨hb.1, hb.2.1, by omega, by omega⟩
      · left
        rw [TreeNode.generateRandom_level, TreeNode.generateRandom_index]
        exact ⟨hleaf, rfl, rfl⟩
    split_ifs with h2 h3 h4
    · -- the branch child
      apply GenInv.with_calls
      apply attach_inv _ id _ _ (hs1.with_calls _)
      · show (attach id node _ s).nodes[id]? = _
        rw [attach_getElem? id node _ s hlt, if_neg (by omega), if_pos rfl]
      · rw [TreeNode.generateRandom_children]; rfl
      · rw [TreeNode.generateRandom_level, TreeNode.generateRandom_index]
        simp only [TreeNode.new]
        refine ⟨by omega, by omega, le_refl _, by simp [NUM_SEGMENTS]⟩
      · right
        rw [TreeNode.generateRandom_level, TreeNode.generateRandom_index]
        exact ⟨by simp [hleaf], rfl, rfl⟩
    · exact (hs1.with_calls _).with_calls _
    · exact hs1.with_calls _
    · exact hs1.with_calls _
  · rw [if_neg h1]
    exact h

theorem generateRandomInit_inv (rnd : Uniform) : GenInv (generateRandomInit rnd) 0 := by
  unfold generateRandomInit
  simp only []
  have hget : ∀ (j : Nat) (nd r : TreeNode), [r][j]? = some nd → j = 0 ∧ nd = r := by
    intro j nd r hj
    cases j with
    | zero => simp at hj; exact ⟨rfl, hj.symm⟩
    | succ j => simp at hj
  refine ⟨by simp, by simp [List.range'], ?_, ?_, ?_, ?_, ?_⟩
  · intro j nd hj _
    obtain ⟨-, rfl⟩ := hget j nd _ hj
    rw [TreeNode.generateRandom_children]; rfl
  · simp [childIds, TreeNode.generateRandom_children, TreeNode.new, List.range']
  · refine ⟨_, rfl, ?_, ?_⟩
    · exact TreeNode.generateRandom_level rnd 0 _
    · exact TreeNode.generateRandom_index rnd 0 _
  · intro j nd hj
    obtain ⟨-, rfl⟩ := hget j nd _ hj
    rw [TreeNode.generateRandom_level, TreeNode.generateRandom_index]
    simp [TreeNode.new, NUM_LEVELS, NUM_SEGMENTS]
  · intro j nd hj
    obtain ⟨-, rfl⟩ := hget j nd _ hj
    have e := TreeNode.generateRandom_children rnd 0
      (TreeNode.new none 0 0 (10.0 / (NUM_SEGMENTS : ℚ)) 1.0 0.0 0 0)
    refine ⟨?_, ?_, ?_, ?_⟩ <;> rw [e] <;> simp [TreeNode.new]

theorem generateRandomLoop_inv (sinf : ℚ → ℚ) (rnd : Uniform) :
    ∀ (fuel : Nat) (s : GenState) (u : Nat) (s' : GenState), GenInv s u →
      generateRandomLoop sinf rnd fuel s = some s' → HeapOK s'.nodes ∧ s'.queue = [] := by
  intro fuel
  induction fuel with
  | zero =>
    intro s u s' h hrun
    unfold generateRandomLoop at hrun
    split at hrun
    · rename_i hq
      cases hrun
      exact ⟨h.heap, hq⟩
    · simp at hrun
  | succ fuel ih =>
    intro s u s' h hrun
    unfold generateRandomLoop at hrun
    split at hrun
    · rename_i hq
      cases hrun
      exact ⟨h.heap, hq⟩
    · rename_i id rest hq
      simp only at hrun
      split at hrun
      · simp at hrun
      · rename_i node hn
        have hqr := h.queue
        rw [hq] at hqr
        have hpos : 0 < s.nodes.length - u := by
          rcases Nat.eq_zero_or_pos (s.nodes.length - u) with e | e
          · rw [e] at hqr; simp [List.range'] at hqr
          · exact e
        obtain ⟨m, hm⟩ : ∃ m, s.nodes.length - u = m + 1 := ⟨s.nodes.length - u - 1, by omega⟩
        rw [hm, List.range'_succ] at hqr
        obtain ⟨rfl, hrest⟩ := List.cons.inj hqr
        have hmid : GenInv { s with queue := rest } (id + 1) := by
          refine ⟨?_, ?_, fun j nd hj hle => h.leaf j nd hj (by omega), h.heap⟩
          · show id + 1 ≤ s.nodes.length
            omega
          · show rest = List.range' (id + 1) (s.nodes.length - (id + 1))
            rw [hrest]
            congr 1
            omega
        exact ih _ (id + 1) s' (generateRandomBody_inv sinf rnd _ id node hmid hn
          (h.leaf id node hn (le_refl _))) hrun

theorem generateRandom_heapOK (sinf : ℚ → ℚ) (rnd : Uniform) (fuel : Nat) (t : PMTree2D)
    (h : PMTree2D.generateRandom sinf rnd fuel = some t) : HeapOK t.nodes ∧ t.root = 0 := by
  unfold PMTree2D.generateRandom at h
  obtain ⟨s', hs', rfl⟩ := Option.map_eq_some'.mp h
  exact ⟨(generateRandomLoop_inv sinf rnd fuel _ 0 s' (generateRandomInit_inv rnd) hs').1, rfl⟩

theorem range'_of_append3 (a b c : List Nat) (s n : Nat) (h : a ++ b ++ c = List.range' s n) :
    a = List.range' s a.length ∧ b = List.range' (s + a.length) b.length := by
  have hlen : a.length + b.length + c.length = n := by
    have := congrArg List.length h
    simp at this
    omega
  have e1 : List.range' s a.length ++ List.range' (s + a.length) b.length =
      List.range' s (a.length + b.length) := by
    rw [List.range'_append_1]
    congr 1
    omega
  have e2 : List.range' s (a.length + b.length) ++
      List.range' (s + (a.length + b.length)) c.length = List.range' s n := by
    rw [List.range'_append_1]
    congr 1
    omega
  have e : List.range' s n =
      List.range' s a.length ++ List.range' (s + a.length) b.length ++
        List.range' (s + a.length + b.length) c.length := by
    rw [e1, Nat.add_assoc, e2]
  rw [e, List.append_assoc, List.append_assoc] at h
  have h1 := List.append_inj h (by simp)
  have h2 := List.append_inj h1.2 (by simp)
  exact ⟨h1.1, h2.1⟩

theorem childIds_take_succ (nodes : List TreeNode) (i : Nat) (nd : TreeNode)
    (hn : nodes[i]? = some nd) :
    childIds (nodes.take (i + 1)) = childIds (nodes.take i) ++ nd.children := by
  obtain ⟨hlt, hget⟩ := List.getElem?_eq_some_iff.mp hn
  rw [List.take_succ, hn]
  simp [childIds]

theorem frontierEnd_succ (nodes : List TreeNode) (i : Nat) (nd : TreeNode)
    (hn : nodes[i]? = some nd) :
    frontierEnd nodes (i + 1) = frontierEnd nodes i + nd.children.length := by
  unfold frontierEnd
  rw [childIds_take_succ nodes i nd hn]
  simp
  omega

theorem HeapOK.length_pos {nodes : List TreeNode} (h : HeapOK nodes) : 0 < nodes.length := by
  obtain ⟨r, hr, -⟩ := h.root
  exact (List.getElem?_eq_some_iff.mp hr).1

theorem HeapOK.children_eq {nodes : List TreeNode} (h : HeapOK nodes) (i : Nat) (nd : TreeNode)
    (hn : nodes[i]? = some nd) :
    childIds (nodes.take i) = List.range' 1 (frontierEnd nodes i - 1) ∧
    nd.children = List.range' (frontierEnd nodes i) nd.children.length := by
  have hsp := (childIds_split nodes i nd hn nd).1
  rw [h.layout] at hsp
  have := range'_of_append3 _ _ _ _ _ hsp.symm
  unfold frontierEnd
  simpa using this

theorem HeapOK.frontierEnd_length {nodes : List TreeNode} (h : HeapOK nodes) :
    frontierEnd nodes nodes.length = nodes.length := by
  unfold frontierEnd
  rw [List.take_length, h.layout]
  have := h.length_pos
  simp
  omega

theorem HeapOK.lt_frontierEnd {nodes : List TreeNode} (h : HeapOK nodes) (i : Nat)
    (hi : i < nodes.length) : i < frontierEnd nodes i := by
  rcases Nat.eq_zero_or_pos i with rfl | hpos
  · simp [frontierEnd]
  · -- `i` is a child pointer, held by an earlier cell
    have hmem : i ∈ childIds nodes := by
      rw [h.layout]
      simp
      omega
    obtain ⟨l, hl, hil⟩ := List.mem_flatten.mp hmem
    obtain ⟨nd, hnd, rfl⟩ := List.mem_map.mp hl
    obtain ⟨k, hk⟩ := List.mem_iff_getElem?.mp hnd
    have hki : k < i := (h.kids k nd hk).gt i hil
    have hmem2 : i ∈ childIds (nodes.take i) := by
      apply List.mem_flatten.mpr
      refine ⟨nd.children, List.mem_map.mpr ⟨nd, ?_, rfl⟩, hil⟩
      apply List.mem_iff_getElem?.mpr
      exact ⟨k, by rw [List.getElem?_take_of_lt hki]; exact hk⟩
    have hnd_i : ∃ x, nodes[i]? = some x := ⟨nodes[i], List.getElem?_eq_getElem hi⟩
    obtain ⟨x, hx⟩ := hnd_i
    rw [(h.children_eq i x hx).1] at hmem2
    simp at hmem2
    omega

theorem to_stringLoop_layout (nodes : List TreeNode) (h : HeapOK nodes) :
    ∀ (n i fuel : Nat) (ss : List (ℚ × ℚ × ℚ)), i + n = nodes.length → n ≤ fuel →
      to_stringLoop nodes fuel (List.range' i (frontierEnd nodes i - i)) ss =
        some (ss ++ (nodes.drop i).map TreeNode.to_string) := by
  intro n
  induction n with
  | zero =>
    intro i fuel ss hi _
    have hi' : i = nodes.length := by omega
    subst hi'
    rw [h.frontierEnd_length, Nat.sub_self]
    unfold to_stringLoop
    simp [List.range']
  | succ n ih =>
    intro i fuel ss hi hfuel
    have hlt : i < nodes.length := by omega
    have hn : nodes[i]? = some nodes[i] := List.getElem?_eq_getElem hlt
    have hfe := h.lt_frontierEnd i hlt
    obtain ⟨f, rfl⟩ : ∃ f, fuel = f + 1 := ⟨fuel - 1, by omega⟩
    obtain ⟨m, hm⟩ : ∃ m, frontierEnd nodes i - i = m + 1 :=
      ⟨frontierEnd nodes i - i - 1, by omega⟩
    rw [hm, List.range'_succ]
    unfold to_stringLoop
    simp only [hn]
    have hq : List.range' (i + 1) m ++ (nodes[i]).children =
        List.range' (i + 1) (frontierEnd nodes (i + 1) - (i + 1)) := by
      rw [(h.children_eq i _ hn).2, frontierEnd_succ nodes i _ hn]
      have e : frontierEnd nodes i = i + 1 + m := by omega
      rw [e, List.range'_append_1]
      congr 1
      omega
    rw [hq, ih (i + 1) f _ (by omega) (by omega)]
    congr 1
    rw [List.append_assoc]
    congr 1
    rw [List.drop_eq_getElem_cons hlt]
    rfl

theorem to_string_of_heapOK (t : PMTree2D) (h : HeapOK t.nodes) (hr : t.root = 0) (fuel : Nat)
    (hfuel : t.nodes.length ≤ fuel) :
    t.to_string fuel = some (t.nodes.map TreeNode.to_string) := by
  unfold PMTree2D.to_string
  have := to_stringLoop_layout t.nodes h t.nodes.length 0 fuel [] (by simp) hfuel
  simpa [frontierEnd, List.range', hr] using this

theorem sum_frontier (nodes : List TreeNode) (h : HeapOK nodes) (f g : Nat → Nat)
    (hrec : ∀ (i : Nat) (nd : TreeNode), nodes[i]? = some nd →
      f i = g i + sumOver f nd.children) :
    f 0 = sumOver g (List.range nodes.length) := by
  have key : ∀ i, i ≤ nodes.length →
      f 0 = sumOver g (List.range i) + sumOver f (List.range' i (frontierEnd nodes i - i)) := by
    intro i
    induction i with
    | zero =>
      intro _
      simp [sumOver, frontierEnd, List.range']
    | succ i ih =>
      intro hi
      have hlt : i < nodes.length := by omega
      have hn : nodes[i]? = some nodes[i] := List.getElem?_eq_getElem hlt
      have hfe := h.lt_frontierEnd i hlt
      obtain ⟨m, hm⟩ : ∃ m, frontierEnd nodes i - i = m + 1 :=
        ⟨frontierEnd nodes i - i - 1, by omega⟩
      have hq : List.range' (i + 1) m ++ (nodes[i]).children =
          List.range' (i + 1) (frontierEnd nodes (i + 1) - (i + 1)) := by
        rw [(h.children_eq i _ hn).2, frontierEnd_succ nodes i _ hn]
        have e : frontierEnd nodes i = i + 1 + m := by omega
        rw [e, List.range'_append_1]
        congr 1
        omega
      rw [ih (by omega), hm, List.range'_succ, ← hq, List.range_succ]
      simp only [sumOver, List.map_cons, List.sum_cons, List.map_append, List.sum_append,
        List.map_nil, List.sum_nil]
      rw [hrec i _ hn]
      simp only [sumOver]
      omega
  have := key nodes.length (le_refl _)
  rw [h.frontierEnd_length, Nat.sub_self] at this
  simpa [sumOver, List.range'] using this

theorem generateSegmentGeometry_length (nodes : List TreeNode) :
    ∀ (fuel : Nat) (sl sw : ℚ) (fw : Bool) (id : Nat),
      (generateSegmentGeometry nodes fuel sl sw fw id).map List.length =
        visitCount nodes fuel id := by
  intro fuel
  induction fuel with
  | zero => intro sl sw fw id; rfl
  | succ fuel ih =>
    intro sl sw fw id
    unfold generateSegmentGeometry visitCount
    cases hn : nodes[id]? with
    | none => rfl
    | some node =>
      have key : ∀ (x y : Option (List Primitive)) (own : List Primitive), own.length = 1 →
          (match x, y with
            | some a, some b => some (own ++ a ++ b)
            | _, _ => none).map List.length =
          (match x.map List.length, y.map List.length with
            | some a, some b => some (1 + a + b)
            | _, _ => none) := by
        intro x y own h
        cases x <;> cases y <;> simp [h]
        omega
      simp only []
      refine (key _ _ [_] (List.length_singleton _)).trans ?_
      cases h0 : node.children[0]? with
      | none =>
        cases h1 : node.children[1]? with
        | none => rfl
        | some c1 =>
          simp only []
          cases h2 : nodes[c1]? with
          | none => rfl
          | some child1 =>
            simp only []
            split_ifs <;> first | rfl | (rw [ih]; rfl)
      | some c0 =>
        simp only []
        rw [ih]
        cases h1 : node.children[1]? with
        | none => rfl
        | some c1 =>
          simp only []
          cases h2 : nodes[c1]? with
          | none => rfl
          | some child1 =>
            simp only []
            split_ifs <;> first | rfl | rw [ih]

theorem visitCount_mono (nodes : List TreeNode) :
    ∀ (fuel id v : Nat), visitCount nodes fuel id = some v →
      visitCount nodes (fuel + 1) id = some v := by
  intro fuel
  induction fuel with
  | zero => intro id v h; simp [visitCount] at h
  | succ fuel ih =>
    intro id v h
    unfold visitCount
    unfold visitCount at h
    cases hn : nodes[id]? with
    | none => rw [hn] at h; simp at h
    | some node =>
      rw [hn] at h
      simp only [] at h ⊢
      cases h0 : node.children[0]? with
      | none =>
        rw [h0] at h
        cases h1 : node.children[1]? with
        | none => rw [h1] at h; exact h
        | some c1 =>
          rw [h1] at h
          simp only [] at h ⊢
          cases h2 : nodes[c1]? with
          | none => rw [h2] at h; simp at h
          | some child1 =>
            rw [h2] at h
            simp only [] at h ⊢
            split_ifs at h ⊢ with hl
            · cases hc : visitCount nodes fuel c1 with
              | none => rw [hc] at h; simp at h
              | some b => rw [hc] at h; rw [ih c1 b hc]; exact h
            · exact h
      | some c0 =>
        rw [h0] at h
        simp only [] at h ⊢
        cases ha : visitCount nodes fuel c0 with
        | none => rw [ha] at h; simp at h
        | some a =>
          rw [ha] at h
          rw [ih c0 a ha]
          cases h1 : node.children[1]? with
          | none => rw [h1] at h; exact h
          | some c1 =>
            rw [h1] at h
            simp only [] at h ⊢
            cases h2 : nodes[c1]? with
            | none => rw [h2] at h; simp at h
            | some child1 =>
              rw [h2] at h
              simp only [] at h ⊢
              split_ifs at h ⊢ with hl
              · cases hc : visitCount nodes fuel c1 with
                | none => rw [hc] at h; simp at h
                | some b => rw [hc] at h; rw [ih c1 b hc]; exact h
              · exact h

theorem visitCount_mono_le (nodes : List TreeNode) (fuel fuel' id v : Nat) (hle : fuel ≤ fuel')
    (h : visitCount nodes fuel id = some v) : visitCount nodes fuel' id = some v := by
  induction hle with
  | refl => exact h
  | step _ ih => exact visitCount_mono nodes _ id v ih

theorem children_cases (l : List Nat) (h : l.length ≤ 2) :
    l = [] ∨ (∃ a, l = [a]) ∨ (∃ a b, l = [a, b]) := by
  match l, h with
  | [], _ => exact Or.inl rfl
  | [a], _ => exact Or.inr (Or.inl ⟨a, rfl⟩)
  | [a, b], _ => exact Or.inr (Or.inr ⟨a, b, rfl⟩)
  | _ :: _ :: _ :: _, h => simp at h

theorem visitCount_total (nodes : List TreeNode) (h : HeapOK nodes) :
    ∀ (fuel id : Nat), id < nodes.length → nodes.length - id ≤ fuel →
      ∃ v, visitCount nodes fuel id = some v := by
  intro fuel
  induction fuel with
  | zero => intro id h1 h2; omega
  | succ fuel ih =>
    intro id hlt hfuel
    have hn : nodes[id]? = some nodes[id] := List.getElem?_eq_getElem hlt
    have hk := h.kids id _ hn
    have hrec : ∀ c, c ∈ (nodes[id]).children → ∀ cn, nodes[c]? = some cn →
        ∃ v, visitCount nodes fuel c = some v := by
      intro c hc cn hcn
      have h1 := hk.gt c hc
      have h2 := (List.getElem?_eq_some_iff.mp hcn).1
      exact ih c h2 (by omega)
    unfold visitCount
    rw [hn]
    simp only []
    rcases children_cases _ hk.le2 with e | ⟨a, e⟩ | ⟨a, b, e⟩
    · rw [e]
      exact ⟨_, rfl⟩
    · obtain ⟨cn, hcn, -, -⟩ := hk.kid0 a (by rw [e]; rfl)
      obtain ⟨v, hv⟩ := hrec a (by rw [e]; simp) cn hcn
      rw [e]
      simp only [List.getElem?_cons_zero, List.getElem?_cons_succ, List.getElem?_nil, hv]
      exact ⟨_, rfl⟩
    · obtain ⟨cn, hcn, -, -⟩ := hk.kid0 a (by rw [e]; rfl)
      obtain ⟨v, hv⟩ := hrec a (by rw [e]; simp) cn hcn
      obtain ⟨cn1, hcn1, -, -⟩ := hk.kid1 b (by rw [e]; rfl)
      obtain ⟨v1, hv1⟩ := hrec b (by rw [e]; simp) cn1 hcn1
      rw [e]
      simp only [List.getElem?_cons_zero, List.getElem?_cons_succ, hv, hcn1, hv1]
      split_ifs
      · exact ⟨_, rfl⟩
      · exact ⟨_, rfl⟩

theorem visitCount_stable (nodes : List TreeNode) (h : HeapOK nodes) (j fuel : Nat)
    (hj : j < nodes.length) (hfuel : nodes.length - j ≤ fuel) :
    visitCount nodes fuel j = some ((visitCount nodes nodes.length j).getD 0) := by
  obtain ⟨v, hv⟩ := visitCount_total nodes h (nodes.length - j) j hj (le_refl _)
  have h1 := visitCount_mono_le nodes _ nodes.length j v (by omega) hv
  have h2 := visitCount_mono_le nodes _ fuel j v hfuel hv
  rw [h1, h2]
  rfl

theorem segWeight_rec (nodes : List TreeNode) (h : HeapOK nodes) (i : Nat) (nd : TreeNode)
    (hn : nodes[i]? = some nd) :
    segWeight nodes i = drawnAt nodes i + sumOver (segWeight nodes) nd.children := by
  have hlt : i < nodes.length := (List.getElem?_eq_some_iff.mp hn).1
  have hk := h.kids i nd hn
  have hb := h.bounds i nd hn
  obtain ⟨f, hf⟩ : ∃ f, nodes.length = f + 1 := ⟨nodes.length - 1, by omega⟩
  -- the recursive calls on the children return their stable value
  have hrec : ∀ c, c ∈ nd.children → ∀ cn, nodes[c]? = some cn →
      visitCount nodes f c = some ((visitCount nodes nodes.length c).getD 0) := by
    intro c hc cn hcn
    have h1 := hk.gt c hc
    have h2 := (List.getElem?_eq_some_iff.mp hcn).1
    exact visitCount_stable nodes h c f h2 (by omega)
  have hW : ∀ c cn, nodes[c]? = some cn → cn.level < NUM_LEVELS →
      segWeight nodes c = (visitCount nodes nodes.length c).getD 0 := by
    intro c cn hcn hl
    simp only [segWeight, hcn, if_pos hl]
  by_cases hl : nd.level < NUM_LEVELS
  · have hWi : segWeight nodes i = (visitCount nodes (f + 1) i).getD 0 := by
      rw [hW i nd hn hl, hf]
    have hg : drawnAt nodes i = 1 := by
      simp [drawnAt, hn, drawn, hl]
    rw [hWi, hg]
    unfold visitCount
    rw [hn]
    simp only []
    rcases children_cases _ hk.le2 with e | ⟨a, e⟩ | ⟨a, b, e⟩
    · rw [e]
      simp [sumOver]
    · obtain ⟨cn, hcn, hcl, -⟩ := hk.kid0 a (by rw [e]; rfl)
      have hv := hrec a (by rw [e]; simp) cn hcn
      rw [e]
      simp only [List.getElem?_cons_zero, List.getElem?_cons_succ, List.getElem?_nil, hv]
      rw [sumOver, List.map_singleton, List.sum_singleton, hW a cn hcn (by omega)]
      simp
    · obtain ⟨cn, hcn, hcl, -⟩ := hk.kid0 a (by rw [e]; rfl)
      have hv := hrec a (by rw [e]; simp) cn hcn
      obtain ⟨cn1, hcn1, hcl1, hci1⟩ := hk.kid1 b (by rw [e]; rfl)
      have hv1 := hrec b (by rw [e]; simp) cn1 hcn1
      rw [e]
      simp only [List.getElem?_cons_zero, List.getElem?_cons_succ, hv, hcn1, hv1]
      have hs : sumOver (segWeight nodes) [a, b] = segWeight nodes a + segWeight nodes b := by
        simp [sumOver]
      rw [hs, hW a cn hcn (by omega)]
      by_cases hl2 : nd.level < NUM_LEVELS - 1
      · rw [if_pos hl2, hW b cn1 hcn1 (by omega)]
        simp
        omega
      · rw [if_neg hl2]
        have hb1 : segWeight nodes b = 1 := by
          have : ¬ cn1.level < NUM_LEVELS := by omega
          simp only [segWeight, hcn1, if_neg this, if_pos hci1]
        rw [hb1]
        simp
        omega
  · have hWi : segWeight nodes i = if nd.index = 0 then 1 else 0 := by
      simp only [segWeight, hn, if_neg hl]
    have hg : drawnAt nodes i = if nd.index = 0 then 1 else 0 := by
      simp [drawnAt, hn, drawn, hl]
    have hzero : ∀ c cn, nodes[c]? = some cn → cn.level = nd.level → cn.index = nd.index + 1 →
        segWeight nodes c = 0 := by
      intro c cn hcn e1 e2
      have h1 : ¬ cn.level < NUM_LEVELS := by omega
      have h2 : ¬ cn.index = 0 := by omega
      simp only [segWeight, hcn, if_neg h1, if_neg h2]
    rw [hWi, hg]
    rcases children_cases _ hk.le2 with e | ⟨a, e⟩ | ⟨a, b, e⟩
    · rw [e]
      simp [sumOver]
    · obtain ⟨cn, hcn, hcl, hci⟩ := hk.kid0 a (by rw [e]; rfl)
      rw [e, sumOver, List.map_singleton, List.sum_singleton, hzero a cn hcn hcl hci]
      rfl
    · exfalso
      obtain ⟨cn1, hcn1, hcl1, -⟩ := hk.kid1 b (by rw [e]; rfl)
      have := (h.bounds b cn1 hcn1).2.1
      omega

theorem sum_indicator_eq_countP (l : List TreeNode) (p : TreeNode → Bool) :
    (l.map (fun nd => if p nd then 1 else 0)).sum = l.countP p := by
  induction l with
  | nil => rfl
  | cons a l ih =>
    rw [List.map_cons, List.sum_cons, ih, List.countP_cons]
    omega

theorem sumOver_drawnAt (nodes : List TreeNode) :
    sumOver (drawnAt nodes) (List.range nodes.length) = nodes.countP drawn := by
  rw [← sum_indicator_eq_countP]
  unfold sumOver
  congr 1
  apply List.ext_getElem?
  intro j
  by_cases hj : j < nodes.length
  · simp [List.getElem?_range hj, drawnAt, List.getElem?_eq_getElem hj]
  · have hj' : nodes.length ≤ j := not_lt.mp hj
    rw [List.getElem?_map, List.getElem?_map, List.getElem?_eq_none hj',
      List.getElem?_eq_none (by simpa using hj')]
    rfl

theorem generateGeometry_count (t : PMTree2D) (h : HeapOK t.nodes) (hr : t.root = 0)
    (fuel : Nat) (hfuel : t.nodes.length ≤ fuel) (fixed_width : Bool) :
    ∃ prims, t.generateGeometry fuel fixed_width = some prims ∧
      prims.length = t.nodes.countP drawn := by
  obtain ⟨r, hroot, hrl, -⟩ := h.root
  have hpos := h.length_pos
  have hlen := generateSegmentGeometry_length t.nodes fuel (10.0 / (NUM_SEGMENTS : ℚ))
    (if fixed_width then 0.03 else 0.3) fixed_width 0
  rw [visitCount_stable t.nodes h 0 fuel hpos (by omega)] at hlen
  obtain ⟨prims, hp, hpl⟩ := Option.map_eq_some'.mp hlen
  refine ⟨prims, ?_, ?_⟩
  · unfold PMTree2D.generateGeometry
    rw [hr]
    exact hp
  · have hw : segWeight t.nodes 0 = (visitCount t.nodes t.nodes.length 0).getD 0 := by
      simp only [segWeight, hroot]
      rw [if_pos (by rw [hrl]; decide)]
    rw [hpl, ← hw, sum_frontier t.nodes h (segWeight t.nodes) (drawnAt t.nodes)
      (segWeight_rec t.nodes h), sumOver_drawnAt]

theorem attach_forall (P : TreeNode → Prop) (id : Nat) (node child : TreeNode) (s : GenState)
    (hs : ∀ nd ∈ s.nodes, P nd)
    (hnode : P { node with children := node.children ++ [s.nodes.length] }) (hchild : P child) :
    ∀ nd ∈ (attach id node child s).nodes, P nd := by
  intro nd hnd
  simp only [attach, List.mem_append, List.mem_singleton] at hnd
  rcases hnd with hnd | rfl
  · rcases List.mem_or_eq_of_mem_set hnd with h1 | rfl
    · exact hs nd h1
    · exact hnode
  · exact hchild

/-- A property of nodes that the root has, that passes from a node to the
children created for it, and that does not depend on the list of children,
holds for every node of every state reached by the loop. -/
theorem generateRandomLoop_forall (sinf : ℚ → ℚ) (rnd : Uniform) (P : TreeNode → Prop)
    (hset : ∀ (nd : TreeNode) (cs : List Nat), P nd → P { nd with children := cs })
    (hcont : ∀ (id k : Nat) (nd : TreeNode), P nd → nd.index < NUM_SEGMENTS - 1 →
      P ((TreeNode.new (some id) nd.level (nd.index + 1) nd.segmentLength 1.0 nd.baseFactor
        nd.curve nd.curveBack).generateRandom rnd k).1)
    (hbranch : ∀ (id k k' : Nat) (nd : TreeNode), P nd → nd.index < NUM_SEGMENTS - 1 →
      nd.level < NUM_LEVELS →
      (nd.level > 0 ∨ ((nd.index + 1 : Int) : ℚ) > (NUM_SEGMENTS : ℚ) * nd.baseFactor) →
      P ((TreeNode.new (some id) (nd.level + 1) 0 nd.segmentLength
        (branchAttenuation sinf rnd k' nd) 0.0 0.0 0.0).generateRandom rnd k).1) :
    ∀ (fuel : Nat) (s s' : GenState), (∀ nd ∈ s.nodes, P nd) →
      generateRandomLoop sinf rnd fuel s = some s' → ∀ nd ∈ s'.nodes, P nd := by
  have hbody : ∀ (id : Nat) (node : TreeNode) (s : GenState), (∀ nd ∈ s.nodes, P nd) → P node →
      ∀ nd ∈ (generateRandomBody sinf rnd id node s).nodes, P nd := by
    intro id node s hs hnode
    unfold generateRandomBody
    by_cases h1 : node.index < NUM_SEGMENTS - 1
    · rw [if_pos h1]
      simp only []
      have hs1 := attach_forall P id node _ s hs (hset node _ hnode) (hcont id s.calls node hnode h1)
      split_ifs with h2 h3 h4
      · exact attach_forall P id _ _ _ hs1 (hset _ _ (hset node _ hnode))
          (hbranch id _ _ node hnode h1 h2 h3)
      · exact hs1
      · exact hs1
      · exact hs1
    · rw [if_neg h1]
      exact hs
  intro fuel
  induction fuel with
  | zero =>
    intro s s' hs hrun
    unfold generateRandomLoop at hrun
    split at hrun
    · cases hrun
      exact hs
    · simp at hrun
  | succ fuel ih =>
    intro s s' hs hrun
    unfold generateRandomLoop at hrun
    split at hrun
    · cases hrun
      exact hs
    · rename_i id rest hq
      simp only at hrun
      split at hrun
      · simp at hrun
      · rename_i node hn
        exact ih _ s' (hbody id node { s with queue := rest } hs
          (hs node (List.getElem?_mem hn))) hrun

theorem generateRandom_forall (sinf : ℚ → ℚ) (rnd : Uniform) (P : TreeNode → Prop)
    (hset : ∀ (nd : TreeNode) (cs : List Nat), P nd → P { nd with children := cs })
    (hroot : P ((TreeNode.new none 0 0 (10.0 / (NUM_SEGMENTS : ℚ)) 1.0 0.0 0 0).generateRandom
      rnd 0).1)
    (hcont : ∀ (id k : Nat) (nd : TreeNode), P nd → nd.index < NUM_SEGMENTS - 1 →
      P ((TreeNode.new (some id) nd.level (nd.index + 1) nd.segmentLength 1.0 nd.baseFactor
        nd.curve nd.curveBack).generateRandom rnd k).1)
    (hbranch : ∀ (id k k' : Nat) (nd : TreeNode), P nd → nd.index < NUM_SEGMENTS - 1 →
      nd.level < NUM_LEVELS →
      (nd.level > 0 ∨ ((nd.index + 1 : Int) : ℚ) > (NUM_SEGMENTS : ℚ) * nd.baseFactor) →
      P ((TreeNode.new (some id) (nd.level + 1) 0 nd.segmentLength
        (branchAttenuation sinf rnd k' nd) 0.0 0.0 0.0).generateRandom rnd k).1)
    (fuel : Nat) (t : PMTree2D) (h : PMTree2D.generateRandom sinf rnd fuel = some t) :
    ∀ nd ∈ t.nodes, P nd := by
  unfold PMTree2D.generateRandom at h
  obtain ⟨s', hs', rfl⟩ := Option.map_eq_some'.mp h
  refine generateRandomLoop_forall sinf rnd P hset hcont hbranch fuel _ s' ?_ hs'
  intro nd hnd
  simp only [generateRandomInit, List.mem_singleton] at hnd
  rw [hnd]
  exact hroot

theorem TreeNode.generateRandom_first (rnd : Uniform) (k : Nat) (n : TreeNode)
    (h : n.index = 0) :
    ∃ k1, (n.generateRandom rnd k).1.curve = rnd k1 (-90) 90 ∧
      (n.generateRandom rnd k).1.curveBack = rnd (k1 + 1) (-90) 90 ∧
      (n.generateRandom rnd k).1.curveV =
        if n.level > 0 then rnd (k1 + 2) (-90) 90 else n.curveV := by
  unfold TreeNode.generateRandom
  simp only []
  by_cases h0 : n.level = 0
  · refine ⟨k + 1, ?_⟩
    have hl : ¬ n.level > 0 := by omega
    simp [h, h0]
  · refine ⟨k, ?_⟩
    simp only [h, h0, false_and, if_false, if_true]
    split_ifs <;> exact ⟨rfl, rfl, rfl⟩

theorem TreeNode.generateRandom_next (rnd : Uniform) (k : Nat) (n : TreeNode)
    (h : n.index ≠ 0) :
    (n.generateRandom rnd k).1.curve = n.curve ∧
    (n.generateRandom rnd k).1.curveBack = n.curveBack ∧
    (n.generateRandom rnd k).1.curveV =
      rnd k (-5) 5 + (if (n.index : ℚ) < (NUM_SEGMENTS : ℚ) / 2.0 then n.curve
        else n.curveBack) / (NUM_SEGMENTS : ℚ) / 2.0 ∧
    (n.generateRandom rnd k).2 = k + 1 := by
  unfold TreeNode.generateRandom
  simp only [h, and_false, if_false]
  split_ifs <;> exact ⟨rfl, rfl, rfl, rfl⟩

theorem TreeNode.generateRandom_curve_ranges (rnd : Uniform)
    (hrnd : ∀ (k : Nat) (a b : ℚ), a ≤ b → a ≤ rnd k a b ∧ rnd k a b ≤ b)
    (k : Nat) (n : TreeNode) (h1 : -90 ≤ n.curve ∧ n.curve ≤ 90)
    (h2 : -90 ≤ n.curveBack ∧ n.curveBack ≤ 90) (h3 : n.curveV = 0) :
    CurveOK (n.generateRandom rnd k).1 := by
  have r90 : ∀ k, -90 ≤ rnd k (-90) 90 ∧ rnd k (-90) 90 ≤ 90 := fun k => hrnd k _ _ (by norm_num)
  have r5 := hrnd k (-5) 5 (by norm_num)
  unfold CurveOK
  by_cases hi : n.index = 0
  · obtain ⟨k1, e1, e2, e3⟩ := TreeNode.generateRandom_first rnd k n hi
    rw [e1, e2, e3]
    refine ⟨r90 _, r90 _, ?_⟩
    split_ifs
    · have := r90 (k1 + 2)
      constructor <;> linarith
    · rw [h3]
      norm_num
  · obtain ⟨e1, e2, e3, -⟩ := TreeNode.generateRandom_next rnd k n hi
    rw [e1, e2, e3]
    refine ⟨h1, h2, ?_⟩
    have hN : (NUM_SEGMENTS : ℚ) = 30 := by norm_num [NUM_SEGMENTS]
    rw [hN]
    split_ifs
    · constructor <;> linarith
    · constructor <;> linarith

theorem generateRandom_curveOK (sinf : ℚ → ℚ) (rnd : Uniform)
    (hrnd : ∀ (k : Nat) (a b : ℚ), a ≤ b → a ≤ rnd k a b ∧ rnd k a b ≤ b)
    (fuel : Nat) (t : PMTree2D) (h : PMTree2D.generateRandom sinf rnd fuel = some t)
    (nd : TreeNode) (hnd : nd ∈ t.nodes) : CurveOK nd := by
  refine generateRandom_forall sinf rnd CurveOK (fun _ _ h => h) ?_ ?_ ?_ fuel t h nd hnd
  · exact TreeNode.generateRandom_curve_ranges rnd hrnd 0 _ (by simp [TreeNode.new])
      (by simp [TreeNode.new]) rfl
  · intro id k nd hP _
    exact TreeNode.generateRandom_curve_ranges rnd hrnd k _ hP.1 hP.2.1 rfl
  · intro id k k' nd _ _ _ _
    exact TreeNode.generateRandom_curve_ranges rnd hrnd k _ (by norm_num [TreeNode.new])
      (by norm_num [TreeNode.new]) rfl

theorem trainingParams_labelOK (nodes : List TreeNode) (nd : TreeNode) (lbl : List ℚ)
    (h : trainingParams nodes nd = some lbl) : LabelOK nodes nd lbl := by
  unfold trainingParams at h
  simp only [] at h
  cases h0 : nd.children[0]? with
  | none =>
    have hlen : nd.children.length = 0 := by
      have := List.getElem?_eq_none_iff.mp h0
      omega
    have h1 : nd.children[1]? = none := List.getElem?_eq_none (by omega)
    rw [h0, h1] at h
    cases h
    refine ⟨rfl, by simp [hlen], by simp [hlen], ?_, ?_⟩
    · intro k c hk hc
      have : nd.children[k]? = none := List.getElem?_eq_none (by omega)
      rw [this] at hc
      cases hc
    · intro k hk _
      interval_cases k <;> simp
  | some c0 =>
    have hlen0 : 0 < nd.children.length := (List.getElem?_eq_some_iff.mp h0).1
    rw [h0] at h
    simp only [] at h
    cases hn0 : nodes[c0]? with
    | none => rw [hn0] at h; simp at h
    | some child0 =>
      rw [hn0] at h
      cases h1 : nd.children[1]? with
      | none =>
        have hlen : nd.children.length = 1 := by
          have := List.getElem?_eq_none_iff.mp h1
          omega
        rw [h1] at h
        simp at h
        subst h
        refine ⟨rfl, by simp [hlen], by simp [hlen], ?_, ?_⟩
        · intro k c hk hc
          interval_cases k
          · rw [h0] at hc
            cases hc
            exact ⟨child0, hn0, by norm_num⟩
          · rw [h1] at hc
            cases hc
        · intro k hk hc
          interval_cases k
          · rw [h0] at hc
            cases hc
          · simp
      | some c1 =>
        have hlen : 2 ≤ nd.children.length := (List.getElem?_eq_some_iff.mp h1).1
        rw [h1] at h
        simp only [] at h
        cases hn1 : nodes[c1]? with
        | none => rw [hn1] at h; simp at h
        | some child1 =>
          rw [hn1] at h
          simp at h
          subst h
          refine ⟨rfl, by simp [show 1 ≤ nd.children.length by omega], by simp [hlen], ?_, ?_⟩
          · intro k c hk hc
            interval_cases k
            · rw [h0] at hc
              cases hc
              exact ⟨child0, hn0, by norm_num⟩
            · rw [h1] at hc
              cases hc
              exact ⟨child1, hn1, by norm_num⟩
          · intro k hk hc
            interval_cases k
            · rw [h0] at hc
              cases hc
            · rw [h1] at hc
              cases hc

theorem generateTrainingData_samples (nodes : List TreeNode) :
    ∀ (fuel : Nat) (sl : ℚ) (id : Nat) (imgs : List LocalImage) (params : List (List ℚ)),
      generateTrainingData nodes fuel sl id = some (imgs, params) →
        List.Forall₂ (SampleOf nodes) imgs params := by
  intro fuel
  induction fuel with
  | zero => intro sl id imgs params h; simp [generateTrainingData] at h
  | succ fuel ih =>
    intro sl id imgs params h
    unfold generateTrainingData at h
    cases hn : nodes[id]? with
    | none => rw [hn] at h; simp at h
    | some node =>
      rw [hn] at h
      simp only [] at h
      rw [if_neg (by norm_num)] at h
      cases hp : trainingParams nodes node with
      | none => rw [hp] at h; simp at h
      | some lbl =>
        rw [hp] at h
        simp only [] at h
        have hown : List.Forall₂ (SampleOf nodes)
            [({ node := id, segment_length := sl } : LocalImage)] [lbl] :=
          List.Forall₂.cons ⟨node, hn, hp⟩ List.Forall₂.nil
        cases h0 : node.children[0]? with
        | none =>
          rw [h0] at h
          simp only [Option.some.injEq, Prod.mk.injEq] at h
          obtain ⟨rfl, rfl⟩ := h
          exact hown
        | some c0 =>
          rw [h0] at h
          simp only [] at h
          cases ha : generateTrainingData nodes fuel sl c0 with
          | none => rw [ha] at h; simp at h
          | some a =>
            rw [ha] at h
            simp only [] at h
            have hA := ih sl c0 a.1 a.2 ha
            cases h1 : (if node.level ≤ 1 then node.children[1]? else none) with
            | none =>
              rw [h1] at h
              simp only [Option.some.injEq, Prod.mk.injEq] at h
              obtain ⟨rfl, rfl⟩ := h
              exact List.rel_append hown hA
            | some c1 =>
              rw [h1] at h
              simp only [] at h
              cases hn1 : nodes[c1]? with
              | none => rw [hn1] at h; simp at h
              | some child1 =>
                rw [hn1] at h
                simp only [] at h
                cases hb : generateTrainingData nodes fuel (sl * child1.attenuationFactor) c1 with
                | none => rw [hb] at h; simp at h
                | some b =>
                  rw [hb] at h
                  simp only [Option.some.injEq, Prod.mk.injEq] at h
                  obtain ⟨rfl, rfl⟩ := h
                  exact List.rel_append (List.rel_append hown hA) (ih _ c1 b.1 b.2 hb)

theorem forall₂_getElem? {α β : Type} (R : α → β → Prop) (xs : List α) (ys : List β)
    (hf : List.Forall₂ R xs ys) :
    ∀ (i : Nat) (x : α) (y : β), xs[i]? = some x → ys[i]? = some y → R x y := by
  induction hf with
  | nil => intro i x y hx; simp at hx
  | cons hxy _ ih =>
    intro i x y hx hy
    cases i with
    | zero =>
      simp at hx hy
      subst hx hy
      exact hxy
    | succ i =>
      simp at hx hy
      exact ih i x y hx hy

/-! ## Claims about the generator and the tree walks -/

/-- C1: in every tree built by `PMTree2D::generateRandom`, whatever the random
draws, every node has its level in [0, NUM_LEVELS] = [0, 3] and its index in
[0, NUM_SEGMENTS - 1] = [0, 29], and a child[0] has the level of the node and
the index of the node plus one. -/
theorem generateRandom_level_index (sinf : ℚ → ℚ) (rnd : Uniform) (fuel : Nat) (t : PMTree2D)
    (h : PMTree2D.generateRandom sinf rnd fuel = some t) (id : Nat) (nd : TreeNode)
    (hn : t.nodes[id]? = some nd) :
    (0 ≤ nd.level ∧ nd.level ≤ NUM_LEVELS ∧ NUM_LEVELS = 3) ∧
    (0 ≤ nd.index ∧ nd.index ≤ NUM_SEGMENTS - 1 ∧ NUM_SEGMENTS - 1 = 29) ∧
    ∀ c, nd.children[0]? = some c →
      ∃ cn, t.nodes[c]? = some cn ∧ cn.level = nd.level ∧ cn.index = nd.index + 1 := by
  have hh := (generateRandom_heapOK sinf rnd fuel t h).1
  have hb := hh.bounds id nd hn
  exact ⟨⟨hb.1, hb.2.1, rfl⟩, ⟨hb.2.2.1, hb.2.2.2, rfl⟩, (hh.kids id nd hn).kid0⟩

/-- Witness of C1: the root of the trunk-only tree. -/
theorem generateRandom_level_index_witness :
    (0 ≤ trunkRoot.level ∧ trunkRoot.level ≤ NUM_LEVELS ∧ NUM_LEVELS = 3) ∧
    (0 ≤ trunkRoot.index ∧ trunkRoot.index ≤ NUM_SEGMENTS - 1 ∧ NUM_SEGMENTS - 1 = 29) ∧
    ∀ c, trunkRoot.children[0]? = some c →
      ∃ cn, trunkOnly.nodes[c]? = some cn ∧ cn.level = trunkRoot.level ∧
        cn.index = trunkRoot.index + 1 :=
  generateRandom_level_index sinf0 noBranch 30 trunkOnly (by decide!) 0 trunkRoot (by decide!)

/-- C2: in every tree built by `PMTree2D::generateRandom`, a node with two
children and level below NUM_LEVELS - 1 has a child[1] of level one more than
its own and of index 0. -/
theorem generateRandom_branch_child (sinf : ℚ → ℚ) (rnd : Uniform) (fuel : Nat) (t : PMTree2D)
    (h : PMTree2D.generateRandom sinf rnd fuel = some t) (id : Nat) (nd : TreeNode)
    (hn : t.nodes[id]? = some nd) (h2 : nd.children.length = 2)
    (_hl : nd.level < NUM_LEVELS - 1) :
    ∃ c cn, nd.children[1]? = some c ∧ t.nodes[c]? = some cn ∧
      cn.level = nd.level + 1 ∧ cn.index = 0 := by
  have hh := (generateRandom_heapOK sinf rnd fuel t h).1
  have hc : nd.children[1]? = some (nd.children[1]) := List.getElem?_eq_getElem (by omega)
  obtain ⟨cn, hcn, e1, e2⟩ := (hh.kids id nd hn).kid1 _ hc
  exact ⟨_, cn, hc, hcn, e1, e2⟩

/-- Witness of C2: the root of the tree with one branch, which has the two
children 1 and 2. -/
theorem generateRandom_branch_child_witness :
    ∃ c cn, branchRoot.children[1]? = some c ∧ oneBranch.nodes[c]? = some cn ∧
      cn.level = branchRoot.level + 1 ∧ cn.index = 0 :=
  generateRandom_branch_child sinf0 (branchAt [4]) 60 oneBranch (by decide!) 0 branchRoot
    (by decide!) (by decide!) (by decide!)

/-- C7: in exact arithmetic `shapeRatio(3, r)` is 1 for every `r`,
`shapeRatio(0, 0)` is 0.2, `shapeRatio(0, 1)` is 1, and `shapeRatio(5, 0.7)` is
1 and is the maximum of `shapeRatio(5, r)` over all `r`. -/
theorem shapeRatio_values (sinf : ℚ → ℚ) :
    (∀ r, shapeRatio sinf 3 r = 1) ∧ shapeRatio sinf 0 0 = 0.2 ∧ shapeRatio sinf 0 1 = 1 ∧
      shapeRatio sinf 5 0.7 = 1 ∧ ∀ r, shapeRatio sinf 5 r ≤ shapeRatio sinf 5 0.7 := by
  have h5 : shapeRatio sinf 5 0.7 = 1 := by
    unfold shapeRatio
    norm_num
  refine ⟨?_, ?_, ?_, h5, ?_⟩
  · intro r
    unfold shapeRatio
    norm_num
  · unfold shapeRatio
    norm_num
  · unfold shapeRatio
    norm_num
  · intro r
    rw [h5]
    unfold shapeRatio
    norm_num
    split_ifs with h
    · rw [div_le_one (by norm_num)]
      exact h
    · rw [div_le_one (by norm_num)]
      push_neg at h
      linarith

/-- C9: when every draw of `uniform(a, b)` lies in [a, b], every node of a
tree built by `PMTree2D::generateRandom` has `curve` and `curveBack` in
[-90, 90] and `curveV` in [-95, 95]. -/
theorem generateRandom_curvature_range (sinf : ℚ → ℚ) (rnd : Uniform)
    (hrnd : ∀ (k : Nat) (a b : ℚ), a ≤ b → a ≤ rnd k a b ∧ rnd k a b ≤ b)
    (fuel : Nat) (t : PMTree2D) (h : PMTree2D.generateRandom sinf rnd fuel = some t)
    (nd : TreeNode) (hnd : nd ∈ t.nodes) :
    (-90 ≤ nd.curve ∧ nd.curve ≤ 90) ∧ (-90 ≤ nd.curveBack ∧ nd.curveBack ≤ 90) ∧
      (-95 ≤ nd.curveV ∧ nd.curveV ≤ 95) :=
  generateRandom_curveOK sinf rnd hrnd fuel t h nd hnd

/-- Witness of C9: the root of the trunk-only tree, whose draws are the lower
bounds. -/
theorem generateRandom_curvature_range_witness :
    (-90 ≤ trunkRoot.curve ∧ trunkRoot.curve ≤ 90) ∧
      (-90 ≤ trunkRoot.curveBack ∧ trunkRoot.curveBack ≤ 90) ∧
      (-95 ≤ trunkRoot.curveV ∧ trunkRoot.curveV ≤ 95) :=
  generateRandom_curvature_range sinf0 noBranch (fun _ a _ hab => ⟨le_refl a, hab⟩) 30
    trunkOnly (by decide!) trunkRoot (by decide!)

/-- C10, at the failing input: for the node of index 1 with `curve` 30 and the
draw -5, `TreeNode::generateRandom` sets `curveV` to -5 + 30/60 = -9/2, where
the claim gives -5 + 30/(NUM_SEGMENTS/2) = -3. -/
theorem generateRandom_curveV_counterexample :
    1 ≤ secondSegment.index ∧ (secondSegment.index : ℚ) < (NUM_SEGMENTS : ℚ) / 2 ∧
    (secondSegment.generateRandom noBranch 0).1.curveV = -9 / 2 ∧
    noBranch 0 (-5) 5 + secondSegment.curve / ((NUM_SEGMENTS : ℚ) / 2) = -3 ∧
    (secondSegment.generateRandom noBranch 0).1.curveV ≠
      noBranch 0 (-5) 5 + secondSegment.curve / ((NUM_SEGMENTS : ℚ) / 2) := by
  decide!

/-- What lines 92 and 95 compute for a node with index at least 1: the
expression `curve / NUM_SEGMENTS / 2.0f` is evaluated as
(curve / NUM_SEGMENTS) / 2, the curvature divided by 60, with `curve` when
index < NUM_SEGMENTS / 2 and `curveBack` otherwise. -/
theorem generateRandom_curveV (rnd : Uniform) (k : Nat) (n : TreeNode) (h : 1 ≤ n.index) :
    (n.generateRandom rnd k).1.curveV =
      rnd k (-5) 5 + (if (n.index : ℚ) < (NUM_SEGMENTS : ℚ) / 2 then n.curve
        else n.curveBack) / (NUM_SEGMENTS : ℚ) / 2 ∧
    (n.generateRandom rnd k).1.curveV =
      rnd k (-5) 5 + (if n.index < 15 then n.curve else n.curveBack) / 60 := by
  have hne : n.index ≠ 0 := by omega
  obtain ⟨-, -, e, -⟩ := TreeNode.generateRandom_next rnd k n hne
  have h2 : (2.0 : ℚ) = 2 := by norm_num
  rw [h2] at e
  refine ⟨e, ?_⟩
  rw [e]
  have hN : (NUM_SEGMENTS : ℚ) = 30 := by norm_num [NUM_SEGMENTS]
  rw [hN]
  have hc : ((n.index : ℚ) < 30 / 2) ↔ n.index < 15 := by
    have : (30 : ℚ) / 2 = ((15 : Int) : ℚ) := by norm_num
    rw [this, Int.cast_lt]
  simp only [hc]
  rw [div_div]
  norm_num

/-- The value of lines 92 and 95 at the node of index 1 with `curve` 30. -/
theorem generateRandom_curveV_witness :
    (secondSegment.generateRandom noBranch 0).1.curveV =
      noBranch 0 (-5) 5 + (if (secondSegment.index : ℚ) < (NUM_SEGMENTS : ℚ) / 2
        then secondSegment.curve else secondSegment.curveBack) / (NUM_SEGMENTS : ℚ) / 2 ∧
    (secondSegment.generateRandom noBranch 0).1.curveV =
      noBranch 0 (-5) 5 + (if secondSegment.index < 15 then secondSegment.curve
        else secondSegment.curveBack) / 60 :=
  generateRandom_curveV noBranch 0 secondSegment (by decide)

theorem nodeWeight_pos (l r : Nat) : 0 < nodeWeight l r := by
  unfold nodeWeight
  omega

theorem nodeWeight_succ_zero (r : Nat) : nodeWeight 0 (r + 1) = nodeWeight 0 r + 1 := by
  simp [nodeWeight]
  omega

theorem nodeWeight_succ_succ (l r : Nat) :
    nodeWeight (l + 1) (r + 1) = nodeWeight (l + 1) r + nodeWeight l 29 + 1 := by
  have hb : nodeWeight l 29 = branchWeight l := by
    cases l with
    | zero => rfl
    | succ l => simp [nodeWeight, branchWeight]
  rw [hb]
  simp only [nodeWeight]
  ring

theorem TreeNode.generateRandom_weight (rnd : Uniform) (k : Nat) (n : TreeNode) :
    (n.generateRandom rnd k).1.weight = n.weight := by
  unfold TreeNode.weight
  rw [TreeNode.generateRandom_level, TreeNode.generateRandom_index]

theorem queueWeight_attach (id : Nat) (node child : TreeNode) (s : GenState) (u : Nat)
    (hid : id < u) (hu : u ≤ s.nodes.length) :
    queueWeight (attach id node child s).nodes u = queueWeight s.nodes u + child.weight := by
  unfold queueWeight attach
  simp only []
  rw [List.drop_append_of_le_length (by simpa using hu), List.drop_set_of_lt _ _ hid]
  simp

theorem GenInv.pop {s : GenState} {u id : Nat} {rest : List Nat} (h : GenInv s u)
    (hq : s.queue = id :: rest) :
    id = u ∧ u < s.nodes.length ∧ GenInv { s with queue := rest } (u + 1) := by
  have hqr := h.queue
  rw [hq] at hqr
  have hpos : 0 < s.nodes.length - u := by
    rcases Nat.eq_zero_or_pos (s.nodes.length - u) with e | e
    · rw [e] at hqr
      simp [List.range'] at hqr
    · exact e
  obtain ⟨m, hm⟩ : ∃ m, s.nodes.length - u = m + 1 := ⟨s.nodes.length - u - 1, by omega⟩
  rw [hm, List.range'_succ] at hqr
  obtain ⟨hid, hrest⟩ := List.cons.inj hqr
  refine ⟨hid, by omega, ?_, ?_, fun j nd hj hle => h.leaf j nd hj (by omega), h.heap⟩
  · show u + 1 ≤ s.nodes.length
    omega
  · show rest = List.range' (u + 1) (s.nodes.length - (u + 1))
    rw [hrest]
    congr 1
    omega

theorem generateRandomBody_weight (sinf : ℚ → ℚ) (rnd : Uniform) (s : GenState) (id : Nat)
    (node : TreeNode) (hlt : id + 1 ≤ s.nodes.length) :
    queueWeight (generateRandomBody sinf rnd id node s).nodes (id + 1) + 1 ≤
      queueWeight s.nodes (id + 1) + node.weight := by
  have hpos : 0 < node.weight := nodeWeight_pos _ _
  unfold generateRandomBody
  by_cases h1 : node.index < NUM_SEGMENTS - 1
  · rw [if_pos h1]
    simp only []
    obtain ⟨r, hr⟩ : ∃ r, (NUM_SEGMENTS - 1 - node.index).toNat = r + 1 :=
      ⟨(NUM_SEGMENTS - 1 - node.index).toNat - 1, by omega⟩
    have hr' : (NUM_SEGMENTS - 1 - (node.index + 1)).toNat = r := by omega
    have hc : ((TreeNode.new (some id) node.level (node.index + 1) node.segmentLength 1.0
        node.baseFactor node.curve node.curveBack).generateRandom rnd s.calls).1.weight =
        nodeWeight (NUM_LEVELS - node.level).toNat r := by
      rw [TreeNode.generateRandom_weight]
      simp only [TreeNode.weight, TreeNode.new, hr']
    have hw : node.weight = nodeWeight (NUM_LEVELS - node.level).toNat (r + 1) := by
      simp only [TreeNode.weight, hr]
    have hs1 := queueWeight_attach id node ((TreeNode.new (some id) node.level (node.index + 1)
      node.segmentLength 1.0 node.baseFactor node.curve node.curveBack).generateRandom rnd
      s.calls).1 s (id + 1) (by omega) hlt
    rw [hc] at hs1
    have hmono : nodeWeight (NUM_LEVELS - node.level).toNat r + 1 ≤
        nodeWeight (NUM_LEVELS - node.level).toNat (r + 1) := by
      cases (NUM_LEVELS - node.level).toNat with
      | zero => rw [nodeWeight_succ_zero]
      | succ l => rw [nodeWeight_succ_succ]; omega
    split_ifs with h2 h3 h4
    · -- a branch child is attached as well
      obtain ⟨l, hl⟩ : ∃ l, (NUM_LEVELS - node.level).toNat = l + 1 :=
        ⟨(NUM_LEVELS - node.level).toNat - 1, by omega⟩
      have hl' : (NUM_LEVELS - (node.level + 1)).toNat = l := by omega
      have hs2 := queueWeight_attach id
        { node with children := node.children ++ [s.nodes.length] }
        ((TreeNode.new (some id) (node.level + 1) 0 node.segmentLength
          (branchAttenuation sinf rnd (((TreeNode.new (some id) node.level (node.index + 1)
            node.segmentLength 1.0 node.baseFactor node.curve node.curveBack).generateRandom rnd
            s.calls).2 + 1) node) 0.0 0.0 0.0).generateRandom rnd
          (((TreeNode.new (some id) node.level (node.index + 1) node.segmentLength 1.0
            node.baseFactor node.curve node.curveBack).generateRandom rnd s.calls).2 + 2)).1
        { attach id node ((TreeNode.new (some id) node.level (node.index + 1)
          node.segmentLength 1.0 node.baseFactor node.curve node.curveBack).generateRandom rnd
          s.calls).1 s with calls := ((TreeNode.new (some id) node.level (node.index + 1)
            node.segmentLength 1.0 node.baseFactor node.curve node.curveBack).generateRandom rnd
            s.calls).2 } (id + 1) (by omega) (by simp [attach]; omega)
      rw [TreeNode.generateRandom_weight] at hs2
      have hb : (TreeNode.new (some id) (node.level + 1) 0 node.segmentLength
          (branchAttenuation sinf rnd (((TreeNode.new (some id) node.level (node.index + 1)
            node.segmentLength 1.0 node.baseFactor node.curve node.curveBack).generateRandom rnd
            s.calls).2 + 1) node) 0.0 0.0 0.0).weight = nodeWeight l 29 := by
        simp only [TreeNode.weight, TreeNode.new, hl']
        rfl
      rw [hb] at hs2
      simp only [] at hs2 ⊢
      rw [hs2, hs1, hw, hl, nodeWeight_succ_succ]
      omega
    · show queueWeight (attach id node _ s).nodes (id + 1) + 1 ≤ _
      rw [hs1, hw]
      omega
    · show queueWeight (attach id node _ s).nodes (id + 1) + 1 ≤ _
      rw [hs1, hw]
      omega
    · show queueWeight (attach id node _ s).nodes (id + 1) + 1 ≤ _
      rw [hs1, hw]
      omega
  · rw [if_neg h1]
    omega

theorem queueWeight_cons (nodes : List TreeNode) (u : Nat) (node : TreeNode)
    (hn : nodes[u]? = some node) :
    queueWeight nodes u = node.weight + queueWeight nodes (u + 1) := by
  obtain ⟨hlt, hget⟩ := List.getElem?_eq_some_iff.mp hn
  unfold queueWeight
  rw [List.drop_eq_getElem_cons hlt, hget]
  simp

theorem generateRandomLoop_terminates (sinf : ℚ → ℚ) (rnd : Uniform) :
    ∀ (fuel : Nat) (s : GenState) (u : Nat), GenInv s u → queueWeight s.nodes u ≤ fuel →
      ∃ s', generateRandomLoop sinf rnd fuel s = some s' := by
  intro fuel
  induction fuel with
  | zero =>
    intro s u h hw
    unfold generateRandomLoop
    cases hq : s.queue with
    | nil => exact ⟨s, rfl⟩
    | cons id rest =>
      exfalso
      obtain ⟨rfl, hlt, -⟩ := h.pop hq
      have hn : s.nodes[id]? = some s.nodes[id] := List.getElem?_eq_getElem hlt
      have := queueWeight_cons s.nodes id _ hn
      have := nodeWeight_pos (NUM_LEVELS - (s.nodes[id]).level).toNat
        (NUM_SEGMENTS - 1 - (s.nodes[id]).index).toNat
      simp only [TreeNode.weight] at *
      omega
  | succ fuel ih =>
    intro s u h hw
    unfold generateRandomLoop
    cases hq : s.queue with
    | nil => exact ⟨s, rfl⟩
    | cons id rest =>
      obtain ⟨rfl, hlt, hmid⟩ := h.pop hq
      have hn : s.nodes[id]? = some s.nodes[id] := List.getElem?_eq_getElem hlt
      simp only [hn]
      have hleaf := h.leaf id _ hn (le_refl _)
      have hinv := generateRandomBody_inv sinf rnd _ id _ hmid hn hleaf
      have hdec := generateRandomBody_weight sinf rnd { s with queue := rest } id (s.nodes[id])
        hlt
      have hcons := queueWeight_cons s.nodes id _ hn
      exact ih _ (id + 1) hinv (by simp only [] at hdec; omega)

theorem attach_cell (id : Nat) (node child : TreeNode) (s : GenState)
    (hlt : id < s.nodes.length) :
    (attach id node child s).nodes[id]? =
      some { node with children := node.children ++ [s.nodes.length] } := by
  rw [attach_getElem? _ _ _ _ hlt, if_neg (by omega), if_pos rfl]

theorem attach_before (id : Nat) (node child : TreeNode) (s : GenState)
    (hlt : id < s.nodes.length) (j : Nat) (hj : j < id) :
    (attach id node child s).nodes[j]? = s.nodes[j]? := by
  rw [attach_getElem? _ _ _ _ hlt, if_neg (by omega), if_neg (by omega)]

theorem generateRandomBody_processed (sinf : ℚ → ℚ) (rnd : Uniform) (s : GenState) (id : Nat)
    (node : TreeNode) (hn : s.nodes[id]? = some node) (hleaf : node.children = []) :
    (∀ j, j < id → (generateRandomBody sinf rnd id node s).nodes[j]? = s.nodes[j]?) ∧
    ∃ node', (generateRandomBody sinf rnd id node s).nodes[id]? = some node' ∧
      Processed node' := by
  have hlt : id < s.nodes.length := (List.getElem?_eq_some_iff.mp hn).1
  unfold generateRandomBody
  by_cases h1 : node.index < NUM_SEGMENTS - 1
  · rw [if_pos h1]
    simp only []
    have hlt1 : ∀ (c : TreeNode) (k : Nat),
        id < ({ attach id node c s with calls := k } : GenState).nodes.length := by
      intro c k
      simp [attach]
      omega
    have hone : ∀ c : TreeNode,
        (∀ j, j < id → (attach id node c s).nodes[j]? = s.nodes[j]?) ∧
        ∃ node', (attach id node c s).nodes[id]? = some node' ∧ Processed node' := by
      intro c
      refine ⟨attach_before id node c s hlt, _, attach_cell id node c s hlt, ?_⟩
      simp only [Processed, hleaf]
      exact ⟨by simp [h1], by simp⟩
    split_ifs with h2 h3 h4
    · constructor
      · intro j hj
        exact (attach_before id _ _ _ (hlt1 _ _) j hj).trans (attach_before id node _ s hlt j hj)
      · refine ⟨_, attach_cell id _ _ _ (hlt1 _ _), ?_⟩
        simp only [Processed, hleaf]
        exact ⟨by simp [h1], fun _ => ⟨h1, h2, h3⟩⟩
    · exact hone _
    · exact hone _
    · exact hone _
  · rw [if_neg h1]
    exact ⟨fun _ _ => rfl, node, hn, by simp [Processed, hleaf, h1]⟩

theorem generateRandomLoop_processed (sinf : ℚ → ℚ) (rnd : Uniform) :
    ∀ (fuel : Nat) (s : GenState) (u : Nat) (s' : GenState), GenInv s u →
      (∀ (j : Nat) (nd : TreeNode), s.nodes[j]? = some nd → j < u → Processed nd) →
      generateRandomLoop sinf rnd fuel s = some s' → ∀ nd ∈ s'.nodes, Processed nd := by
  intro fuel
  induction fuel with
  | zero =>
    intro s u s' h hp hrun
    unfold generateRandomLoop at hrun
    split at hrun
    · rename_i hq
      cases hrun
      have hqr := h.queue
      rw [hq] at hqr
      have hlen : s.nodes.length - u = 0 := by
        have := congrArg List.length hqr
        simpa using this.symm
      intro nd hnd
      obtain ⟨j, hj⟩ := List.mem_iff_getElem?.mp hnd
      have := (List.getElem?_eq_some_iff.mp hj).1
      exact hp j nd hj (by omega)
    · simp at hrun
  | succ fuel ih =>
    intro s u s' h hp hrun
    unfold generateRandomLoop at hrun
    split at hrun
    · rename_i hq
      cases hrun
      have hqr := h.queue
      rw [hq] at hqr
      have hlen : s.nodes.length - u = 0 := by
        have := congrArg List.length hqr
        simpa using this.symm
      intro nd hnd
      obtain ⟨j, hj⟩ := List.mem_iff_getElem?.mp hnd
      have := (List.getElem?_eq_some_iff.mp hj).1
      exact hp j nd hj (by omega)
    · rename_i id rest hq
      simp only at hrun
      split at hrun
      · simp at hrun
      · rename_i node hn
        obtain ⟨rfl, hlt, hmid⟩ := h.pop hq
        have hleaf := h.leaf id node hn (le_refl _)
        have hinv := generateRandomBody_inv sinf rnd _ id node hmid hn hleaf
        obtain ⟨hsame, node', hn', hP⟩ :=
          generateRandomBody_processed sinf rnd { s with queue := rest } id node hn hleaf
        refine ih _ (id + 1) s' hinv ?_ hrun
        intro j nd hj hju
        rcases Nat.lt_or_ge j id with hlt' | hge
        · rw [hsame j hlt'] at hj
          exact hp j nd hj hlt'
        · have : j = id := by omega
          subst this
          rw [hn'] at hj
          cases hj
          exact hP

theorem generateRandom_processed (sinf : ℚ → ℚ) (rnd : Uniform) (fuel : Nat) (t : PMTree2D)
    (h : PMTree2D.generateRandom sinf rnd fuel = some t) : ∀ nd ∈ t.nodes, Processed nd := by
  unfold PMTree2D.generateRandom at h
  obtain ⟨s', hs', rfl⟩ := Option.map_eq_some'.mp h
  exact generateRandomLoop_processed sinf rnd fuel _ 0 s' (generateRandomInit_inv rnd)
    (fun _ _ _ hj => absurd hj (Nat.not_lt_zero _)) hs'

theorem generateRandom_returns (sinf : ℚ → ℚ) (rnd : Uniform) (fuel : Nat)
    (hfuel : 757800 ≤ fuel) : ∃ t, PMTree2D.generateRandom sinf rnd fuel = some t := by
  have hw : queueWeight (generateRandomInit rnd).nodes 0 ≤ fuel := by
    have e : queueWeight (generateRandomInit rnd).nodes 0 = 757800 := by
      simp only [queueWeight, generateRandomInit, List.drop_zero, List.map_cons, List.map_nil,
        List.sum_cons, List.sum_nil, TreeNode.generateRandom_weight]
      decide
    omega
  obtain ⟨s', hs'⟩ := generateRandomLoop_terminates sinf rnd fuel _ 0
    (generateRandomInit_inv rnd) hw
  exact ⟨{ nodes := s'.nodes, root := 0 }, by simp [PMTree2D.generateRandom, hs']⟩

theorem branchSegments_length (nodes : List TreeNode) (h : HeapOK nodes)
    (hp : ∀ nd ∈ nodes, Processed nd) :
    ∀ (r id : Nat) (nd : TreeNode), nodes[id]? = some nd →
      (NUM_SEGMENTS - 1 - nd.index).toNat = r → ∀ fuel, r < fuel →
        (branchSegments nodes fuel id).length = r + 1 := by
  intro r
  induction r with
  | zero =>
    intro id nd hn hr fuel hfuel
    obtain ⟨f, rfl⟩ : ∃ f, fuel = f + 1 := ⟨fuel - 1, by omega⟩
    have hnil : nd.children = [] := (hp nd (List.getElem?_mem hn)).1.mpr (by omega)
    simp [branchSegments, hn, hnil]
  | succ r ih =>
    intro id nd hn hr fuel hfuel
    obtain ⟨f, rfl⟩ : ∃ f, fuel = f + 1 := ⟨fuel - 1, by omega⟩
    have hne : nd.children ≠ [] := by
      intro e
      have := (hp nd (List.getElem?_mem hn)).1.mp e
      omega
    obtain ⟨c, hc⟩ : ∃ c, nd.children[0]? = some c := by
      cases hch : nd.children with
      | nil => exact absurd hch hne
      | cons c _ => exact ⟨c, by simp⟩
    obtain ⟨cn, hcn, -, hci⟩ := (h.kids id nd hn).kid0 c hc
    have := ih c cn hcn (by omega) f (by omega)
    simp [branchSegments, hn, hc, this]

theorem TreeNode.generateRandom_attenuationFactor (rnd : Uniform) (k : Nat) (n : TreeNode) :
    (n.generateRandom rnd k).1.attenuationFactor = n.attenuationFactor := by
  unfold TreeNode.generateRandom
  simp only []
  split_ifs <;> rfl

theorem TreeNode.generateRandom_baseFactor (rnd : Uniform) (k : Nat) (n : TreeNode) :
    (n.generateRandom rnd k).1.baseFactor =
      if n.level = 0 ∧ n.index = 0 then rnd k 0 0.5 else n.baseFactor := by
  unfold TreeNode.generateRandom
  simp only []
  split_ifs <;> rfl

theorem shapeRatio_seven_bounds (sinf : ℚ → ℚ) (x : ℚ) (h0 : 0 ≤ x) (h1 : x ≤ 1) :
    0.5 ≤ shapeRatio sinf 7 x ∧ shapeRatio sinf 7 x ≤ 1 := by
  unfold shapeRatio
  norm_num
  split_ifs with h
  · constructor
    · have : 0 ≤ 1 / 2 * x / (7 / 10) := by positivity
      linarith
    · have : 1 / 2 * x / (7 / 10) ≤ 1 / 2 := by
        rw [div_le_iff₀ (by norm_num)]
        linarith
      linarith
  · push_neg at h
    constructor
    · have : 0 ≤ 1 / 2 * (1 - x) / (3 / 10) := by
        apply div_nonneg _ (by norm_num)
        nlinarith
      linarith
    · have : 1 / 2 * (1 - x) / (3 / 10) ≤ 1 / 2 := by
        rw [div_le_iff₀ (by norm_num)]
        linarith
      linarith

theorem trunkRatio_bounds (nd : TreeNode) (hb : 0 ≤ nd.baseFactor ∧ nd.baseFactor ≤ 0.5)
    (hi : nd.index < NUM_SEGMENTS - 1)
    (hg : ((nd.index + 1 : Int) : ℚ) > (NUM_SEGMENTS : ℚ) * nd.baseFactor) :
    (NUM_SEGMENTS : ℚ) * (1.0 - nd.baseFactor) ≠ 0 ∧ 0 ≤ trunkRatio nd ∧ trunkRatio nd ≤ 1 := by
  have hN : (NUM_SEGMENTS : ℚ) = 30 := by norm_num [NUM_SEGMENTS]
  have hb2 : nd.baseFactor ≤ 1 / 2 := by
    have := hb.2
    norm_num at this
    exact this
  have hden : 0 < (NUM_SEGMENTS : ℚ) * (1.0 - nd.baseFactor) := by
    rw [hN]
    norm_num
    linarith
  have hnum : (0 : ℚ) ≤ ((NUM_SEGMENTS - nd.index - 1 : Int) : ℚ) := by
    have : (0 : Int) ≤ NUM_SEGMENTS - nd.index - 1 := by omega
    exact_mod_cast this
  refine ⟨ne_of_gt hden, div_nonneg hnum (le_of_lt hden), ?_⟩
  unfold trunkRatio
  rw [div_le_one hden]
  push_cast at hg ⊢
  rw [hN] at hg ⊢
  norm_num
  linarith

theorem branchAttenuation_bounds (sinf : ℚ → ℚ) (rnd : Uniform)
    (hrnd : ∀ (k : Nat) (a b : ℚ), a ≤ b → a ≤ rnd k a b ∧ rnd k a b ≤ b) (k : Nat)
    (nd : TreeNode) (hP : AttOK nd) (hi : nd.index < NUM_SEGMENTS - 1)
    (hg : nd.level > 0 ∨ ((nd.index + 1 : Int) : ℚ) > (NUM_SEGMENTS : ℚ) * nd.baseFactor) :
    (nd.level = 0 → 0.25 ≤ branchAttenuation sinf rnd k nd ∧
      branchAttenuation sinf rnd k nd ≤ 0.8) ∧
    (0 < nd.level → 0.048 ≤ branchAttenuation sinf rnd k nd ∧
      branchAttenuation sinf rnd k nd ≤ 0.6) := by
  obtain ⟨hl0, hi0, hbf, -, -, -⟩ := hP
  constructor
  · intro hl
    have hg' : ((nd.index + 1 : Int) : ℚ) > (NUM_SEGMENTS : ℚ) * nd.baseFactor := by
      rcases hg with hg | hg
      · omega
      · exact hg
    obtain ⟨-, hr0, hr1⟩ := trunkRatio_bounds nd (hbf hl) hi hg'
    obtain ⟨hs0, hs1⟩ := shapeRatio_seven_bounds sinf _ hr0 hr1
    obtain ⟨hu0, hu1⟩ := hrnd k 0.5 0.8 (by norm_num)
    have key : ∀ u sr : ℚ, 0.5 ≤ u → u ≤ 0.8 → 0.5 ≤ sr → sr ≤ 1 →
        0.25 ≤ u * sr ∧ u * sr ≤ 0.8 := by
      intro u sr h1 h2 h3 h4
      norm_num at h1 h2 h3 ⊢
      constructor <;> nlinarith
    unfold branchAttenuation
    rw [if_pos hl]
    exact key _ _ hu0 hu1 hs0 hs1
  · intro hl
    obtain ⟨hu0, hu1⟩ := hrnd k 0.3 0.6 (by norm_num)
    unfold branchAttenuation
    rw [if_neg (by omega)]
    have hN : (NUM_SEGMENTS : ℚ) = 30 := by norm_num [NUM_SEGMENTS]
    have hx0 : (0 : ℚ) ≤ (nd.index : ℚ) := by exact_mod_cast hi0
    have hx1 : (nd.index : ℚ) ≤ 28 := by
      have : nd.index ≤ 28 := by
        have : NUM_SEGMENTS = 30 := rfl
        omega
      exact_mod_cast this
    have key : ∀ u x : ℚ, 0.3 ≤ u → u ≤ 0.6 → 0 ≤ x → x ≤ 28 →
        0.048 ≤ u * (30 - x * 0.9) / 30 ∧ u * (30 - x * 0.9) / 30 ≤ 0.6 := by
      intro u x h1 h2 h3 h4
      norm_num at h1 h2 ⊢
      constructor
      · rw [le_div_iff₀ (by norm_num)]
        nlinarith
      · rw [div_le_iff₀ (by norm_num)]
        nlinarith
    rw [hN]
    exact key _ _ hu0 hu1 hx0 hx1

theorem generateRandom_attOK (sinf : ℚ → ℚ) (rnd : Uniform)
    (hrnd : ∀ (k : Nat) (a b : ℚ), a ≤ b → a ≤ rnd k a b ∧ rnd k a b ≤ b)
    (fuel : Nat) (t : PMTree2D) (h : PMTree2D.generateRandom sinf rnd fuel = some t) :
    ∀ nd ∈ t.nodes, AttOK nd := by
  refine generateRandom_forall sinf rnd AttOK (fun _ _ h => h) ?_ ?_ ?_ fuel t h
  · unfold AttOK
    rw [TreeNode.generateRandom_level, TreeNode.generateRandom_index,
      TreeNode.generateRandom_attenuationFactor, TreeNode.generateRandom_baseFactor]
    refine ⟨le_refl _, le_refl _, fun _ => ?_, fun _ => ?_, fun _ h1 => ?_, fun _ h2 => ?_⟩
    · rw [if_pos ⟨rfl, rfl⟩]
      exact hrnd 0 0 0.5 (by norm_num)
    · norm_num [TreeNode.new]
    · exact absurd h1 (by decide)
    · exact absurd h2 (by decide)
  · intro id k nd hP hi
    obtain ⟨hl0, hi0, hbf, -, -, -⟩ := hP
    unfold AttOK
    rw [TreeNode.generateRandom_level, TreeNode.generateRandom_index,
      TreeNode.generateRandom_attenuationFactor, TreeNode.generateRandom_baseFactor]
    have e1 : (TreeNode.new (some id) nd.level (nd.index + 1) nd.segmentLength 1.0
        nd.baseFactor nd.curve nd.curveBack).level = nd.level := rfl
    have e2 : (TreeNode.new (some id) nd.level (nd.index + 1) nd.segmentLength 1.0
        nd.baseFactor nd.curve nd.curveBack).index = nd.index + 1 := rfl
    have e3 : (TreeNode.new (some id) nd.level (nd.index + 1) nd.segmentLength 1.0
        nd.baseFactor nd.curve nd.curveBack).baseFactor = nd.baseFactor := rfl
    have e4 : (TreeNode.new (some id) nd.level (nd.index + 1) nd.segmentLength 1.0
        nd.baseFactor nd.curve nd.curveBack).attenuationFactor = 1.0 := rfl
    rw [e1, e2, e3, e4]
    refine ⟨hl0, by omega, fun hl => ?_, fun _ => by norm_num, fun h0 _ => ?_,
      fun h0 _ => ?_⟩
    · rw [if_neg (by omega)]
      exact hbf hl
    · omega
    · omega
  · intro id k k' nd hP hi hl hg
    obtain ⟨hb1, hb2⟩ := branchAttenuation_bounds sinf rnd hrnd k' nd hP hi hg
    obtain ⟨hl0, hi0, hbf, -, -, -⟩ := hP
    unfold AttOK
    rw [TreeNode.generateRandom_level, TreeNode.generateRandom_index,
      TreeNode.generateRandom_attenuationFactor, TreeNode.generateRandom_baseFactor]
    have e1 : (TreeNode.new (some id) (nd.level + 1) 0 nd.segmentLength
        (branchAttenuation sinf rnd k' nd) 0.0 0.0 0.0).level = nd.level + 1 := rfl
    have e2 : (TreeNode.new (some id) (nd.level + 1) 0 nd.segmentLength
        (branchAttenuation sinf rnd k' nd) 0.0 0.0 0.0).index = 0 := rfl
    have e4 : (TreeNode.new (some id) (nd.level + 1) 0 nd.segmentLength
        (branchAttenuation sinf rnd k' nd) 0.0 0.0 0.0).attenuationFactor =
        branchAttenuation sinf rnd k' nd := rfl
    rw [e1, e2, e4]
    refine ⟨by omega, le_refl _, fun hl' => ?_, fun hc => ?_, fun _ h1 => ?_, fun _ h2 => ?_⟩
    · omega
    · omega
    · exact hb1 (by omega)
    · exact hb2 (by omega)

/-- C11: for every random source the work-queue loop of
`PMTree2D::generateRandom` terminates, after at most 757800 dequeues; the
tree it builds has a root, of level 0 and index 0, whose branch (the trunk)
has NUM_SEGMENTS = 30 segments; in this tree a node has no children exactly
when its index is NUM_SEGMENTS - 1, and the branch that starts at any node of
index 0 consists of exactly NUM_SEGMENTS = 30 segments. -/
theorem generateRandom_terminates (sinf : ℚ → ℚ) (rnd : Uniform) (fuel : Nat)
    (hfuel : 757800 ≤ fuel) :
    ∃ t, PMTree2D.generateRandom sinf rnd fuel = some t ∧
      (∃ r, t.nodes[t.root]? = some r ∧ r.level = 0 ∧ r.index = 0 ∧
        (branchSegments t.nodes 30 t.root).length = 30) ∧
      (∀ (id : Nat) (nd : TreeNode), t.nodes[id]? = some nd →
        (nd.children = [] ↔ nd.index = NUM_SEGMENTS - 1)) ∧
      (∀ (id : Nat) (nd : TreeNode), t.nodes[id]? = some nd → nd.index = 0 →
        ∀ n, 30 ≤ n → (branchSegments t.nodes n id).length = 30) := by
  obtain ⟨t, ht⟩ := generateRandom_returns sinf rnd fuel hfuel
  obtain ⟨hh, hroot⟩ := generateRandom_heapOK sinf rnd fuel t ht
  have hp := generateRandom_processed sinf rnd fuel t ht
  refine ⟨t, ht, ?_, ?_, ?_⟩
  · obtain ⟨r, hr, hrl, hri⟩ := hh.root
    rw [hroot]
    exact ⟨r, hr, hrl, hri,
      branchSegments_length t.nodes hh hp 29 0 r hr (by rw [hri]; rfl) 30 (by omega)⟩
  · intro id nd hn
    have hb := hh.bounds id nd hn
    rw [(hp nd (List.getElem?_mem hn)).1]
    constructor <;> intro h <;> omega
  · intro id nd hn hi n hn30
    exact branchSegments_length t.nodes hh hp 29 id nd hn (by rw [hi]; rfl) n (by omega)

/-- Witness of C11: the draws `noBranch` with 757800 units of fuel. -/
theorem generateRandom_terminates_witness :
    ∃ t, PMTree2D.generateRandom sinf0 noBranch 757800 = some t ∧
      (∃ r, t.nodes[t.root]? = some r ∧ r.level = 0 ∧ r.index = 0 ∧
        (branchSegments t.nodes 30 t.root).length = 30) ∧
      (∀ (id : Nat) (nd : TreeNode), t.nodes[id]? = some nd →
        (nd.children = [] ↔ nd.index = NUM_SEGMENTS - 1)) ∧
      (∀ (id : Nat) (nd : TreeNode), t.nodes[id]? = some nd → nd.index = 0 →
        ∀ n, 30 ≤ n → (branchSegments t.nodes n id).length = 30) :=
  generateRandom_terminates sinf0 noBranch 757800 (le_refl _)

/-- C12: when every draw of `uniform(a, b)` lies in [a, b], in every tree
built by `PMTree2D::generateRandom` the root and every continuation child
have attenuation factor 1, every node has its attenuation factor in (0, 1],
a level-0 node that has branched passed to `shapeRatio(7, .)` a ratio with a
non-zero denominator and a value in [0, 1] and its branch has an attenuation
factor in [0.25, 0.8], and a branch from a node of level above 0 has an
attenuation factor in [0.048, 0.6]. -/
theorem generateRandom_attenuation (sinf : ℚ → ℚ) (rnd : Uniform)
    (hrnd : ∀ (k : Nat) (a b : ℚ), a ≤ b → a ≤ rnd k a b ∧ rnd k a b ≤ b)
    (fuel : Nat) (t : PMTree2D) (h : PMTree2D.generateRandom sinf rnd fuel = some t) :
    (∃ r, t.nodes[t.root]? = some r ∧ r.attenuationFactor = 1) ∧
    ∀ (id : Nat) (nd : TreeNode), t.nodes[id]? = some nd →
      (0 < nd.attenuationFactor ∧ nd.attenuationFactor ≤ 1) ∧
      (∀ (c0 : Nat) (cn : TreeNode), nd.children[0]? = some c0 → t.nodes[c0]? = some cn →
        cn.attenuationFactor = 1) ∧
      (∀ (c1 : Nat) (cn : TreeNode), nd.children[1]? = some c1 → t.nodes[c1]? = some cn →
        (nd.level = 0 →
          ((NUM_SEGMENTS : ℚ) * (1.0 - nd.baseFactor) ≠ 0 ∧
            0 ≤ ((NUM_SEGMENTS - nd.index - 1 : Int) : ℚ) /
              ((NUM_SEGMENTS : ℚ) * (1.0 - nd.baseFactor)) ∧
            ((NUM_SEGMENTS - nd.index - 1 : Int) : ℚ) /
              ((NUM_SEGMENTS : ℚ) * (1.0 - nd.baseFactor)) ≤ 1) ∧
          0.25 ≤ cn.attenuationFactor ∧ cn.attenuationFactor ≤ 0.8) ∧
        (0 < nd.level → 0.048 ≤ cn.attenuationFactor ∧ cn.attenuationFactor ≤ 0.6)) := by
  obtain ⟨hh, hroot⟩ := generateRandom_heapOK sinf rnd fuel t h
  have hp := generateRandom_processed sinf rnd fuel t h
  have ha := generateRandom_attOK sinf rnd hrnd fuel t h
  constructor
  · obtain ⟨r, hr, hrl, -⟩ := hh.root
    rw [hroot]
    exact ⟨r, hr, (ha r (List.getElem?_mem hr)).2.2.2.1 (Or.inl hrl)⟩
  · intro id nd hn
    have hk := hh.kids id nd hn
    have hA := ha nd (List.getElem?_mem hn)
    refine ⟨?_, ?_, ?_⟩
    · obtain ⟨hl0, hi0, -, h1, h2, h3⟩ := hA
      by_cases hc : nd.level = 0 ∨ 1 ≤ nd.index
      · rw [h1 hc]
        norm_num
      · have hi : nd.index = 0 := by omega
        rcases lt_or_le nd.level 2 with hl | hl
        · have := h2 hi (by omega)
          norm_num at this ⊢
          constructor <;> linarith
        · have := h3 hi hl
          norm_num at this ⊢
          constructor <;> linarith
    · intro c0 cn hc0 hcn
      obtain ⟨cn', hcn', -, hci⟩ := hk.kid0 c0 hc0
      rw [hcn] at hcn'
      cases hcn'
      have hA' := ha cn (List.getElem?_mem hcn)
      exact hA'.2.2.2.1 (Or.inr (by have := hA.2.1; omega))
    · intro c1 cn hc1 hcn
      obtain ⟨cn', hcn', hcl, hci⟩ := hk.kid1 c1 hc1
      rw [hcn] at hcn'
      cases hcn'
      have hA' := ha cn (List.getElem?_mem hcn)
      have hlen : nd.children.length = 2 := by
        have := (List.getElem?_eq_some_iff.mp hc1).1
        have := hk.le2
        omega
      obtain ⟨hi, -, hg⟩ := (hp nd (List.getElem?_mem hn)).2 hlen
      constructor
      · intro hl
        have hg' : ((nd.index + 1 : Int) : ℚ) > (NUM_SEGMENTS : ℚ) * nd.baseFactor := by
          rcases hg with hg | hg
          · omega
          · exact hg
        exact ⟨trunkRatio_bounds nd (hA.2.2.1 hl) hi hg', hA'.2.2.2.2.1 hci (by omega)⟩
      · intro hl
        exact hA'.2.2.2.2.2 hci (by omega)

theorem to_stringLoop_extends (nodes : List TreeNode) :
    ∀ (fuel : Nat) (queue : List Nat) (ss out : List (ℚ × ℚ × ℚ)),
      to_stringLoop nodes fuel queue ss = some out → ∃ tl, out = ss ++ tl := by
  intro fuel
  induction fuel with
  | zero =>
    intro queue ss out h
    unfold to_stringLoop at h
    cases queue with
    | nil => simp at h; exact ⟨[], by simp [h]⟩
    | cons id rest => simp at h
  | succ fuel ih =>
    intro queue ss out h
    unfold to_stringLoop at h
    cases queue with
    | nil => simp at h; exact ⟨[], by simp [h]⟩
    | cons id rest =>
      simp only [] at h
      cases hn : nodes[id]? with
      | none => rw [hn] at h; simp at h
      | some node =>
        rw [hn] at h
        simp only [] at h
        obtain ⟨tl, htl⟩ := ih _ _ _ h
        exact ⟨node.to_string :: tl, by rw [htl]; simp⟩

theorem to_stringLoopN_eq_take (nodes : List TreeNode) (index : Int) :
    ∀ (fuel : Nat) (queue : List Nat) (ss out : List (ℚ × ℚ × ℚ)) (count : Int),
      count < index → to_stringLoop nodes fuel queue ss = some out →
        to_stringLoopN nodes index fuel queue ss count =
          some (out.take (ss.length + (index - count).toNat)) := by
  intro fuel
  induction fuel with
  | zero =>
    intro queue ss out count hc h
    unfold to_stringLoop at h
    unfold to_stringLoopN
    cases queue with
    | nil =>
      simp only [Option.some.injEq] at h ⊢
      subst h
      rw [List.take_of_length_le (by omega)]
    | cons id rest => simp at h
  | succ fuel ih =>
    intro queue ss out count hc h
    unfold to_stringLoop at h
    unfold to_stringLoopN
    cases queue with
    | nil =>
      simp only [Option.some.injEq] at h ⊢
      subst h
      rw [List.take_of_length_le (by omega)]
    | cons id rest =>
      simp only [] at h ⊢
      cases hn : nodes[id]? with
      | none => rw [hn] at h; simp at h
      | some node =>
        rw [hn] at h
        simp only [] at h ⊢
        obtain ⟨tl, htl⟩ := to_stringLoop_extends nodes _ _ _ _ h
        by_cases hb : count + 1 ≥ index
        · rw [if_pos hb]
          have e : (index - count).toNat = 1 := by omega
          rw [e, htl]
          congr 1
          rw [List.take_append_of_le_length (by simp)]
          rw [List.take_of_length_le (by simp)]
        · rw [if_neg hb, ih _ _ out (count + 1) (by omega) h]
          congr 2
          simp only [List.length_append, List.length_singleton]
          omega

theorem generateSegmentGeometry_dangling (nodes : List TreeNode) (fuel : Nat) (sl sw : ℚ)
    (fw : Bool) (id : Nat) (h : nodes[id]? = none) :
    generateSegmentGeometry nodes fuel sl sw fw id = none := by
  cases fuel with
  | zero => rfl
  | succ fuel =>
    unfold generateSegmentGeometry
    rw [h]

theorem generateTrainingData_dangling (nodes : List TreeNode) (fuel : Nat) (sl : ℚ)
    (id : Nat) (h : nodes[id]? = none) :
    generateTrainingData nodes fuel sl id = none := by
  cases fuel with
  | zero => rfl
  | succ fuel =>
    unfold generateTrainingData
    rw [h]

theorem segmentsOf_append (a b : List Primitive) :
    segmentsOf (a ++ b) = segmentsOf a ++ segmentsOf b := by
  simp [segmentsOf, List.filterMap_append]

theorem sampleVisits_cons (img : LocalImage) (a b : List LocalImage) (x y : List (List ℚ)) :
    sampleVisits ([img] ++ a ++ b, x) = [img.visit] ++ sampleVisits (a, y) ++ sampleVisits (b, y) := by
  simp [sampleVisits]

theorem segmentsOf_cylinder (id : Nat) (r1 r2 h : ℚ) (col : ℚ × ℚ × ℚ × ℚ)
    (a b : List Primitive) :
    segmentsOf ([Primitive.cylinder id r1 r2 h col] ++ a ++ b) =
      [(id, h)] ++ segmentsOf a ++ segmentsOf b := by
  simp [segmentsOf, Primitive.segment?, List.filterMap_append]

/-- How the two recursions put the results of the recursive calls together. -/
theorem visits_combine (A B : Option (List LocalImage × List (List ℚ)))
    (G H : Option (List Primitive)) (hA : A.map sampleVisits = G.map segmentsOf)
    (hB : B.map sampleVisits = H.map segmentsOf) (id : Nat) (sl r1 r2 : ℚ)
    (col : ℚ × ℚ × ℚ × ℚ) (params : List ℚ) :
    (match A with
      | none => none
      | some a =>
        match B with
        | none => none
        | some b =>
          some ([({ node := id, segment_length := sl } : LocalImage)] ++ a.1 ++ b.1,
            [params] ++ a.2 ++ b.2)).map sampleVisits =
    (match G, H with
      | some a, some b => some ([Primitive.cylinder id r1 r2 sl col] ++ a ++ b)
      | _, _ => none).map segmentsOf := by
  cases A <;> cases G <;> cases B <;> cases H <;>
    simp only [Option.map_some', Option.map_none', Option.some.injEq, reduceCtorEq] at hA hB ⊢
  rename_i a g b h
  rw [sampleVisits_cons _ _ _ _ [], segmentsOf_cylinder]
  have ea : sampleVisits (a.1, []) = segmentsOf g := hA
  have eb : sampleVisits (b.1, []) = segmentsOf h := hB
  rw [ea, eb]
  rfl

/-- The same when only the continuation child is visited: what geometry
emission adds for the second child holds no cylinder. -/
theorem visits_combine_one (A : Option (List LocalImage × List (List ℚ)))
    (G : Option (List Primitive)) (hA : A.map sampleVisits = G.map segmentsOf)
    (h : List Primitive) (hh : segmentsOf h = []) (id : Nat) (sl r1 r2 : ℚ)
    (col : ℚ × ℚ × ℚ × ℚ) (params : List ℚ) :
    (match A with
      | none => none
      | some a =>
        some ([({ node := id, segment_length := sl } : LocalImage)] ++ a.1,
          [params] ++ a.2)).map sampleVisits =
    (match G, some h with
      | some a, some b => some ([Primitive.cylinder id r1 r2 sl col] ++ a ++ b)
      | _, _ => none).map segmentsOf := by
  cases A <;> cases G <;>
    simp only [Option.map_some', Option.map_none', Option.some.injEq, reduceCtorEq] at hA ⊢
  rename_i a g
  rw [segmentsOf_cylinder, hh, ← hA]
  simp [sampleVisits, LocalImage.visit]

theorem generateTrainingData_visits (nodes : List TreeNode) :
    ∀ (fuel : Nat) (sl sw : ℚ) (fw : Bool) (id : Nat),
      (generateTrainingData nodes fuel sl id).map sampleVisits =
        (generateSegmentGeometry nodes fuel sl sw fw id).map segmentsOf := by
  intro fuel
  induction fuel with
  | zero => intro sl sw fw id; rfl
  | succ fuel ih =>
    intro sl sw fw id
    unfold generateTrainingData generateSegmentGeometry
    cases hn : nodes[id]? with
    | none => rfl
    | some node =>
      simp only []
      rw [if_neg (by norm_num)]
      unfold trainingParams
      simp only []
      cases h0 : node.children[0]? with
      | none =>
        have h1 : node.children[1]? = none := by
          have := List.getElem?_eq_none_iff.mp h0
          exact List.getElem?_eq_none (by omega)
        rw [h1]
        rfl
      | some c0 =>
        simp only []
        cases hn0 : nodes[c0]? with
        | none =>
          rw [generateSegmentGeometry_dangling nodes fuel _ _ _ c0 hn0]
          cases node.children[1]? <;> rfl
        | some child0 =>
          have hA := ih sl sw fw c0
          cases h1 : node.children[1]? with
          | none =>
            simp only [Option.map_some', ite_self]
            exact visits_combine_one _ _ hA [] rfl id sl _ _ _ _
          | some c1 =>
            simp only []
            cases hn1 : nodes[c1]? with
            | none =>
              simp only [Option.map_none']
              cases generateSegmentGeometry nodes fuel sl sw fw c0 <;> rfl
            | some child1 =>
              simp only [Option.map_some']
              by_cases hl : node.level ≤ 1
              · have hl' : node.level < NUM_LEVELS - 1 := by
                  have : NUM_LEVELS = 3 := rfl
                  omega
                rw [if_pos hl, if_pos hl']
                simp only [hn1]
                cases fw with
                | true =>
                  exact visits_combine _ _ _ _ hA (ih _ _ _ c1) id sl _ _ _ _
                | false =>
                  exact visits_combine _ _ _ _ hA (ih _ _ _ c1) id sl _ _ _ _
              · have hl' : ¬ node.level < NUM_LEVELS - 1 := by
                  have : NUM_LEVELS = 3 := rfl
                  omega
                rw [if_neg hl, if_neg hl']
                exact visits_combine_one _ _ hA (generateLeafGeometry c1) rfl id sl _ _ _ _

theorem generateSegmentGeometry_succ (nodes : List TreeNode) (fuel : Nat) (sl sw : ℚ)
    (fw : Bool) (id : Nat) (out : List Primitive)
    (h : generateSegmentGeometry nodes (fuel + 1) sl sw fw id = some out) :
    ∃ (node : TreeNode) (a b : List Primitive), nodes[id]? = some node ∧
      out = Primitive.cylinder id ((if !fw then startWidth sw node.index else sw) * 0.5)
        ((if !fw then endWidth sw node.index else sw) * 0.5) sl
        (if node.level > 0 then (0, 1, 0, 1) else (1, 0, 0, 1.0)) :: (a ++ b) ∧
      ((node.children[0]? = none ∧ a = []) ∨
        ∃ c0, node.children[0]? = some c0 ∧
          generateSegmentGeometry nodes fuel sl sw fw c0 = some a) ∧
      ((node.children[1]? = none ∧ b = []) ∨
        ∃ (c1 : Nat) (child1 : TreeNode), node.children[1]? = some c1 ∧
          nodes[c1]? = some child1 ∧
          ((node.level < NUM_LEVELS - 1 ∧
            generateSegmentGeometry nodes fuel (sl * child1.attenuationFactor)
              (if fw then sw else
                max MIN_SEGMENT_WIDTH (startWidth sw node.index * child1.attenuationFactor))
              fw c1 = some b) ∨
          (¬ node.level < NUM_LEVELS - 1 ∧ b = generateLeafGeometry c1))) := by
  unfold generateSegmentGeometry at h
  cases hn : nodes[id]? with
  | none => rw [hn] at h; simp at h
  | some node =>
    rw [hn] at h
    simp only [] at h
    split at h
    · rename_i a b ha hb
      simp only [Option.some.injEq] at h
      refine ⟨node, a, b, rfl, ?_, ?_, ?_⟩
      · rw [← h]
        cases fw <;> simp [startWidth, endWidth]
      · cases h0 : node.children[0]? with
        | none =>
          rw [h0] at ha
          simp only [Option.some.injEq] at ha
          exact Or.inl ⟨rfl, ha.symm⟩
        | some c0 =>
          rw [h0] at ha
          exact Or.inr ⟨c0, rfl, ha⟩
      · cases h1 : node.children[1]? with
        | none =>
          rw [h1] at hb
          simp only [Option.some.injEq] at hb
          exact Or.inl ⟨rfl, hb.symm⟩
        | some c1 =>
          rw [h1] at hb
          simp only [] at hb
          cases hn1 : nodes[c1]? with
          | none => rw [hn1] at hb; simp at hb
          | some child1 =>
            rw [hn1] at hb
            simp only [] at hb
            refine Or.inr ⟨c1, child1, rfl, hn1, ?_⟩
            by_cases hl : node.level < NUM_LEVELS - 1
            · rw [if_pos hl] at hb
              refine Or.inl ⟨hl, ?_⟩
              cases fw with
              | true => simpa using hb
              | false => simpa [startWidth] using hb
            · rw [if_neg hl] at hb
              simp only [Option.some.injEq] at hb
              exact Or.inr ⟨hl, hb.symm⟩
    · simp at h

theorem Adjacent.cons {nodes : List TreeNode} {p : Primitive} {l : List Primitive}
    (hl : Adjacent nodes l)
    (hp : ∀ (id : Nat) (r1 r2 h : ℚ) (col : ℚ × ℚ × ℚ × ℚ),
      p = Primitive.cylinder id r1 r2 h col →
      ∀ (nd : TreeNode) (c0 : Nat), nodes[id]? = some nd → nd.children[0]? = some c0 →
        ∃ (r2' h' : ℚ) (col' : ℚ × ℚ × ℚ × ℚ),
          l[0]? = some (Primitive.cylinder c0 r2 r2' h' col')) :
    Adjacent nodes (p :: l) := by
  intro i id r1 r2 h col hi nd c0 hn hc
  cases i with
  | zero =>
    simp only [List.getElem?_cons_zero, Option.some.injEq] at hi
    simpa using hp id r1 r2 h col hi nd c0 hn hc
  | succ i =>
    simp only [List.getElem?_cons_succ] at hi ⊢
    exact hl i id r1 r2 h col hi nd c0 hn hc

theorem branchAt_range (ks : List Nat) (k : Nat) (a b : ℚ) (hab : a ≤ b) :
    a ≤ branchAt ks k a b ∧ branchAt ks k a b ≤ b := by
  unfold branchAt
  split_ifs with h1 h2
  · obtain ⟨rfl, rfl⟩ := h1
    norm_num
  · obtain ⟨rfl, rfl⟩ := h1
    norm_num
  · exact ⟨le_refl a, hab⟩

/-- Witness of C12: the tree with one branch from the root. -/
theorem generateRandom_attenuation_witness :
    (∃ r, oneBranch.nodes[oneBranch.root]? = some r ∧ r.attenuationFactor = 1) ∧
    ∀ (id : Nat) (nd : TreeNode), oneBranch.nodes[id]? = some nd →
      (0 < nd.attenuationFactor ∧ nd.attenuationFactor ≤ 1) ∧
      (∀ (c0 : Nat) (cn : TreeNode), nd.children[0]? = some c0 →
        oneBranch.nodes[c0]? = some cn → cn.attenuationFactor = 1) ∧
      (∀ (c1 : Nat) (cn : TreeNode), nd.children[1]? = some c1 →
        oneBranch.nodes[c1]? = some cn →
        (nd.level = 0 →
          ((NUM_SEGMENTS : ℚ) * (1.0 - nd.baseFactor) ≠ 0 ∧
            0 ≤ ((NUM_SEGMENTS - nd.index - 1 : Int) : ℚ) /
              ((NUM_SEGMENTS : ℚ) * (1.0 - nd.baseFactor)) ∧
            ((NUM_SEGMENTS - nd.index - 1 : Int) : ℚ) /
              ((NUM_SEGMENTS : ℚ) * (1.0 - nd.baseFactor)) ≤ 1) ∧
          0.25 ≤ cn.attenuationFactor ∧ cn.attenuationFactor ≤ 0.8) ∧
        (0 < nd.level → 0.048 ≤ cn.attenuationFactor ∧ cn.attenuationFactor ≤ 0.6)) :=
  generateRandom_attenuation sinf0 (branchAt [4]) (branchAt_range [4]) 60 oneBranch
    (by decide!)

/-- C13, counterexample: for the trunk-only tree of 30 nodes `to_string()`
writes 30 tuples and `to_string(0)` writes 1 tuple, the root's, not
min(0, 30) = 0 tuples. -/
theorem to_stringN_counterexample :
    (trunkOnly.to_string 30).map List.length = some 30 ∧
    (trunkOnly.to_stringN 30 0).map List.length = some 1 ∧
    (trunkOnly.to_stringN 30 0).map List.length ≠ some (min 0 30) := by
  decide!

/-- C13, amended: for every tree on which `to_string()` returns and every
integer N at least 1, `to_string(N)` writes exactly the tuples of the first
min(N, nodeCount) nodes of the breadth-first order of `to_string()`, in the
same order: its output is a beginning of the output of `to_string()` and is
the whole of it when N is at least nodeCount. -/
theorem to_stringN_take (t : PMTree2D) (fuel : Nat) (out : List (ℚ × ℚ × ℚ)) (N : Int)
    (hN : 1 ≤ N) (h : t.to_string fuel = some out) :
    t.to_stringN fuel N = some (out.take N.toNat) ∧
    (out.take N.toNat).length = min N.toNat out.length ∧
    out.take N.toNat <+: out ∧
    ((out.length : Int) ≤ N → t.to_stringN fuel N = some out) := by
  have e : t.to_stringN fuel N = some (out.take N.toNat) := by
    unfold PMTree2D.to_stringN
    unfold PMTree2D.to_string at h
    rw [to_stringLoopN_eq_take t.nodes N fuel _ [] out 0 (by omega) h]
    simp
  refine ⟨e, List.length_take _ _, List.take_prefix _ _, ?_⟩
  intro hle
  rw [e, List.take_of_length_le (by omega)]

/-- Witness of C13 (amended): the first 5 tuples of the trunk-only tree. -/
theorem to_stringN_take_witness :
    trunkOnly.to_stringN 30 5 = some (trunkTuples.take (5 : Int).toNat) ∧
    (trunkTuples.take (5 : Int).toNat).length = min (5 : Int).toNat trunkTuples.length ∧
    trunkTuples.take (5 : Int).toNat <+: trunkTuples ∧
    ((trunkTuples.length : Int) ≤ 5 → trunkOnly.to_stringN 30 5 = some trunkTuples) :=
  to_stringN_take trunkOnly 30 trunkTuples 5 (by decide) (by decide!)

/-- C16: for every tree, from every node and with every fuel, the visits of
`PMTree2D::generateTrainingData` (node and `segment_length`, in order) are
the cylinder segments of `generateSegmentGeometry` (node and length, in
order), and one run fails exactly when the other does; so `localImages` and
`parameters` grow by the same count, the number of emitted segments, and no
sample is made below a child[1] that is drawn as a leaf. -/
theorem generateTrainingData_segments (t : PMTree2D) (fuel : Nat)
    (segment_length segment_width : ℚ) (fixed_width : Bool) (id : Nat) :
    (generateTrainingData t.nodes fuel segment_length id).map sampleVisits =
      (generateSegmentGeometry t.nodes fuel segment_length segment_width fixed_width id).map
        segmentsOf ∧
    (t.generateTrainingData fuel).map sampleVisits =
      (t.generateGeometry fuel fixed_width).map segmentsOf ∧
    ∀ (localImages : List LocalImage) (parameters : List (List ℚ)) (prims : List Primitive),
      t.generateTrainingData fuel = some (localImages, parameters) →
      t.generateGeometry fuel fixed_width = some prims →
      localImages.length = parameters.length ∧
        parameters.length = (segmentsOf prims).length := by
  have hmain := generateTrainingData_visits t.nodes fuel
  have hentry : (t.generateTrainingData fuel).map sampleVisits =
      (t.generateGeometry fuel fixed_width).map segmentsOf := hmain _ _ _ _
  refine ⟨hmain _ _ _ _, hentry, ?_⟩
  intro imgs params prims h1 h2
  have hlen := (generateTrainingData_samples t.nodes fuel _ _ imgs params h1).length_eq
  rw [h1, h2] at hentry
  simp only [Option.map_some', Option.some.injEq, sampleVisits] at hentry
  have := congrArg List.length hentry
  simp only [List.length_map] at this
  exact ⟨hlen, by omega⟩

theorem generateSegmentGeometry_sound (nodes : List TreeNode) (h : HeapOK nodes) :
    ∀ (fuel : Nat) (sl sw : ℚ) (fw : Bool) (id : Nat) (nd : TreeNode) (out : List Primitive),
      nodes[id]? = some nd → nd.level < NUM_LEVELS →
      generateSegmentGeometry nodes fuel sl sw fw id = some out →
      ∀ p ∈ out, DrawnOK nodes p := by
  intro fuel
  induction fuel with
  | zero => intro sl sw fw id nd out _ _ h; simp [generateSegmentGeometry] at h
  | succ fuel ih =>
    intro sl sw fw id nd out hn hl hout p hp
    obtain ⟨node, a, b, hn', e, ha, hb⟩ := generateSegmentGeometry_succ nodes fuel sl sw fw id
      out hout
    rw [hn] at hn'
    cases hn'
    have hk := h.kids id nd hn
    rw [e] at hp
    simp only [List.mem_cons, List.mem_append] at hp
    rcases hp with rfl | hp | hp
    · exact ⟨nd, hn, hl⟩
    · rcases ha with ⟨-, rfl⟩ | ⟨c0, hc0, hr⟩
      · simp at hp
      · obtain ⟨cn, hcn, e1, -⟩ := hk.kid0 c0 hc0
        exact ih _ _ _ c0 cn a hcn (by omega) hr p hp
    · rcases hb with ⟨-, rfl⟩ | ⟨c1, child1, hc1, hch, hr⟩
      · simp at hp
      · obtain ⟨cn, hcn, e1, e2⟩ := hk.kid1 c1 hc1
        rw [hch] at hcn
        cases hcn
        rcases hr with ⟨hlt, hr⟩ | ⟨hge, rfl⟩
        · exact ih _ _ _ c1 child1 b hch (by omega) hr p hp
        · simp only [generateLeafGeometry, List.mem_singleton] at hp
          rw [hp]
          exact ⟨child1, hch, by omega, e2⟩

theorem HeapOK.has_parent (nodes : List TreeNode) (h : HeapOK nodes) (id : Nat) (hid : 1 ≤ id)
    (hlt : id < nodes.length) :
    ∃ (p : Nat) (pn : TreeNode), nodes[p]? = some pn ∧ p < id ∧
      (pn.children[0]? = some id ∨ pn.children[1]? = some id) := by
  have hmem : id ∈ childIds nodes := by
    rw [h.layout, List.mem_range'_1]
    omega
  unfold childIds at hmem
  simp only [List.mem_flatten, List.mem_map] at hmem
  obtain ⟨l, ⟨pn, hpn, rfl⟩, hin⟩ := hmem
  obtain ⟨p, hp⟩ := List.mem_iff_getElem?.mp hpn
  have hk := h.kids p pn hp
  obtain ⟨i, hi⟩ := List.mem_iff_getElem?.mp hin
  have hi2 : i < 2 := by
    have := (List.getElem?_eq_some_iff.mp hi).1
    have := hk.le2
    omega
  refine ⟨p, pn, hp, hk.gt id hin, ?_⟩
  interval_cases i
  · exact Or.inl hi
  · exact Or.inr hi

theorem generateSegmentGeometry_reaches (nodes : List TreeNode) (h : HeapOK nodes)
    (fuel : Nat) (sl sw : ℚ) (fw : Bool) (prims : List Primitive)
    (hp : generateSegmentGeometry nodes fuel sl sw fw 0 = some prims) :
    ∀ (n id : Nat), id ≤ n → ∀ nd, nodes[id]? = some nd →
      (nd.level < NUM_LEVELS →
        ∃ (f : Nat) (sl' sw' : ℚ) (out : List Primitive),
          generateSegmentGeometry nodes f sl' sw' fw id = some out ∧ ∀ p ∈ out, p ∈ prims) ∧
      (nd.level = NUM_LEVELS → nd.index = 0 →
        ∀ p ∈ generateLeafGeometry id, p ∈ prims) := by
  intro n
  induction n with
  | zero =>
    intro id hid nd hn
    obtain rfl : id = 0 := by omega
    obtain ⟨r, hr, hrl, -⟩ := h.root
    rw [hn] at hr
    cases hr
    refine ⟨fun _ => ⟨fuel, sl, sw, prims, hp, fun p hp => hp⟩, fun hl _ => ?_⟩
    rw [hrl] at hl
    exact absurd hl (by decide)
  | succ n ih =>
    intro id hid nd hn
    by_cases hle : id ≤ n
    · exact ih id hle nd hn
    have hlt : id < nodes.length := (List.getElem?_eq_some_iff.mp hn).1
    obtain ⟨p, pn, hpn, hpid, hch⟩ := h.has_parent nodes id (by omega) hlt
    have hk := h.kids p pn hpn
    have hbp := h.bounds p pn hpn
    have hb := h.bounds id nd hn
    have ihp := ih p (by omega) pn hpn
    -- the call on the parent, when the parent is drawn as a segment
    have hcall : pn.level < NUM_LEVELS →
        ∃ (f : Nat) (sl' sw' : ℚ) (out a b : List Primitive) (c : Primitive),
          generateSegmentGeometry nodes (f + 1) sl' sw' fw p = some out ∧
          (∀ q ∈ out, q ∈ prims) ∧ out = c :: (a ++ b) ∧
          ((pn.children[0]? = none ∧ a = []) ∨
            ∃ c0, pn.children[0]? = some c0 ∧
              generateSegmentGeometry nodes f sl' sw' fw c0 = some a) ∧
          ((pn.children[1]? = none ∧ b = []) ∨
            ∃ (c1 : Nat) (child1 : TreeNode), pn.children[1]? = some c1 ∧
              nodes[c1]? = some child1 ∧
              ((pn.level < NUM_LEVELS - 1 ∧
                ∃ sl'' sw'', generateSegmentGeometry nodes f sl'' sw'' fw c1 = some b) ∨
              (¬ pn.level < NUM_LEVELS - 1 ∧ b = generateLeafGeometry c1))) := by
      intro hpl
      obtain ⟨f, sl', sw', out, hout, hsub⟩ := ihp.1 hpl
      cases f with
      | zero => simp [generateSegmentGeometry] at hout
      | succ f =>
        obtain ⟨node, a, b, hn', e, ha, hb'⟩ :=
          generateSegmentGeometry_succ nodes f sl' sw' fw p out hout
        rw [hpn] at hn'
        cases hn'
        refine ⟨f, sl', sw', out, a, b, _, hout, hsub, e, ha, ?_⟩
        rcases hb' with hb' | ⟨c1, child1, h1, h2, h3⟩
        · exact Or.inl hb'
        · refine Or.inr ⟨c1, child1, h1, h2, ?_⟩
          rcases h3 with ⟨h3, h4⟩ | h3
          · exact Or.inl ⟨h3, _, _, h4⟩
          · exact Or.inr h3
    rcases hch with hc0 | hc1
    · obtain ⟨cn, hcn, e1, e2⟩ := hk.kid0 id hc0
      rw [hn] at hcn
      cases hcn
      refine ⟨fun hl => ?_, fun _ hi => ?_⟩
      · obtain ⟨f, sl', sw', out, a, b, c, hout, hsub, e, ha, -⟩ := hcall (by omega)
        rcases ha with ⟨hnone, -⟩ | ⟨c0, hc0', hr⟩
        · rw [hnone] at hc0
          cases hc0
        · rw [hc0] at hc0'
          cases hc0'
          refine ⟨f, sl', sw', a, hr, fun q hq => hsub q ?_⟩
          rw [e]
          simp [hq]
      · omega
    · obtain ⟨cn, hcn, e1, e2⟩ := hk.kid1 id hc1
      rw [hn] at hcn
      cases hcn
      obtain ⟨f, sl', sw', out, a, b, c, hout, hsub, e, -, hb'⟩ := hcall (by omega)
      rcases hb' with ⟨hnone, -⟩ | ⟨c1, child1, h1, h2, h3⟩
      · rw [hnone] at hc1
        cases hc1
      rw [hc1] at h1
      cases h1
      refine ⟨fun hl => ?_, fun hl _ => ?_⟩
      · rcases h3 with ⟨-, sl'', sw'', hr⟩ | ⟨hge, -⟩
        · refine ⟨f, sl'', sw'', b, hr, fun q hq => hsub q ?_⟩
          rw [e]
          simp [hq]
        · omega
      · rcases h3 with ⟨hlt', -⟩ | ⟨-, rfl⟩
        · omega
        · intro q hq
          apply hsub
          rw [e]
          simp [hq]

theorem generateGeometry_draws (t : PMTree2D) (h : HeapOK t.nodes) (hr : t.root = 0)
    (fuel : Nat) (fw : Bool) (prims : List Primitive)
    (hp : t.generateGeometry fuel fw = some prims) :
    (∀ p ∈ prims, DrawnOK t.nodes p) ∧
    ∀ (id : Nat) (nd : TreeNode), t.nodes[id]? = some nd →
      (nd.level < NUM_LEVELS →
        ∃ (r1 r2 h : ℚ) (col : ℚ × ℚ × ℚ × ℚ), Primitive.cylinder id r1 r2 h col ∈ prims) ∧
      (nd.level = NUM_LEVELS → nd.index = 0 →
        ∃ (r1 r2 : ℚ) (col : ℚ × ℚ × ℚ × ℚ), Primitive.circle id r1 r2 col ∈ prims) := by
  unfold PMTree2D.generateGeometry at hp
  rw [hr] at hp
  obtain ⟨r, hroot, hrl, -⟩ := h.root
  refine ⟨generateSegmentGeometry_sound t.nodes h fuel _ _ fw 0 r prims hroot
    (by rw [hrl]; decide) hp, ?_⟩
  intro id nd hn
  obtain ⟨h1, h2⟩ := generateSegmentGeometry_reaches t.nodes h fuel _ _ fw prims hp id id
    (le_refl _) nd hn
  refine ⟨fun hl => ?_, fun hl hi => ?_⟩
  · obtain ⟨f, sl', sw', out, hout, hsub⟩ := h1 hl
    cases f with
    | zero => simp [generateSegmentGeometry] at hout
    | succ f =>
      obtain ⟨node, a, b, -, e, -, -⟩ := generateSegmentGeometry_succ t.nodes f sl' sw' fw id
        out hout
      exact ⟨_, _, _, _, hsub _ (by rw [e]; exact List.mem_cons_self _ _)⟩
  · exact ⟨0.1 * 0.25, 0.1 * 0.5, (0, 0, 1, 1.0), h2 hl hi _ (by simp [generateLeafGeometry])⟩

theorem generateTrainingData_succ (nodes : List TreeNode) (fuel : Nat) (sl : ℚ) (id : Nat)
    (imgs : List LocalImage) (params : List (List ℚ))
    (h : generateTrainingData nodes (fuel + 1) sl id = some (imgs, params)) :
    ∃ (node : TreeNode) (lbl : List ℚ) (a b : List LocalImage × List (List ℚ)),
      nodes[id]? = some node ∧ trainingParams nodes node = some lbl ∧
      imgs = { node := id, segment_length := sl } :: (a.1 ++ b.1) ∧
      params = lbl :: (a.2 ++ b.2) ∧
      (∀ c0, node.children[0]? = some c0 →
        generateTrainingData nodes fuel sl c0 = some a ∧
        ∀ (c1 : Nat) (child1 : TreeNode), node.level ≤ 1 → node.children[1]? = some c1 →
          nodes[c1]? = some child1 →
          generateTrainingData nodes fuel (sl * child1.attenuationFactor) c1 = some b) := by
  unfold generateTrainingData at h
  cases hn : nodes[id]? with
  | none => rw [hn] at h; simp at h
  | some node =>
    rw [hn] at h
    simp only [] at h
    rw [if_neg (by norm_num)] at h
    cases hp : trainingParams nodes node with
    | none => rw [hp] at h; simp at h
    | some lbl =>
      rw [hp] at h
      simp only [] at h
      cases h0 : node.children[0]? with
      | none =>
        rw [h0] at h
        simp only [Option.some.injEq, Prod.mk.injEq] at h
        obtain ⟨rfl, rfl⟩ := h
        exact ⟨node, lbl, ([], []), ([], []), rfl, hp, rfl, rfl,
          fun c0 hc => by rw [h0] at hc; cases hc⟩
      | some c0 =>
        rw [h0] at h
        simp only [] at h
        cases ha : generateTrainingData nodes fuel sl c0 with
        | none => rw [ha] at h; simp at h
        | some a =>
          rw [ha] at h
          simp only [] at h
          cases h1 : (if node.level ≤ 1 then node.children[1]? else none) with
          | none =>
            rw [h1] at h
            simp only [Option.some.injEq, Prod.mk.injEq] at h
            obtain ⟨rfl, rfl⟩ := h
            refine ⟨node, lbl, a, ([], []), rfl, hp, by simp, by simp, ?_⟩
            intro c0' hc
            rw [h0] at hc
            cases hc
            refine ⟨ha, fun c1 child1 hl hc1 _ => ?_⟩
            rw [if_pos hl, hc1] at h1
            cases h1
          | some c1 =>
            rw [h1] at h
            simp only [] at h
            cases hn1 : nodes[c1]? with
            | none => rw [hn1] at h; simp at h
            | some child1 =>
              rw [hn1] at h
              simp only [] at h
              cases hb : generateTrainingData nodes fuel (sl * child1.attenuationFactor) c1 with
              | none => rw [hb] at h; simp at h
              | some b =>
                rw [hb] at h
                simp only [Option.some.injEq, Prod.mk.injEq] at h
                obtain ⟨rfl, rfl⟩ := h
                refine ⟨node, lbl, a, b, rfl, hp, by simp, by simp, ?_⟩
                intro c0' hc
                rw [h0] at hc
                cases hc
                refine ⟨ha, fun c1' child1' hl hc1 hch => ?_⟩
                rw [if_pos hl, hc1] at h1
                cases h1
                rw [hn1] at hch
                cases hch
                exact hb

theorem generateTrainingData_visited (nodes : List TreeNode) (id : Nat) (sl : ℚ) (id' : Nat)
    (sl' : ℚ) (hv : Visits nodes id sl id' sl') :
    ∀ (fuel : Nat) (imgs : List LocalImage) (params : List (List ℚ)),
      generateTrainingData nodes fuel sl id = some (imgs, params) →
      ∃ lbl, (({ node := id', segment_length := sl' } : LocalImage), lbl) ∈ imgs.zip params := by
  induction hv with
  | self id sl =>
    intro fuel imgs params h
    cases fuel with
    | zero => simp [generateTrainingData] at h
    | succ fuel =>
      obtain ⟨node, lbl, a, b, -, -, e1, e2, -⟩ := generateTrainingData_succ nodes fuel sl id
        imgs params h
      rw [e1, e2]
      exact ⟨lbl, by simp⟩
  | child0 id sl node c0 id' sl' hn hc0 _ ih =>
    intro fuel imgs params h
    cases fuel with
    | zero => simp [generateTrainingData] at h
    | succ fuel =>
      obtain ⟨node', lbl, a, b, hn', -, e1, e2, hrec⟩ := generateTrainingData_succ nodes fuel sl
        id imgs params h
      rw [hn] at hn'
      cases hn'
      obtain ⟨ha, -⟩ := hrec c0 hc0
      obtain ⟨l, hl⟩ := ih fuel a.1 a.2 ha
      have hlen := (generateTrainingData_samples nodes fuel sl c0 a.1 a.2 ha).length_eq
      refine ⟨l, ?_⟩
      rw [e1, e2, List.zip_cons_cons, List.zip_append hlen]
      simp [hl]
  | child1 id sl node c0 c1 child1 id' sl' hn hc0 hlv hc1 hch _ ih =>
    intro fuel imgs params h
    cases fuel with
    | zero => simp [generateTrainingData] at h
    | succ fuel =>
      obtain ⟨node', lbl, a, b, hn', -, e1, e2, hrec⟩ := generateTrainingData_succ nodes fuel sl
        id imgs params h
      rw [hn] at hn'
      cases hn'
      obtain ⟨ha, hb⟩ := hrec c0 hc0
      obtain ⟨l, hl⟩ := ih fuel b.1 b.2 (hb c1 child1 hlv hc1 hch)
      have hlen := (generateTrainingData_samples nodes fuel sl c0 a.1 a.2 ha).length_eq
      refine ⟨l, ?_⟩
      rw [e1, e2, List.zip_cons_cons, List.zip_append hlen]
      simp [hl]

theorem generateTrainingData_returns (t : PMTree2D) (h : HeapOK t.nodes) (hr : t.root = 0)
    (fuel : Nat) (hfuel : t.nodes.length ≤ fuel) :
    ∃ (imgs : List LocalImage) (params : List (List ℚ)),
      t.generateTrainingData fuel = some (imgs, params) ∧
      ∀ (id : Nat) (nd : TreeNode), t.nodes[id]? = some nd → nd.level < NUM_LEVELS →
        ∃ (sl : ℚ) (lbl : List ℚ),
          (({ node := id, segment_length := sl } : LocalImage), lbl) ∈ imgs.zip params := by
  obtain ⟨prims, hp, -⟩ := generateGeometry_count t h hr fuel hfuel false
  have hc := (generateGeometry_draws t h hr fuel false prims hp).2
  have hv : (t.generateTrainingData fuel).map sampleVisits =
      (t.generateGeometry fuel false).map segmentsOf :=
    generateTrainingData_visits t.nodes fuel _ _ _ _
  rw [hp] at hv
  cases hd : t.generateTrainingData fuel with
  | none => rw [hd] at hv; simp at hv
  | some r =>
    obtain ⟨imgs, params⟩ := r
    rw [hd] at hv
    simp only [Option.map_some', Option.some.injEq] at hv
    have hlen := (generateTrainingData_samples t.nodes fuel _ _ imgs params hd).length_eq
    refine ⟨imgs, params, rfl, ?_⟩
    intro id nd hn hl
    obtain ⟨r1, r2, hh, col, hm⟩ := (hc id nd hn).1 hl
    have hseg : (id, hh) ∈ segmentsOf prims := by
      unfold segmentsOf
      rw [List.mem_filterMap]
      exact ⟨_, hm, rfl⟩
    rw [← hv] at hseg
    simp only [sampleVisits, List.mem_map] at hseg
    obtain ⟨img, himg, e⟩ := hseg
    obtain ⟨i, hi⟩ := List.mem_iff_getElem?.mp himg
    have hilt : i < params.length := by
      have := (List.getElem?_eq_some_iff.mp hi).1
      omega
    refine ⟨hh, params[i], ?_⟩
    rw [List.mem_iff_getElem?]
    refine ⟨i, ?_⟩
    rw [List.getElem?_zip_eq_some]
    refine ⟨?_, List.getElem?_eq_getElem hilt⟩
    rw [hi]
    obtain ⟨n, s⟩ := img
    simp only [LocalImage.visit, Prod.mk.injEq] at e
    obtain ⟨rfl, rfl⟩ := e
    rfl

/-- C3, counterexample: with branching draws at the calls 4, 12 and 22 a node
of level 2 branches; the tree has 120 nodes, `to_string` writes 120 tuples and
geometry emission draws 91 primitives (90 cylinders and one leaf disc). -/
theorem to_string_geometry_count_counterexample :
    PMTree2D.generateRandom sinf0 (branchAt [4, 12, 22]) 120 = some leafBranch ∧
    (leafBranch.to_string 120).map List.length = some 120 ∧
    (leafBranch.generateGeometry 120 false).map List.length = some 91 ∧
    (leafBranch.to_string 120).map List.length ≠
      (leafBranch.generateGeometry 120 false).map List.length := by
  decide!

/-- C3, amended: for every tree built by `PMTree2D::generateRandom`,
`to_string` writes one tuple per node, in heap order, while geometry emission
draws exactly the nodes of level below NUM_LEVELS, as segments, and the first
node (index 0) of every branch of level NUM_LEVELS, as a leaf: every
primitive is one of these, every such node has its primitive, and the number
of tuples is the number of primitives plus the number of nodes of level
NUM_LEVELS and index at least 1. -/
theorem to_string_geometry_count (sinf : ℚ → ℚ) (rnd : Uniform) (fuel : Nat) (t : PMTree2D)
    (h : PMTree2D.generateRandom sinf rnd fuel = some t) (fuel' : Nat)
    (hfuel : t.nodes.length ≤ fuel') (fixed_width : Bool) :
    ∃ out prims, t.to_string fuel' = some out ∧
      t.generateGeometry fuel' fixed_width = some prims ∧
      out = t.nodes.map TreeNode.to_string ∧
      (∀ (id : Nat) (r1 r2 h : ℚ) (col : ℚ × ℚ × ℚ × ℚ),
        Primitive.cylinder id r1 r2 h col ∈ prims →
        ∃ nd, t.nodes[id]? = some nd ∧ nd.level < NUM_LEVELS) ∧
      (∀ (id : Nat) (r1 r2 : ℚ) (col : ℚ × ℚ × ℚ × ℚ),
        Primitive.circle id r1 r2 col ∈ prims →
        ∃ nd, t.nodes[id]? = some nd ∧ nd.level = NUM_LEVELS ∧ nd.index = 0) ∧
      (∀ (id : Nat) (nd : TreeNode), t.nodes[id]? = some nd →
        (nd.level < NUM_LEVELS →
          ∃ (r1 r2 h : ℚ) (col : ℚ × ℚ × ℚ × ℚ), Primitive.cylinder id r1 r2 h col ∈ prims) ∧
        (nd.level = NUM_LEVELS → nd.index = 0 →
          ∃ (r1 r2 : ℚ) (col : ℚ × ℚ × ℚ × ℚ), Primitive.circle id r1 r2 col ∈ prims)) ∧
      out.length = prims.length +
        (t.nodes.filter (fun nd => decide (nd.level = NUM_LEVELS ∧ 1 ≤ nd.index))).length := by
  obtain ⟨hh, hr⟩ := generateRandom_heapOK sinf rnd fuel t h
  obtain ⟨prims, hp, hpl⟩ := generateGeometry_count t hh hr fuel' hfuel fixed_width
  obtain ⟨hs, hc⟩ := generateGeometry_draws t hh hr fuel' fixed_width prims hp
  refine ⟨_, prims, to_string_of_heapOK t hh hr fuel' hfuel, hp, rfl,
    fun id r1 r2 h col hm => hs _ hm, fun id r1 r2 col hm => hs _ hm, hc, ?_⟩
  rw [List.length_map, hpl, ← List.countP_eq_length_filter,
    List.length_eq_countP_add_countP drawn t.nodes]
  congr 1
  apply List.countP_congr
  intro nd hnd
  obtain ⟨id, hid⟩ := List.mem_iff_getElem?.mp hnd
  have hb := hh.bounds id nd hid
  simp only [drawn, decide_eq_true_eq]
  constructor
  · intro hnot
    constructor <;> omega
  · intro hyes
    omega

/-- Witness of C3 (amended): the trunk-only tree, 30 nodes, none of level 3. -/
theorem to_string_geometry_count_witness :
    ∃ out prims, trunkOnly.to_string 30 = some out ∧
      trunkOnly.generateGeometry 30 false = some prims ∧
      out = trunkOnly.nodes.map TreeNode.to_string ∧
      (∀ (id : Nat) (r1 r2 h : ℚ) (col : ℚ × ℚ × ℚ × ℚ),
        Primitive.cylinder id r1 r2 h col ∈ prims →
        ∃ nd, trunkOnly.nodes[id]? = some nd ∧ nd.level < NUM_LEVELS) ∧
      (∀ (id : Nat) (r1 r2 : ℚ) (col : ℚ × ℚ × ℚ × ℚ),
        Primitive.circle id r1 r2 col ∈ prims →
        ∃ nd, trunkOnly.nodes[id]? = some nd ∧ nd.level = NUM_LEVELS ∧ nd.index = 0) ∧
      (∀ (id : Nat) (nd : TreeNode), trunkOnly.nodes[id]? = some nd →
        (nd.level < NUM_LEVELS →
          ∃ (r1 r2 h : ℚ) (col : ℚ × ℚ × ℚ × ℚ), Primitive.cylinder id r1 r2 h col ∈ prims) ∧
        (nd.level = NUM_LEVELS → nd.index = 0 →
          ∃ (r1 r2 : ℚ) (col : ℚ × ℚ × ℚ × ℚ), Primitive.circle id r1 r2 col ∈ prims)) ∧
      out.length = prims.length +
        (trunkOnly.nodes.filter
          (fun nd => decide (nd.level = NUM_LEVELS ∧ 1 ≤ nd.index))).length :=
  to_string_geometry_count sinf0 noBranch 30 trunkOnly (by decide!) 30 (by decide!) false

/-- C8: every call of `PMTree2D::generateTrainingData` that a run makes, on
the node it starts from and on the nodes it visits through its recursive
calls, appends one entry to `localImages` and, at the same position, one label
vector to `parameters`; the label vector of a visited node has exactly 4
elements: element 0 is 1 if the node has at least one child and 0 otherwise,
element 2 is 1 if it has at least two children and 0 otherwise, the element
after the flag of a present child k is (children[k].curveV + 90) / 180, and an
absent child gives the pair (0, 0.5). On a tree built by
`PMTree2D::generateRandom` the run returns and every node of level below
NUM_LEVELS has its sample. -/
theorem generateTrainingData_labels (t : PMTree2D) (fuel : Nat) :
    (∀ (segment_length : ℚ) (id : Nat) (localImages : List LocalImage)
      (parameters : List (List ℚ)),
      generateTrainingData t.nodes fuel segment_length id = some (localImages, parameters) →
      localImages.length = parameters.length ∧
      (∀ (id' : Nat) (sl' : ℚ), Visits t.nodes id segment_length id' sl' →
        ∃ lbl, (({ node := id', segment_length := sl' } : LocalImage), lbl) ∈
          localImages.zip parameters) ∧
      ∀ (i : Nat) (img : LocalImage) (lbl : List ℚ), localImages[i]? = some img →
        parameters[i]? = some lbl →
        ∃ nd, t.nodes[img.node]? = some nd ∧
          lbl.length = 4 ∧
          lbl[0]? = some (if 1 ≤ nd.children.length then 1 else 0) ∧
          lbl[2]? = some (if 2 ≤ nd.children.length then 1 else 0) ∧
          (∀ k c, k < 2 → nd.children[k]? = some c →
            ∃ cn, t.nodes[c]? = some cn ∧ lbl[2 * k + 1]? = some ((cn.curveV + 90) / 180)) ∧
          (∀ k, k < 2 → nd.children[k]? = none →
            lbl[2 * k]? = some 0 ∧ lbl[2 * k + 1]? = some (0.5 : ℚ))) ∧
    (∀ (sinf : ℚ → ℚ) (rnd : Uniform) (fuelG : Nat),
      PMTree2D.generateRandom sinf rnd fuelG = some t → t.nodes.length ≤ fuel →
      ∃ (localImages : List LocalImage) (parameters : List (List ℚ)),
        t.generateTrainingData fuel = some (localImages, parameters) ∧
        ∀ (id : Nat) (nd : TreeNode), t.nodes[id]? = some nd → nd.level < NUM_LEVELS →
          ∃ (sl : ℚ) (lbl : List ℚ),
            (({ node := id, segment_length := sl } : LocalImage), lbl) ∈
              localImages.zip parameters) := by
  constructor
  · intro sl id imgs params h
    have hs := generateTrainingData_samples t.nodes fuel sl id _ _ h
    refine ⟨hs.length_eq,
      fun id' sl' hv => generateTrainingData_visited t.nodes id sl id' sl' hv fuel imgs params h,
      ?_⟩
    intro i img lbl hi hl
    obtain ⟨nd, hnd, hp⟩ := forall₂_getElem? (SampleOf t.nodes) _ _ hs i img lbl hi hl
    exact ⟨nd, hnd, trainingParams_labelOK t.nodes nd lbl hp⟩
  · intro sinf rnd fuelG hg hfuel
    obtain ⟨hh, hr⟩ := generateRandom_heapOK sinf rnd fuelG t hg
    exact generateTrainingData_returns t hh hr fuel hfuel

/-- Witness of C8: a heap of two nodes, the second the only child of the
first, for the calls and the labels; the trunk-only tree for the return. -/
theorem generateTrainingData_labels_witness :
    (twoSamples.1.length = twoSamples.2.length ∧
      (∀ (id' : Nat) (sl' : ℚ), Visits twoNodes 0 1 id' sl' →
        ∃ lbl, (({ node := id', segment_length := sl' } : LocalImage), lbl) ∈
          twoSamples.1.zip twoSamples.2) ∧
      ∀ (i : Nat) (img : LocalImage) (lbl : List ℚ), twoSamples.1[i]? = some img →
        twoSamples.2[i]? = some lbl →
        ∃ nd, twoNodes[img.node]? = some nd ∧
          lbl.length = 4 ∧
          lbl[0]? = some (if 1 ≤ nd.children.length then 1 else 0) ∧
          lbl[2]? = some (if 2 ≤ nd.children.length then 1 else 0) ∧
          (∀ k c, k < 2 → nd.children[k]? = some c →
            ∃ cn, twoNodes[c]? = some cn ∧ lbl[2 * k + 1]? = some ((cn.curveV + 90) / 180)) ∧
          (∀ k, k < 2 → nd.children[k]? = none →
            lbl[2 * k]? = some 0 ∧ lbl[2 * k + 1]? = some (0.5 : ℚ))) ∧
    ∃ (localImages : List LocalImage) (parameters : List (List ℚ)),
      trunkOnly.generateTrainingData 30 = some (localImages, parameters) ∧
      ∀ (id : Nat) (nd : TreeNode), trunkOnly.nodes[id]? = some nd → nd.level < NUM_LEVELS →
        ∃ (sl : ℚ) (lbl : List ℚ),
          (({ node := id, segment_length := sl } : LocalImage), lbl) ∈
            localImages.zip parameters :=
  ⟨(generateTrainingData_labels ⟨twoNodes, 0⟩ 2).1 1 0 twoSamples.1 twoSamples.2 (by decide!),
    (generateTrainingData_labels trunkOnly 30).2 sinf0 noBranch 30 (by decide!) (by decide!)⟩

end pmtree

namespace GLWidget3D

theorem toInt32_of_le (x : Int) (h0 : 0 ≤ x) (h1 : x ≤ 2147483647) : toInt32 x = x := by
  unfold toInt32
  omega

theorem toInt32_succ (x : Int) : toInt32 (toInt32 x + 1) = toInt32 (x + 1) := by
  unfold toInt32
  omega

theorem countPatch_eq_foldl (patch : Mat) :
    countPatch patch = (pixels patch).foldl countPixel { trunk := 0, branch := 0, leaf := 0 } := by
  unfold countPatch pixels
  rw [List.foldl_flatten, List.foldl_map]
  congr 1
  funext k r
  rw [List.foldl_map]

theorem length_pixels (patch : Mat) : (pixels patch).length = patch.rows * patch.cols := by
  unfold pixels
  rw [List.length_flatten, List.map_map]
  have : (List.length ∘ fun r => (List.range patch.cols).map (fun c => patch.px r c)) =
      fun _ => patch.cols := by
    funext r
    simp
  rw [this, List.map_const', List.sum_replicate]
  simp

theorem mem_pixels (patch : Mat) (p : Nat × Nat × Nat) (h : p ∈ pixels patch) :
    ∃ r c, r < patch.rows ∧ c < patch.cols ∧ p = patch.px r c := by
  unfold pixels at h
  simp only [List.mem_flatten, List.mem_map, List.mem_range] at h
  obtain ⟨l, ⟨r, hr, rfl⟩, hp⟩ := h
  simp only [List.mem_map, List.mem_range] at hp
  obtain ⟨c, hc, rfl⟩ := hp
  exact ⟨r, c, hr, hc, rfl⟩

theorem countPixel_eq (a b c : Int) (p : Nat × Nat × Nat) :
    countPixel { trunk := toInt32 a, branch := toInt32 b, leaf := toInt32 c } p =
      { trunk := toInt32 (a + (if redDominant p then 1 else 0))
        branch := toInt32 (b + (if greenDominant p then 1 else 0))
        leaf := toInt32 (c + (if blueDominant p then 1 else 0)) } := by
  obtain ⟨b, g, r⟩ := p
  unfold countPixel redDominant greenDominant blueDominant isBackground
  simp only []
  by_cases hbg : b > 240 ∧ g > 240 ∧ r > 240 <;> by_cases h1 : r > g ∧ r > b <;>
    by_cases h2 : g > r ∧ g > b <;> by_cases h3 : b > g ∧ b > r <;>
    first
      | (exfalso; omega)
      | simp [hbg, h1, h2, h3, toInt32_succ]

theorem foldl_countPixel (l : List (Nat × Nat × Nat)) :
    ∀ a b c : Int,
      l.foldl countPixel { trunk := toInt32 a, branch := toInt32 b, leaf := toInt32 c } =
      { trunk := toInt32 (a + l.countP redDominant)
        branch := toInt32 (b + l.countP greenDominant)
        leaf := toInt32 (c + l.countP blueDominant) } := by
  induction l with
  | nil => intro a b c; simp
  | cons p l ih =>
    intro a b c
    rw [List.foldl_cons, countPixel_eq, ih]
    simp only [List.countP_cons, Counts.mk.injEq]
    refine ⟨?_, ?_, ?_⟩ <;> congr 1 <;> split <;> simp <;> omega

theorem countP_foreground (l : List (Nat × Nat × Nat)) :
    l.countP redDominant + l.countP greenDominant + l.countP blueDominant =
      l.countP isForeground := by
  induction l with
  | nil => rfl
  | cons p l ih =>
    simp only [List.countP_cons]
    have : (if redDominant p = true then 1 else 0) + (if greenDominant p = true then 1 else 0) +
        (if blueDominant p = true then 1 else 0) = if isForeground p = true then 1 else 0 := by
      obtain ⟨b, g, r⟩ := p
      unfold isForeground redDominant greenDominant blueDominant
      by_cases h1 : r > g ∧ r > b <;> by_cases h2 : g > r ∧ g > b <;>
        by_cases h3 : b > g ∧ b > r <;> cases isBackground (b, g, r) <;>
        first
          | (exfalso; omega)
          | simp [h1, h2, h3]
    omega

theorem countPatch_counts (patch : Mat) :
    countPatch patch =
      { trunk := toInt32 ((pixels patch).countP redDominant)
        branch := toInt32 ((pixels patch).countP greenDominant)
        leaf := toInt32 ((pixels patch).countP blueDominant) } ∧
    (pixels patch).countP redDominant + (pixels patch).countP greenDominant +
      (pixels patch).countP blueDominant = foregroundCount patch ∧
    foregroundCount patch ≤ patch.rows * patch.cols := by
  refine ⟨?_, countP_foreground (pixels patch), ?_⟩
  · rw [countPatch_eq_foldl]
    have h0 : (0 : Int) = toInt32 0 := by decide
    have := foldl_countPixel (pixels patch) 0 0 0
    simp only [zero_add] at this
    rw [← this]
    congr 1
  · rw [← length_pixels]
    exact List.countP_le_length _

theorem countP_zero_of_background (patch : Mat)
    (hbg : ∀ r c, r < patch.rows → c < patch.cols →
      (patch.px r c).1 > 240 ∧ (patch.px r c).2.1 > 240 ∧ (patch.px r c).2.2 > 240) :
    (pixels patch).countP redDominant = 0 ∧ (pixels patch).countP greenDominant = 0 ∧
      (pixels patch).countP blueDominant = 0 := by
  have hb : ∀ p ∈ pixels patch, isBackground p = true := by
    intro p hp
    obtain ⟨r, c, hr, hc, rfl⟩ := mem_pixels patch p hp
    simpa [isBackground] using hbg r c hr hc
  refine ⟨?_, ?_, ?_⟩ <;> rw [List.countP_eq_zero] <;> intro p hp <;>
    simp [redDominant, greenDominant, blueDominant, hb p hp]

theorem computePatchType_of_background (patch : Mat)
    (hbg : ∀ r c, r < patch.rows → c < patch.cols →
      (patch.px r c).1 > 240 ∧ (patch.px r c).2.1 > 240 ∧ (patch.px r c).2.2 > 240) :
    computePatchType patch =
      if 0 < Int.tdiv (toInt32 ((patch.rows : Int) * (patch.cols : Int))) 100 then 0 else 3 := by
  obtain ⟨h1, h2, h3⟩ := countP_zero_of_background patch hbg
  unfold computePatchType
  rw [(countPatch_counts patch).1, h1, h2, h3]
  simp [toInt32]

theorem computePatchType_of_red (patch : Mat)
    (hred : ∀ r c, r < patch.rows → c < patch.cols → redDominant (patch.px r c) = true) :
    (pixels patch).countP redDominant = patch.rows * patch.cols ∧
    computePatchType patch =
      (let trunk := toInt32 ((patch.rows * patch.cols : Nat) : Int)
       if toInt32 (toInt32 (trunk + 0) + 0) <
          Int.tdiv (toInt32 ((patch.rows : Int) * (patch.cols : Int))) 100 then 0
       else if trunk > 0 ∧ trunk > 0 then 1 else 3) := by
  have hr : ∀ p ∈ pixels patch, redDominant p = true := by
    intro p hp
    obtain ⟨r, c, hr, hc, rfl⟩ := mem_pixels patch p hp
    exact hred r c hr hc
  have h1 : (pixels patch).countP redDominant = patch.rows * patch.cols := by
    rw [← length_pixels, List.countP_eq_length]
    exact hr
  have hnot : ∀ p ∈ pixels patch, greenDominant p = false ∧ blueDominant p = false := by
    intro p hp
    have := hr p hp
    obtain ⟨b, g, r⟩ := p
    simp only [redDominant, greenDominant, blueDominant, Bool.and_eq_true, decide_eq_true_eq,
      Bool.and_eq_false_imp] at this ⊢
    constructor <;> intro h <;> omega
  have h2 : (pixels patch).countP greenDominant = 0 := by
    rw [List.countP_eq_zero]
    intro p hp
    simp [(hnot p hp).1]
  have h3 : (pixels patch).countP blueDominant = 0 := by
    rw [List.countP_eq_zero]
    intro p hp
    simp [(hnot p hp).2]
  refine ⟨h1, ?_⟩
  unfold computePatchType
  rw [(countPatch_counts patch).1, h1, h2, h3]
  have h0 : toInt32 ((0 : Nat) : Int) = 0 := by decide
  simp only [h0]
  split_ifs <;> first | rfl | (exfalso; omega)

theorem classify_of_le (t b l A : Nat) (hA : A ≤ 2147483647) (hs : t + b + l ≤ A) :
    toInt32 (t : Int) = t ∧ toInt32 (b : Int) = b ∧ toInt32 (l : Int) = l ∧
    toInt32 ((t : Int) + b) = t + b ∧ toInt32 ((t : Int) + b + l) = t + b + l ∧
    toInt32 (A : Int) = A ∧ Int.tdiv (A : Int) 100 = ((A / 100 : Nat) : Int) := by
  refine ⟨toInt32_of_le _ (by omega) (by omega), toInt32_of_le _ (by omega) (by omega),
    toInt32_of_le _ (by omega) (by omega), toInt32_of_le _ (by omega) (by omega),
    toInt32_of_le _ (by omega) (by omega), toInt32_of_le _ (by omega) (by omega), ?_⟩
  rw [Int.tdiv_eq_ediv (by omega) (by omega)]
  omega

theorem computePatchType_of_le (patch : Mat) (hmax : patch.rows * patch.cols ≤ INT_MAX) :
    computePatchType patch =
      if (pixels patch).countP redDominant + (pixels patch).countP greenDominant +
          (pixels patch).countP blueDominant < patch.rows * patch.cols / 100 then 0
      else if (pixels patch).countP redDominant > (pixels patch).countP greenDominant ∧
          (pixels patch).countP redDominant > (pixels patch).countP blueDominant then 1
      else if (pixels patch).countP greenDominant > (pixels patch).countP blueDominant then 2
      else 3 := by
  obtain ⟨h1, h2, h3⟩ := countPatch_counts patch
  have hA : (patch.rows : Int) * (patch.cols : Int) = ((patch.rows * patch.cols : Nat) : Int) := by
    push_cast
    rfl
  have hs := h2.trans_le h3
  obtain ⟨et, eb, el, e2, e3, eA, ed⟩ := classify_of_le _ _ _ _ hmax hs
  unfold computePatchType
  rw [h1]
  simp only []
  rw [hA, eA, ed, et, eb, el, e2, e3]
  by_cases c1 : (pixels patch).countP redDominant + (pixels patch).countP greenDominant +
      (pixels patch).countP blueDominant < patch.rows * patch.cols / 100
  · rw [if_pos c1, if_pos (by exact_mod_cast c1)]
  · rw [if_neg c1, if_neg (by exact_mod_cast c1)]
    by_cases c2 : (pixels patch).countP redDominant > (pixels patch).countP greenDominant ∧
        (pixels patch).countP redDominant > (pixels patch).countP blueDominant
    · rw [if_pos c2, if_pos (by exact_mod_cast c2)]
    · rw [if_neg c2, if_neg (by exact_mod_cast c2)]
      by_cases c3 : (pixels patch).countP greenDominant > (pixels patch).countP blueDominant
      · rw [if_pos c3, if_pos (by exact_mod_cast c3)]
      · rw [if_neg c3, if_neg (by exact_mod_cast c3)]

/-! ## Claims about the patch classifier -/

/-- C4, counterexample: a 1x1 white patch has every channel at least 240 and
is classified 3 (leaf); a 10x10 patch of pixels (blue 240, green 240, red 241)
has every channel at least 240 and is classified 1 (trunk); a 46341x46341
white patch, whose area exceeds the largest `int`, is classified 3 (leaf). -/
theorem computePatchType_background_counterexample :
    (∀ r c, 240 ≤ (whitePixel.px r c).1 ∧ 240 ≤ (whitePixel.px r c).2.1 ∧
      240 ≤ (whitePixel.px r c).2.2) ∧ computePatchType whitePixel = 3 ∧
    (∀ r c, 240 ≤ (paleRed.px r c).1 ∧ 240 ≤ (paleRed.px r c).2.1 ∧
      240 ≤ (paleRed.px r c).2.2) ∧ computePatchType paleRed = 1 ∧
    (∀ r c, 240 ≤ (hugeWhite.px r c).1 ∧ 240 ≤ (hugeWhite.px r c).2.1 ∧
      240 ≤ (hugeWhite.px r c).2.2) ∧ computePatchType hugeWhite = 3 := by
  refine ⟨fun _ _ => by simp [whitePixel], by decide!, fun _ _ => by simp [paleRed], by decide!,
    fun _ _ => by simp [hugeWhite], ?_⟩
  rw [computePatchType_of_background hugeWhite (fun _ _ _ _ => by simp [hugeWhite])]
  decide

/-- C4, amended: a patch of at least 100 and at most `INT_MAX` = 2147483647
pixels in which every pixel has all three channels above 240 is classified 0
(background); in particular a 100x100 all-white patch is. -/
theorem computePatchType_background (patch : Mat)
    (hbg : ∀ r c, r < patch.rows → c < patch.cols →
      (patch.px r c).1 > 240 ∧ (patch.px r c).2.1 > 240 ∧ (patch.px r c).2.2 > 240)
    (hsize : 100 ≤ patch.rows * patch.cols) (hmax : patch.rows * patch.cols ≤ INT_MAX) :
    computePatchType patch = 0 := by
  obtain ⟨h1, h2, h3⟩ := countP_zero_of_background patch hbg
  rw [computePatchType_of_le patch hmax, h1, h2, h3, if_pos (by omega)]

/-- Witness of C4 (amended): the 100x100 all-white patch. -/
theorem computePatchType_background_witness : computePatchType white100 = 0 :=
  computePatchType_background white100 (fun _ _ _ _ => by simp [white100]) (by decide)
    (by decide)

/-- C5, counterexample: a 10x15 patch with one red pixel and 149 white ones
has 1 foreground pixel, less than 1% of its area (1.5), and is classified 1
(trunk); a 46341x46341 white patch, whose area exceeds the largest `int`, has
no foreground pixel and is classified 3 (leaf). -/
theorem computePatchType_below_counterexample :
    100 * foregroundCount oneRedPixel < oneRedPixel.rows * oneRedPixel.cols ∧
    computePatchType oneRedPixel = 1 ∧
    100 * foregroundCount hugeWhite < hugeWhite.rows * hugeWhite.cols ∧
    computePatchType hugeWhite = 3 := by
  refine ⟨by decide!, by decide!, ?_, ?_⟩
  · have h := countP_zero_of_background hugeWhite (fun _ _ _ _ => by simp [hugeWhite])
    have h2 := (countPatch_counts hugeWhite).2.1
    rw [h.1, h.2.1, h.2.2] at h2
    rw [← h2]
    decide
  · rw [computePatchType_of_background hugeWhite (fun _ _ _ _ => by simp [hugeWhite])]
    decide

/-- C5, amended: a patch of at most `INT_MAX` = 2147483647 pixels whose number
of foreground pixels is less than the integer part of 1% of the patch area is
classified 0 (background), whatever the channel dominance of these pixels. -/
theorem computePatchType_below (patch : Mat)
    (h : foregroundCount patch < patch.rows * patch.cols / 100)
    (hmax : patch.rows * patch.cols ≤ INT_MAX) :
    computePatchType patch = 0 := by
  rw [computePatchType_of_le patch hmax, if_pos (by rw [(countPatch_counts patch).2.1]; exact h)]

/-- Witness of C5 (amended): a 10x20 patch with one red pixel. -/
theorem computePatchType_below_witness : computePatchType oneRedWide = 0 :=
  computePatchType_below oneRedWide (by decide!) (by decide)

/-- C6, counterexample: in a 46341x46341 patch of red pixels, whose area
2147488281 exceeds the largest `int`, every pixel is red-dominant and the
patch is classified 0 (background): the counter `trunk` has wrapped to
-2147479015, below the threshold -21474790. -/
theorem computePatchType_trunk_counterexample :
    hugeRed.rows * hugeRed.cols < 2 * (pixels hugeRed).countP redDominant ∧
    computePatchType hugeRed = 0 ∧ computePatchType hugeRed ≠ 1 := by
  obtain ⟨h1, h2⟩ := computePatchType_of_red hugeRed
    (fun _ _ _ _ => by simp [hugeRed, redDominant, isBackground])
  have e : computePatchType hugeRed = 0 := by
    rw [h2]
    decide
  refine ⟨?_, e, ?_⟩
  · rw [h1]
    decide
  · rw [e]
    decide

/-- C6, amended: a patch of at most `INT_MAX` = 2147483647 pixels in which
more than half of the pixels are red-dominant (red above green and blue, and
not all three channels above 240) is classified 1 (trunk). -/
theorem computePatchType_trunk (patch : Mat)
    (h : patch.rows * patch.cols < 2 * (pixels patch).countP redDominant)
    (hmax : patch.rows * patch.cols ≤ INT_MAX) :
    computePatchType patch = 1 := by
  obtain ⟨-, h2, h3⟩ := countPatch_counts patch
  rw [computePatchType_of_le patch hmax, if_neg (by omega), if_pos (by omega)]

/-- Witness of C6 (amended): a 2x2 patch, three pixels red and one green. -/
theorem computePatchType_trunk_witness : computePatchType mostlyRed = 1 :=
  computePatchType_trunk mostlyRed (by decide) (by decide)

theorem readGroup_ok {α : Type} (toFloat : α → ℚ) (data : List α) (i : Nat) :
    ∀ (n k : Nat) (ps : List ℚ), i * 63 + k + n ≤ data.length →
      readGroup toFloat data i n k ps =
        Except.ok (ps ++ ((data.drop (i * 63 + k)).take n).map toFloat) := by
  intro n
  induction n with
  | zero => intro k ps _; simp [readGroup]
  | succ n ih =>
    intro k ps h
    have hlt : i * 63 + k < data.length := by omega
    unfold readGroup
    rw [List.getElem?_eq_getElem hlt]
    simp only []
    rw [ih (k + 1) _ (by omega), List.drop_eq_getElem_cons hlt, List.take_succ_cons]
    simp [Nat.add_assoc]

theorem parseGroups_ok {α : Type} (toFloat : α → ℚ) (data : List α) (k : Nat)
    (hk : data.length = 63 * k) :
    ∀ (m i fuel : Nat) (params : List (List ℚ)), i + m = k → m ≤ fuel →
      parseGroups toFloat data fuel i params =
        some (Parsed.params (params ++ (List.range' i m).map (groupOf toFloat data))) := by
  intro m
  induction m with
  | zero =>
    intro i fuel params hi _
    unfold parseGroups
    rw [if_neg (by omega)]
    simp
  | succ m ih =>
    intro i fuel params hi hfuel
    obtain ⟨f, rfl⟩ : ∃ f, fuel = f + 1 := ⟨fuel - 1, by omega⟩
    unfold parseGroups
    rw [if_pos (by omega)]
    simp only []
    rw [readGroup_ok toFloat data i 63 0 [] (by omega)]
    simp only []
    rw [ih (i + 1) f _ (by omega) (by omega)]
    simp [List.range'_succ, groupOf]

/-- C14, at the failing input: for a line with one field the loop passes the
guard `0 * 63 < 1`, starts the group 0 and evaluates `data[1]`, past the end
of the line, where the claim says that no field at an index at or above the
number of fields is read. -/
theorem parseGroups_counterexample :
    shortRecord.length = 1 ∧ shortRecord.length % 63 ≠ 0 ∧
    parseGroups (fun x => x) shortRecord 1 0 [] = some (Parsed.pastEnd 1) := by
  decide!

/-- The records that the loop reads within bounds: for an input line whose
number of fields is a multiple 63 k of the group width, the group-parsing
loop of `generatePredictedData` reads no field past the end of the line and
yields exactly k groups of 63 values, the group i holding the fields 63 i to
63 i + 62 in order. -/
theorem parseGroups_multiple {α : Type} (toFloat : α → ℚ) (data : List α) (k : Nat)
    (hk : data.length = 63 * k) (fuel : Nat) (hfuel : k ≤ fuel) :
    ∃ groups, parseGroups toFloat data fuel 0 [] = some (Parsed.params groups) ∧
      groups.length = k ∧ (∀ g ∈ groups, g.length = 63) ∧
      groups = (List.range k).map (fun i => ((data.drop (i * 63)).take 63).map toFloat) := by
  refine ⟨_, parseGroups_ok toFloat data k hk k 0 fuel [] (by omega) hfuel, ?_, ?_, ?_⟩
  · simp
  · intro g hg
    simp only [List.nil_append, List.mem_map, List.mem_range'_1] at hg
    obtain ⟨i, hi, rfl⟩ := hg
    simp only [groupOf, List.length_map, List.length_take, List.length_drop]
    have : i * 63 + 63 ≤ data.length := by omega
    omega
  · simp only [List.nil_append, List.range_eq_range']
    rfl

/-- A line of 126 fields gives 2 groups. -/
theorem parseGroups_multiple_witness :
    ∃ groups, parseGroups (fun x => x) longRecord 2 0 [] = some (Parsed.params groups) ∧
      groups.length = 2 ∧ (∀ g ∈ groups, g.length = 63) ∧
      groups = (List.range 2).map
        (fun i => ((longRecord.drop (i * 63)).take 63).map (fun x => x)) :=
  parseGroups_multiple (fun x => x) longRecord 2 (by decide!) 2 (le_refl _)

end GLWidget3D
